import Mathlib

/-! RAPTOR: a shallow embedding of `raptor.cpp` and `bag.hpp`.

The C++ engine keeps its scratch arrays in `std::vector`s indexed by node id.
They are embedded as lists; a read is `List.getD` and a write is `List.set`.
The C++ behaviour is defined only for indices inside the vector, and every
statement below that depends on an index being inside says so.

The headers `raptor.hpp` and `data_structure.hpp` are not among the sources, so
the types they declare (`Time`, `StopTime`, `Transfer`, `Stop`, `Route`,
`Timetable`, the queue type) are reconstructed from the way `raptor.cpp` uses
them and from the data model of the specification.
-/

namespace Raptor

/-! ## Time -/

/-- Modelled from the spec: the class `Time` of `data_structure.hpp`, which is
not among the sources. A time is a totally ordered scalar with a sentinel `INF`
for "unreached"; arithmetic saturates (`INF + x = INF`) and comparisons with
`INF` behave normally. A default-constructed `Time` is `INF`. -/
inductive Time where
  | fin (v : Int)
  | inf
deriving DecidableEq, Repr

namespace Time

instance : Inhabited Time := ⟨Time.inf⟩

/-- Boolean `<=` on times: `INF` is the greatest element. -/
def ble : Time → Time → Bool
  | fin a, fin b => decide (a ≤ b)
  | _, inf => true
  | inf, fin _ => false

/-- Boolean `<` on times. -/
def blt : Time → Time → Bool
  | fin a, fin b => decide (a < b)
  | fin _, inf => true
  | inf, _ => false

/-- Saturating addition: `INF + x = x + INF = INF`. -/
def add : Time → Time → Time
  | fin a, fin b => fin (a + b)
  | _, _ => inf

instance : Add Time := ⟨Time.add⟩

instance : LE Time := ⟨fun a b => ble a b = true⟩

instance : LT Time := ⟨fun a b => blt a b = true⟩

instance decLe (a b : Time) : Decidable (a ≤ b) :=
  inferInstanceAs (Decidable (ble a b = true))

instance decLt (a b : Time) : Decidable (a < b) :=
  inferInstanceAs (Decidable (blt a b = true))

instance : LinearOrder Time where
  le := (· ≤ ·)
  lt := (· < ·)
  le_refl a := by
    show ble a a = true
    cases a <;> simp [ble]
  le_trans a b c := by
    show ble a b = true → ble b c = true → ble a c = true
    cases a <;> cases b <;> cases c <;> simp [ble]
    omega
  lt_iff_le_not_le a b := by
    show blt a b = true ↔ ble a b = true ∧ ¬ ble b a = true
    cases a <;> cases b <;> simp [ble, blt]
    omega
  le_antisymm a b := by
    show ble a b = true → ble b a = true → a = b
    cases a <;> cases b <;> simp [ble]
    omega
  le_total a b := by
    show ble a b = true ∨ ble b a = true
    cases a <;> cases b <;> simp [ble]
    omega
  decidableLE := decLe
  decidableLT := decLt

end Time

/-! ## Labels (`bag.hpp`) -/

/-- The class `Label` of `bag.hpp`: an arrival time and a walking time. -/
structure Label where
  _arrival_time : Time
  _walking_time : Time
deriving DecidableEq, Repr

/-- `Label::dominates` of `bag.hpp`. -/
def Label.dominates (this other : Label) : Bool :=
  (decide (this._arrival_time ≤ other._arrival_time) &&
    decide (this._walking_time < other._walking_time)) ||
  (decide (this._arrival_time < other._arrival_time) &&
    decide (this._walking_time ≤ other._walking_time))

/-! ## Timetable (the parts `raptor.cpp` reads) -/

/-- Modelled from the spec: `StopTime` (declared in `data_structure.hpp`), the
arrival and departure time of one trip at one stop. -/
structure StopTime where
  arr : Time
  dep : Time
deriving DecidableEq, Repr

instance : Inhabited StopTime := ⟨⟨Time.inf, Time.inf⟩⟩

/-- Modelled from the spec: a walking transfer `(dest, time)`. -/
structure Transfer where
  dest : Nat
  time : Time
deriving DecidableEq, Repr

/-- Modelled from the spec: a stop, with the fields `raptor.cpp` reads. The
hub lists hold pairs `(walking_time, hub_id)`. -/
structure Stop where
  id : Nat
  routes : List Nat
  transfers : List Transfer
  out_hubs : List (Time × Nat)

instance : Inhabited Stop := ⟨⟨0, [], [], []⟩⟩

/-- Modelled from the spec: a route, with the fields `raptor.cpp` reads.
`stop_positions` is a finite map from node id to index, given as a partial
function (`none`: the key is absent). -/
structure Route where
  stops : List Nat
  stop_positions : Nat → Option Nat
  trips : List Nat
  stop_times_by_trips : List (List StopTime)
  stop_times_by_stops : List (List StopTime)

instance : Inhabited Route := ⟨⟨[], fun _ => none, [], [], []⟩⟩

/-- Modelled from the spec: the timetable, with the fields `raptor.cpp` reads.
`trip_positions` sends a trip id to the pair (route, position of the trip in
the route); `walking_time` is the hub-based walking distance. -/
structure Timetable where
  stops : List Stop
  routes : List Route
  trip_positions : Nat → Nat × Nat
  inverse_in_hubs : List (List (Time × Nat))
  walking_time : Nat → Nat → Time
  max_stop_id : Nat
  max_node_id : Nat

/-- A trip id, or the sentinel `NULL_TRIP` (`none`). -/
abbrev trip_id_t := Option Nat

/-- The sentinel `NULL_TRIP`. -/
abbrev NULL_TRIP : trip_id_t := none

/-- The queue of stage 2: a map from route id to stop id, kept as an
association list with one entry per key. The list is read by key (`lookup`);
the order in which the container hands out its pairs to a range-for is not
fixed by the sources (the type is declared in `raptor.hpp`), so the round loop
takes that order as a parameter. -/
abbrev route_stop_queue_t := List (Nat × Nat)

/-- `queue[route_id] = stop_id` on the queue: overwrite the entry of the key,
or add one. -/
def queue_assign : route_stop_queue_t → Nat → Nat → route_stop_queue_t
  | [], route_id, stop_id => [(route_id, stop_id)]
  | (r, p) :: queue, route_id, stop_id =>
    if r = route_id then (route_id, stop_id) :: queue
    else (r, p) :: queue_assign queue route_id stop_id

/-! ## Engine state -/

/-- The scratch state of a `Raptor` engine. -/
structure State where
  earliest_arrival_time : List Time
  prev_earliest_arrival_time : List Time
  stop_is_marked : List Bool
  tmp_hub_labels : List Time
  stops_improved : Bool
deriving DecidableEq, Repr

/-- What a call can do: return its value and leave the engine in a state, throw
(`std::out_of_range` from `stop_positions.at`), or still be running when the
fuel of the model is used up. -/
inductive Outcome (α : Type) where
  | returned (value : α) (st : State)
  | threw
  | timeout
deriving DecidableEq, Repr

/-! ## `raptor.cpp` -/

/-- `Raptor::check_stops_order`: `none` when one of the two `.at` calls throws. -/
def check_stops_order (tt : Timetable) (route_id stop1 stop2 : Nat) : Option Bool :=
  let route := tt.routes.getD route_id default
  match route.stop_positions stop1 with
  | none => none
  | some idx1 =>
    match route.stop_positions stop2 with
    | none => none
    | some idx2 => some (decide (idx1 < idx2))

/-- The loop over `stop.routes` in `Raptor::make_queue`, for one marked stop. -/
def make_queue_routes (tt : Timetable) (stop_id : Nat) :
    List Nat → route_stop_queue_t → Option route_stop_queue_t
  | [], queue => some queue
  | route_id :: rest, queue =>
    match queue.lookup route_id with
    | some p =>
      match check_stops_order tt route_id stop_id p with
      | none => none
      | some true => make_queue_routes tt stop_id rest (queue_assign queue route_id stop_id)
      | some false => make_queue_routes tt stop_id rest queue
    | none => make_queue_routes tt stop_id rest (queue_assign queue route_id stop_id)

/-- The loop over `m_timetable->stops` in `Raptor::make_queue`. -/
def make_queue_stops (tt : Timetable) (stop_is_marked : List Bool) :
    List Stop → route_stop_queue_t → Option route_stop_queue_t
  | [], queue => some queue
  | stop :: rest, queue =>
    if stop_is_marked.getD stop.id false then
      match make_queue_routes tt stop.id stop.routes queue with
      | none => none
      | some queue1 => make_queue_stops tt stop_is_marked rest queue1
    else make_queue_stops tt stop_is_marked rest queue

/-- `Raptor::make_queue`: the queue, and the state with every mark cleared;
`none` when `check_stops_order` throws. -/
def make_queue (tt : Timetable) (st : State) : Option (route_stop_queue_t × State) :=
  match make_queue_stops tt st.stop_is_marked tt.stops [] with
  | none => none
  | some queue =>
    some (queue, { st with stop_is_marked := List.replicate st.stop_is_marked.length false })

/-- The loop of `std::lower_bound` with the comparison `st.dep < t`: `first`
is the start of the live range and `len` its length. Each turn halves `len`,
so `fuel = len` turns are enough. -/
def lower_bound_loop (stop_events : List StopTime) (t : Time) : Nat → Nat → Nat → Nat
  | 0, first, _ => first
  | fuel + 1, first, len =>
    if len = 0 then first
    else
      let half := len / 2
      let mid := first + half
      if (stop_events.getD mid default).dep < t then
        lower_bound_loop stop_events t fuel (mid + 1) (len - half - 1)
      else lower_bound_loop stop_events t fuel first half

/-- `std::lower_bound(stop_events.begin(), stop_events.end(), t, dep < t)` as
the distance of the returned iterator from `begin()`. -/
def lower_bound (stop_events : List StopTime) (t : Time) : Nat :=
  lower_bound_loop stop_events t stop_events.length 0 stop_events.length

/-- `Raptor::earliest_trip`. -/
def earliest_trip (tt : Timetable) (route_id stop_idx : Nat) (t : Time) : trip_id_t :=
  let route := tt.routes.getD route_id default
  let stop_events := route.stop_times_by_stops.getD stop_idx []
  let distance := lower_bound stop_events t
  let trip_id := route.trips.getD distance 0
  if distance = stop_events.length then NULL_TRIP else some trip_id

/-- Stage 1 of a round: `prev_earliest_arrival_time[stop.id] =
earliest_arrival_time[stop.id]` for every marked stop of the timetable. -/
def stage1 (st : State) : List Stop → State
  | [] => st
  | stop :: rest =>
    if st.stop_is_marked.getD stop.id false then
      let v := st.earliest_arrival_time.getD stop.id Time.inf
      stage1 { st with
        prev_earliest_arrival_time := st.prev_earliest_arrival_time.set stop.id v } rest
    else stage1 st rest

/-- One turn of the loop over the stops of a route in `Raptor::query`, at
index `i` with stop `p_i` and current trip `t`: local and target pruning, then
the check for an earlier trip. `dep` and `arr` are default-constructed (`INF`)
at every turn and assigned only when `t != NULL_TRIP`. -/
def scan_stop (tt : Timetable) (route_id target_id : Nat) (route : Route)
    (i p_i : Nat) (t : trip_id_t) (st : State) : trip_id_t × State :=
  let step : Time × State :=
    match t with
    | none => (Time.inf, st)
    | some trip =>
      let pos := (tt.trip_positions trip).2
      let dep := ((route.stop_times_by_trips.getD pos []).getD i default).dep
      let arr := ((route.stop_times_by_trips.getD pos []).getD i default).arr
      if arr < min (st.earliest_arrival_time.getD p_i Time.inf)
          (st.earliest_arrival_time.getD target_id Time.inf) then
        (dep, { st with
          earliest_arrival_time := st.earliest_arrival_time.set p_i arr
          stop_is_marked := st.stop_is_marked.set p_i true
          stops_improved := true })
      else (dep, st)
  let dep := step.1
  let st1 := step.2
  if st1.prev_earliest_arrival_time.getD p_i Time.inf ≤ dep then
    (earliest_trip tt route_id i (st1.prev_earliest_arrival_time.getD p_i Time.inf), st1)
  else (t, st1)

/-- The loop `for (size_t i = stop_idx; i < route.stops.size(); ++i)` of
`Raptor::query`; the list holds the stops `route.stops[i], route.stops[i+1], ...`
still to visit. -/
def scan_route (tt : Timetable) (route_id target_id : Nat) (route : Route) :
    List Nat → Nat → trip_id_t → State → State
  | [], _, _, st => st
  | p_i :: rest, i, t, st =>
    let r := scan_stop tt route_id target_id route i p_i t st
    scan_route tt route_id target_id route rest (i + 1) r.1 r.2

/-- The body of `for (const auto& route_stop: queue)` in `Raptor::query`.
`route.stop_positions[stop_id]` on a missing key yields 0. -/
def traverse_route (tt : Timetable) (target_id : Nat) (route_stop : Nat × Nat)
    (st : State) : State :=
  let route_id := route_stop.1
  let stop_id := route_stop.2
  let route := tt.routes.getD route_id default
  let stop_idx := (route.stop_positions stop_id).getD 0
  scan_route tt route_id target_id route (route.stops.drop stop_idx) stop_idx NULL_TRIP st

/-- The loop `for (const auto& route_stop: queue)` of `Raptor::query`, over
the pairs in the given order, as far as the engine state goes: the timetable
is the one on entry (see `scan_queue` for the loop with its effect on the
timetable). -/
def traverse_routes (tt : Timetable) (target_id : Nat) :
    route_stop_queue_t → State → State
  | [], st => st
  | route_stop :: queue, st =>
    traverse_routes tt target_id queue (traverse_route tt target_id route_stop st)

/-- The effect of `route.stop_positions[stop_id]` on the timetable: `route` is
a non-const reference into `m_timetable->routes`, and `operator[]` inserts a
missing key with the position 0. -/
def insert_position (tt : Timetable) (route_id stop_id : Nat) : Timetable :=
  let route := tt.routes.getD route_id default
  match route.stop_positions stop_id with
  | some _ => tt
  | none =>
    let route1 : Route :=
      { route with
        stop_positions := fun p => if p = stop_id then some 0 else route.stop_positions p }
    { tt with routes := tt.routes.set route_id route1 }

/-- The loop `for (const auto& route_stop: queue)` of `Raptor::query`, over
the pairs in the given order, with its effect on the timetable: the lookup
`route.stop_positions[stop_id]` inserts a missing key, then the route is
scanned. -/
def scan_queue (target_id : Nat) :
    route_stop_queue_t → Timetable × State → Timetable × State
  | [], acc => acc
  | route_stop :: queue, (tt, st) =>
    let tt1 := insert_position tt route_stop.1 route_stop.2
    scan_queue target_id queue (tt1, traverse_route tt1 target_id route_stop st)

/-- The loop over the transfers of one marked stop in `Raptor::scan_footpaths`
(`use_hl` false), with the set `improved_stops_or_hubs`. -/
def scan_transfers (target_id stop_id : Nat) :
    List Transfer → State × List Nat → State × List Nat
  | [], acc => acc
  | transfer :: rest, (st, improved) =>
    let dest_id := transfer.dest
    let transfer_time := transfer.time
    let tmp_time := st.earliest_arrival_time.getD stop_id Time.inf + transfer_time
    let acc1 : State × List Nat :=
      if tmp_time < st.earliest_arrival_time.getD dest_id Time.inf then
        ({ st with earliest_arrival_time := st.earliest_arrival_time.set dest_id tmp_time },
          improved.insert dest_id)
      else (st, improved)
    if tmp_time > acc1.1.earliest_arrival_time.getD target_id Time.inf then acc1
    else scan_transfers target_id stop_id rest acc1

/-- The first loop of `Raptor::scan_footpaths` when `use_hl` is false. -/
def scan_footpaths_stops (tt : Timetable) (target_id : Nat) :
    List Stop → State × List Nat → State × List Nat
  | [], acc => acc
  | stop :: rest, acc =>
    let stop_id := stop.id
    if acc.1.stop_is_marked.getD stop_id false then
      scan_footpaths_stops tt target_id rest
        (scan_transfers target_id stop_id (tt.stops.getD stop_id default).transfers acc)
    else scan_footpaths_stops tt target_id rest acc

/-- The loop `for (const auto& stop_id: improved_stops_or_hubs)` that sets the
deferred marks. -/
def mark_improved : List Nat → State → State
  | [], st => st
  | stop_id :: rest, st =>
    mark_improved rest { st with stop_is_marked := st.stop_is_marked.set stop_id true }

/-- The loop over the out-hubs of one marked stop in `Raptor::scan_footpaths`
(`use_hl` true). -/
def scan_out_hubs (target_id stop_id : Nat) :
    List (Time × Nat) → State × List Nat → State × List Nat
  | [], acc => acc
  | kv :: rest, (st, improved) =>
    let walking_time := kv.1
    let hub_id := kv.2
    let tmp_time := st.earliest_arrival_time.getD stop_id Time.inf + walking_time
    if tmp_time > st.earliest_arrival_time.getD target_id Time.inf then (st, improved)
    else if tmp_time < st.tmp_hub_labels.getD hub_id Time.inf then
      scan_out_hubs target_id stop_id rest
        ({ st with tmp_hub_labels := st.tmp_hub_labels.set hub_id tmp_time },
          improved.insert hub_id)
    else scan_out_hubs target_id stop_id rest (st, improved)

/-- The first loop of `Raptor::scan_footpaths` when `use_hl` is true. -/
def scan_hubs_stops (tt : Timetable) (target_id : Nat) :
    List Stop → State × List Nat → State × List Nat
  | [], acc => acc
  | stop :: rest, acc =>
    let stop_id := stop.id
    if acc.1.stop_is_marked.getD stop_id false then
      scan_hubs_stops tt target_id rest
        (scan_out_hubs target_id stop_id (tt.stops.getD stop_id default).out_hubs acc)
    else scan_hubs_stops tt target_id rest acc

/-- The loop over `inverse_in_hubs[hub_id]` in `Raptor::scan_footpaths`. -/
def scan_in_hubs (target_id hub_id : Nat) : List (Time × Nat) → State → State
  | [], st => st
  | kv :: rest, st =>
    let walking_time := kv.1
    let stop_id := kv.2
    let tmp_time := st.tmp_hub_labels.getD hub_id Time.inf + walking_time
    if tmp_time > st.earliest_arrival_time.getD target_id Time.inf then st
    else if tmp_time < st.earliest_arrival_time.getD stop_id Time.inf then
      scan_in_hubs target_id hub_id rest { st with
        earliest_arrival_time := st.earliest_arrival_time.set stop_id tmp_time
        stop_is_marked := st.stop_is_marked.set stop_id true }
    else scan_in_hubs target_id hub_id rest st

/-- The loop `for (const auto& hub_id: improved_stops_or_hubs)` of
`Raptor::scan_footpaths` when `use_hl` is true: the inner loop is entered only
`if (m_timetable->inverse_in_hubs[hub_id].empty())`. -/
def propagate_hubs (tt : Timetable) (target_id : Nat) : List Nat → State → State
  | [], st => st
  | hub_id :: rest, st =>
    if (tt.inverse_in_hubs.getD hub_id []).isEmpty then
      propagate_hubs tt target_id rest
        (scan_in_hubs target_id hub_id (tt.inverse_in_hubs.getD hub_id []) st)
    else propagate_hubs tt target_id rest st

/-- `Raptor::scan_footpaths`. The static set `improved_stops_or_hubs` is empty
on entry (it is cleared at the end of every call) and is local here. -/
def scan_footpaths (tt : Timetable) (use_hl : Bool) (target_id : Nat) (st : State) : State :=
  if !use_hl then
    let acc := scan_footpaths_stops tt target_id tt.stops (st, [])
    mark_improved acc.2 acc.1
  else
    let acc := scan_hubs_stops tt target_id tt.stops (st, [])
    propagate_hubs tt target_id acc.2 acc.1

/-- The initialisation of `Raptor::query`, up to and including the first
`target_labels.push_back`. -/
def query_init (tt : Timetable) (use_hl profile : Bool) (source_id target_id : Nat)
    (departure_time : Time) (st : State) : List Time × State :=
  let st1 : State := { st with
    earliest_arrival_time := st.earliest_arrival_time.set source_id departure_time
    prev_earliest_arrival_time := st.prev_earliest_arrival_time.set source_id departure_time
    stop_is_marked := st.stop_is_marked.set source_id true }
  let st2 : State :=
    if use_hl && !profile then
      let target_arrival_time := departure_time + tt.walking_time source_id target_id
      { st1 with
        earliest_arrival_time := st1.earliest_arrival_time.set target_id target_arrival_time }
    else st1
  ([st2.earliest_arrival_time.getD target_id Time.inf], st2)

/-- The `while (true)` loop of `Raptor::query`. `round` is the `uint16_t`
counter before `++round`; `fuel` bounds the number of rounds the model runs;
`order` is the order in which the range-for over the queue visits its pairs, a
rearrangement of the pairs that the container decides. The timetable changes
from round to round by the keys that `route.stop_positions[stop_id]` inserts. -/
def round_loop (tt : Timetable) (order : route_stop_queue_t → route_stop_queue_t)
    (use_hl profile : Bool) (source_id target_id : Nat) :
    Nat → Nat → List Time → State → Outcome (List Time)
  | 0, _, _, _ => Outcome.timeout
  | fuel + 1, round0, target_labels, st =>
    let round := (round0 + 1) % 65536
    let st1 := stage1 st tt.stops
    match make_queue tt st1 with
    | none => Outcome.threw
    | some (queue, st2) =>
      let r := scan_queue target_id (order queue) (tt, { st2 with stops_improved := false })
      let tt1 := r.1
      let st3 := r.2
      let target_labels1 := target_labels ++ [st3.earliest_arrival_time.getD target_id Time.inf]
      if !st3.stops_improved then Outcome.returned target_labels1 st3
      else
        let st4 : State :=
          if round = 1 && !profile then
            { st3 with stop_is_marked := st3.stop_is_marked.set source_id true }
          else st3
        let st5 := scan_footpaths tt1 use_hl target_id st4
        let st6 : State :=
          if round = 1 && !profile then
            { st5 with stop_is_marked := st5.stop_is_marked.set source_id false }
          else st5
        let target_labels2 := target_labels1.set (target_labels1.length - 1)
          (st6.earliest_arrival_time.getD target_id Time.inf)
        round_loop tt1 order use_hl profile source_id target_id fuel round target_labels2 st6

/-- `Raptor::query`, run for at most `fuel` rounds, with the queue visited in
the order `order`. -/
def query (tt : Timetable) (order : route_stop_queue_t → route_stop_queue_t)
    (use_hl profile : Bool) (fuel : Nat) (st : State)
    (source_id target_id : Nat) (departure_time : Time) : Outcome (List Time) :=
  let r := query_init tt use_hl profile source_id target_id departure_time st
  round_loop tt order use_hl profile source_id target_id fuel 0 r.1 r.2

/-- `std::vector<Time>::resize(n)`: cut to `n` elements, or fill up with
default-constructed times. -/
def resize (xs : List Time) (n : Nat) : List Time :=
  xs.take n ++ List.replicate (n - xs.length) Time.inf

/-- `Raptor::init`. -/
def init (tt : Timetable) (use_hl : Bool) (st : State) : State :=
  { stop_is_marked := List.replicate (tt.max_stop_id + 1) false
    earliest_arrival_time := resize st.earliest_arrival_time (tt.max_stop_id + 1)
    prev_earliest_arrival_time := resize st.prev_earliest_arrival_time (tt.max_stop_id + 1)
    tmp_hub_labels :=
      if use_hl then resize st.tmp_hub_labels (tt.max_node_id + 1) else st.tmp_hub_labels
    stops_improved := st.stops_improved }

/-- `Raptor::clear`. -/
def clear (use_hl : Bool) (st : State) : State :=
  { stop_is_marked := []
    earliest_arrival_time := []
    prev_earliest_arrival_time := []
    tmp_hub_labels := if use_hl then [] else st.tmp_hub_labels
    stops_improved := st.stops_improved }

/-- An engine as constructed, before `init`: every vector is empty. -/
def constructed (stops_improved : Bool) : State :=
  { stop_is_marked := []
    earliest_arrival_time := []
    prev_earliest_arrival_time := []
    tmp_hub_labels := []
    stops_improved := stops_improved }

/-! ## Predicates used in the statements -/

/-- The stop `p` is on route `r` at a position not after that of `s`. -/
def PosLe (tt : Timetable) (r p s : Nat) : Prop :=
  ∃ ip is, (tt.routes.getD r default).stop_positions p = some ip ∧
    (tt.routes.getD r default).stop_positions s = some is ∧ ip ≤ is

/-- The invariant of `make_queue`: `M s r` says that the pair (marked stop `s`,
route `r` of `s`) has been handled. -/
def QueueInv (tt : Timetable) (queue : route_stop_queue_t) (M : Nat → Nat → Prop) : Prop :=
  (∀ r p, queue.lookup r = some p → M p r ∧ ∀ s, M s r → PosLe tt r p s) ∧
  (∀ s r, M s r → ∃ p, queue.lookup r = some p)

/-- The arrival times that occur in the timetable. -/
def arrivals (tt : Timetable) : List Time :=
  tt.routes.flatMap fun route => route.stop_times_by_trips.flatMap fun row => row.map StopTime.arr

/-- How many arrival times of the list lie strictly below `x`. -/
def below (arrs : List Time) (x : Time) : Nat :=
  arrs.countP fun a => decide (a < x)

/-- The termination measure of the round loop: over all entries of
`earliest_arrival_time`, the number of timetable arrival times strictly below
the entry. -/
def slack (arrs : List Time) (earliest_arrival_time : List Time) : Nat :=
  (earliest_arrival_time.map (below arrs)).sum

/-- Every stop of every route indexes into `earliest_arrival_time`. -/
def RouteStopsInRange (tt : Timetable) (st : State) : Prop :=
  ∀ route ∈ tt.routes, ∀ p ∈ route.stops, p < st.earliest_arrival_time.length

/-- Every route listed by a stop has that stop among the keys of its
`stop_positions`, so that `stop_positions.at` does not throw. -/
def PositionsDefined (tt : Timetable) : Prop :=
  ∀ stop ∈ tt.stops, ∀ r ∈ stop.routes,
    ((tt.routes.getD r default).stop_positions stop.id).isSome

/-- The vector is non-increasing: `l[k] >= l[k+1]` for all `k` with
`k + 1 < length`. -/
def NonIncreasing (l : List Time) : Prop :=
  ∀ k, ∀ h : k + 1 < l.length, l.get ⟨k + 1, h⟩ ≤ l.get ⟨k, Nat.lt_of_succ_lt h⟩

/-- The second state is reached from the first by lowering entries of
`earliest_arrival_time` only: same length, every entry at most what it was. -/
def Lowered (st st1 : State) : Prop :=
  st1.earliest_arrival_time.length = st.earliest_arrival_time.length ∧
  ∀ i, st1.earliest_arrival_time.getD i Time.inf ≤ st.earliest_arrival_time.getD i Time.inf

/-- One improvement made by the route scan (stage 2): a timetable arrival time
`arr`, strictly below both `earliest_arrival_time[p]` and
`earliest_arrival_time[target]`, is written at a stop `p` of some route; `p` is
marked and `stops_improved` is set. -/
inductive Stage2Step (tt : Timetable) (target_id : Nat) : State → State → Prop where
  | improve (st : State) (p : Nat) (arr : Time)
      (hp : ∃ route ∈ tt.routes, p ∈ route.stops)
      (harr : arr ∈ arrivals tt)
      (hlocal : arr < st.earliest_arrival_time.getD p Time.inf)
      (htarget : arr < st.earliest_arrival_time.getD target_id Time.inf) :
      Stage2Step tt target_id st { st with
        earliest_arrival_time := st.earliest_arrival_time.set p arr
        stop_is_marked := st.stop_is_marked.set p true
        stops_improved := true }

/-- The second state differs from the first at most in `earliest_arrival_time`,
which is lowered, and in `stop_is_marked`, which keeps its length. This is what
the footpath stage (stage 3) does to the state, in both modes up to
`tmp_hub_labels`. -/
def FootFrame (st st1 : State) : Prop :=
  Lowered st st1 ∧
  st1.prev_earliest_arrival_time = st.prev_earliest_arrival_time ∧
  st1.stop_is_marked.length = st.stop_is_marked.length ∧
  st1.stops_improved = st.stops_improved

/-- The state at the start of stage 2 of a round: the queue has been built,
the marks are cleared and `stops_improved` is reset. -/
def stage2_start (st : State) : State :=
  { st with
    stop_is_marked := List.replicate st.stop_is_marked.length false
    stops_improved := false }

/-- Stage 3 of a round as `Raptor::query` runs it: in round 1 of a non-profile
query the source is marked before `scan_footpaths` and unmarked after. -/
def stage3 (tt : Timetable) (use_hl profile : Bool) (source_id target_id round : Nat)
    (st3 : State) : State :=
  let st4 : State :=
    if round = 1 && !profile then
      { st3 with stop_is_marked := st3.stop_is_marked.set source_id true }
    else st3
  let st5 := scan_footpaths tt use_hl target_id st4
  if round = 1 && !profile then
    { st5 with stop_is_marked := st5.stop_is_marked.set source_id false }
  else st5

/-- A freshly initialised engine: the arrival arrays hold `INF` and no stop is
marked (`tmp_hub_labels` is sized in hub mode only). -/
def Fresh (tt : Timetable) (use_hl : Bool) (st : State) : Prop :=
  st.earliest_arrival_time = List.replicate (tt.max_stop_id + 1) Time.inf ∧
  st.prev_earliest_arrival_time = List.replicate (tt.max_stop_id + 1) Time.inf ∧
  st.stop_is_marked = List.replicate (tt.max_stop_id + 1) false ∧
  (use_hl = true → st.tmp_hub_labels = List.replicate (tt.max_node_id + 1) Time.inf)

/-! ## Example timetables -/

/-- The route of the single-trip scenario: stops A = 0 and B = 1, one trip that
is at A at `(aA, x)` and at B at `(y, dB)` (arrival, departure). -/
def single_trip_route (aA x y dB : Time) : Route :=
  { stops := [0, 1]
    stop_positions := fun p => if p = 0 then some 0 else if p = 1 then some 1 else none
    trips := [0]
    stop_times_by_trips := [[⟨aA, x⟩, ⟨y, dB⟩]]
    stop_times_by_stops := [[⟨aA, x⟩], [⟨y, dB⟩]] }

/-- The timetable of the single-trip scenario: two stops on one route with one
trip, no transfers, no hubs. -/
def single_trip (aA x y dB : Time) : Timetable :=
  { stops := [⟨0, [0], [], []⟩, ⟨1, [0], [], []⟩]
    routes := [single_trip_route aA x y dB]
    trip_positions := fun _ => (0, 0)
    inverse_in_hubs := []
    walking_time := fun a b => if a = b then Time.fin 0 else Time.inf
    max_stop_id := 1
    max_node_id := 1 }

/-- Scenario 1 of the specification, in minutes after midnight: the trip
leaves A at 10:00 and reaches B at 10:20. -/
def scenario1 : Timetable :=
  single_trip (Time.fin 600) (Time.fin 600) (Time.fin 620) (Time.fin 620)

/-- The triangle of scenario 4, in minutes after midnight: stops A = 0, B = 1,
C = 2; route 0 runs A to B (10:00 to 10:10), route 1 runs B to C (10:15 to
10:25); B has a transfer to itself of 0 minutes and A a walking transfer to C
of 60 minutes. -/
def scenario4 : Timetable :=
  { stops := [⟨0, [0], [⟨2, Time.fin 60⟩], []⟩, ⟨1, [0, 1], [⟨1, Time.fin 0⟩], []⟩,
      ⟨2, [1], [], []⟩]
    routes :=
      [ { stops := [0, 1]
          stop_positions := fun p => if p = 0 then some 0 else if p = 1 then some 1 else none
          trips := [0]
          stop_times_by_trips := [[⟨Time.fin 600, Time.fin 600⟩, ⟨Time.fin 610, Time.fin 610⟩]]
          stop_times_by_stops := [[⟨Time.fin 600, Time.fin 600⟩], [⟨Time.fin 610, Time.fin 610⟩]] },
        { stops := [1, 2]
          stop_positions := fun p => if p = 1 then some 0 else if p = 2 then some 1 else none
          trips := [1]
          stop_times_by_trips := [[⟨Time.fin 615, Time.fin 615⟩, ⟨Time.fin 625, Time.fin 625⟩]]
          stop_times_by_stops := [[⟨Time.fin 615, Time.fin 615⟩], [⟨Time.fin 625, Time.fin 625⟩]] } ]
    trip_positions := fun trip => if trip = 0 then (0, 0) else (1, 0)
    inverse_in_hubs := []
    walking_time := fun a b => if a = b then Time.fin 0 else Time.inf
    max_stop_id := 2
    max_node_id := 2 }

/-- A valid timetable, as far as the times and the three trip tables go. -/
structure ValidTimetable (tt : Timetable) : Prop where
  /-- FIFO: at every stop of a route the departures are sorted by trip. -/
  fifo : ∀ route ∈ tt.routes, ∀ events ∈ route.stop_times_by_stops,
    events.Pairwise (fun a b => a.dep ≤ b.dep)
  /-- Along a trip, the arrival at a stop is not after the departure there. -/
  arr_le_dep : ∀ route ∈ tt.routes, ∀ row ∈ route.stop_times_by_trips,
    ∀ e ∈ row, e.arr ≤ e.dep
  /-- Along a trip, the departure at a stop is not after the arrival at a
  later stop. -/
  dep_le_arr : ∀ route ∈ tt.routes, ∀ row ∈ route.stop_times_by_trips,
    row.Pairwise (fun a b => a.dep ≤ b.arr)
  /-- Every row of `stop_times_by_stops` has one event per trip. -/
  events_length : ∀ route ∈ tt.routes, ∀ events ∈ route.stop_times_by_stops,
    events.length = route.trips.length
  /-- The table `stop_times_by_stops` is the transpose of `stop_times_by_trips`. -/
  transposed : ∀ route ∈ tt.routes, ∀ i, i < route.stop_times_by_stops.length →
    ∀ k, k < route.trips.length →
      (route.stop_times_by_stops.getD i []).getD k default =
        (route.stop_times_by_trips.getD k []).getD i default
  /-- The map `trip_positions` sends `route.trips[k]` to position `k`. -/
  trip_pos : ∀ route ∈ tt.routes, ∀ k, k < route.trips.length →
    (tt.trip_positions (route.trips.getD k 0)).2 = k
  /-- Walking times of transfers are non-negative. -/
  transfers_nonneg : ∀ stop ∈ tt.stops, ∀ transfer ∈ stop.transfers,
    Time.fin 0 ≤ transfer.time
  /-- Hub-based walking times are non-negative. -/
  walking_nonneg : ∀ a b, Time.fin 0 ≤ tt.walking_time a b
  /-- Walking from a stop to itself takes no time. -/
  walking_self : ∀ a, tt.walking_time a a = Time.fin 0
  /-- Every route listed by a stop knows the position of the stop. -/
  positions : PositionsDefined tt

/-- Every arrival of the current trip from index `i` on is at least `d`. -/
def TripAfter (tt : Timetable) (route : Route) (d : Time) (i : Nat) (t : trip_id_t) : Prop :=
  ∀ trip, t = some trip → ∀ j, i ≤ j →
    d ≤ ((route.stop_times_by_trips.getD (tt.trip_positions trip).2 []).getD j default).arr

/-! ## Predicates for the round bound -/

/-- `earliest_arrival_time[p]`. -/
def eatAt (st : State) (p : Nat) : Time := st.earliest_arrival_time.getD p Time.inf

/-- `prev_earliest_arrival_time[p]`. -/
def prevAt (st : State) (p : Nat) : Time := st.prev_earliest_arrival_time.getD p Time.inf

/-- `stop_is_marked[p]`. -/
def markAt (st : State) (p : Nat) : Prop := st.stop_is_marked.getD p false = true

/-- The state after an improvement of stage 2 at stop `p` with arrival `arr`. -/
def improve (st : State) (p : Nat) (arr : Time) : State :=
  { st with
    earliest_arrival_time := st.earliest_arrival_time.set p arr
    stop_is_marked := st.stop_is_marked.set p true
    stops_improved := true }

/-- The stop at index `j` of route `rid`. -/
def stopAt (tt : Timetable) (rid j : Nat) : Nat := (tt.routes.getD rid default).stops.getD j 0

/-- The arrival of `trip` at index `i` of route `rid`, as the route scan reads it. -/
def tripArr (tt : Timetable) (rid trip i : Nat) : Time :=
  (((tt.routes.getD rid default).stop_times_by_trips.getD (tt.trip_positions trip).2 []).getD i
    default).arr

/-- The departure of `trip` at index `i` of route `rid`, as the route scan reads it. -/
def tripDep (tt : Timetable) (rid trip i : Nat) : Time :=
  (((tt.routes.getD rid default).stop_times_by_trips.getD (tt.trip_positions trip).2 []).getD i
    default).dep

/-- There are `L` distinct stops (ids below `n`) whose arrival times are all
at most `v`. -/
def HasChain (st : State) (n L : Nat) (v : Time) : Prop :=
  ∃ C : List Nat, C.Nodup ∧ L ≤ C.length ∧ (∀ c ∈ C, c < n) ∧ ∀ c ∈ C, eatAt st c ≤ v

/-- Between the indices `j` and `i` the scan keeps `trip`: at every stop in
between the snapshot is after the departure of the trip. -/
def Keeps (tt : Timetable) (st : State) (rid trip j i : Nat) : Prop :=
  ∀ m, j < m → m < i → tripDep tt rid trip m < prevAt st (stopAt tt rid m)

/-- The arrival of `trip` at index `i` of route `rid` can improve nothing:
it is not below both the arrival at the stop and the arrival at the target. -/
def Pruned (tt : Timetable) (target_id : Nat) (st : State) (rid trip i : Nat) : Prop :=
  min (eatAt st (stopAt tt rid i)) (eatAt st target_id) ≤ tripArr tt rid trip i

/-- Boarding at index `j` of route `rid` with the current snapshot brings
nothing new: the trip caught there improves no later stop for as long as the
scan keeps it. -/
def Sat (tt : Timetable) (target_id : Nat) (st : State) (rid j : Nat) : Prop :=
  ∀ trip, earliest_trip tt rid j (prevAt st (stopAt tt rid j)) = some trip →
    ∀ i, j < i → i < (tt.routes.getD rid default).stops.length →
      Keeps tt st rid trip j i → Pruned tt target_id st rid trip i

/-- The fixed data of one query. -/
structure Ctx where
  tt : Timetable
  use_hl : Bool
  profile : Bool
  source_id : Nat
  target_id : Nat
  d : Time

/-- The number of stops of the timetable of the query. -/
def Ctx.N (c : Ctx) : Nat := c.tt.stops.length

/-- What holds of the state all through stage 2 of round `k + 1`; `B` is the
set of stops that were marked at the top of the round. -/
structure Stage2Inv (c : Ctx) (k : Nat) (B : Nat → Prop) (st : State) : Prop where
  len_eat : st.earliest_arrival_time.length = c.N
  len_mark : st.stop_is_marked.length = c.N
  ge_d : ∀ p, c.d ≤ eatAt st p
  le_prev : ∀ p, eatAt st p ≤ prevAt st p
  src : eatAt st c.source_id = c.d
  src_unmarked : ¬ markAt st c.source_id
  board : ∀ q, B q → HasChain st c.N (k + 1) (prevAt st q)
  chain : ∀ q, markAt st q → HasChain st c.N (k + 2) (eatAt st q)
  fresh : ∀ q, B q → markAt st q ∨ eatAt st q = prevAt st q
  old : ∀ rid j, j < (c.tt.routes.getD rid default).stops.length →
    ¬ B (stopAt c.tt rid j) → Sat c.tt c.target_id st rid j

/-- The state after a footpath has lowered the arrival time at `p` to `v`. -/
def lowerAt (st : State) (p : Nat) (v : Time) : State :=
  { st with earliest_arrival_time := st.earliest_arrival_time.set p v }

/-- The snapshot invariant: at every stop the snapshot
`prev_earliest_arrival_time[s]` is at least `earliest_arrival_time[s]`. -/
def SnapshotInv (st : State) : Prop :=
  ∀ s, eatAt st s ≤ prevAt st s

/-- What the sweep of stage 3 (direct transfers) has recorded, relative to the
state `st0` on entry: no arrival time was raised, the vector kept its length,
and the set `improved_stops_or_hubs` holds exactly the stops whose arrival time
is strictly below what it was on entry. -/
def Tracked (st0 : State) (acc : State × List Nat) : Prop :=
  (∀ s, eatAt acc.1 s ≤ eatAt st0 s) ∧
  (∀ s, s ∈ acc.2 ↔ eatAt acc.1 s < eatAt st0 s) ∧
  acc.1.earliest_arrival_time.length = st0.earliest_arrival_time.length

/-- The trace of the route scan: the current trip and the state after each
turn of the loop of `scan_route`, in order. -/
def scan_route_trace (tt : Timetable) (route_id target_id : Nat) (route : Route) :
    List Nat → Nat → trip_id_t → State → List (trip_id_t × State)
  | [], _, _, _ => []
  | p_i :: rest, i, t, st =>
    let r := scan_stop tt route_id target_id route i p_i t st
    r :: scan_route_trace tt route_id target_id route rest (i + 1) r.1 r.2

/-- The assumptions of trip monotonicity on one route: FIFO at every stop
index, `stop_times_by_stops` the transpose of `stop_times_by_trips` with a row
for every stop of the route and an event for every trip, and `trip_positions`
sending `route.trips[k]` to position `k`. -/
structure RouteTables (tt : Timetable) (route : Route) : Prop where
  /-- FIFO: at every stop the departures are sorted by trip. -/
  fifo : ∀ events ∈ route.stop_times_by_stops, events.Pairwise (fun a b => a.dep ≤ b.dep)
  /-- Every row of `stop_times_by_stops` has one event per trip. -/
  events_length : ∀ events ∈ route.stop_times_by_stops, events.length = route.trips.length
  /-- The table `stop_times_by_stops` has a row for every stop of the route. -/
  rows : route.stops.length ≤ route.stop_times_by_stops.length
  /-- The table `stop_times_by_stops` is the transpose of `stop_times_by_trips`. -/
  transposed : ∀ i, i < route.stop_times_by_stops.length → ∀ k, k < route.trips.length →
    (route.stop_times_by_stops.getD i []).getD k default =
      (route.stop_times_by_trips.getD k []).getD i default
  /-- The map `trip_positions` sends `route.trips[k]` to position `k`. -/
  trip_pos : ∀ k, k < route.trips.length → (tt.trip_positions (route.trips.getD k 0)).2 = k

/-- The current trip `b` after a turn of the route scan against the current
trip `a` before it: when `a` is a trip, so is `b`, both are trips of the route,
and the position of `b` in `route.trips` is at most that of `a`. -/
def NotLater (tt : Timetable) (route : Route) (a b : trip_id_t) : Prop :=
  ∀ ta, a = some ta →
    ∃ ka kb, kb ≤ ka ∧ ka < route.trips.length ∧ ta = route.trips.getD ka 0 ∧
      b = some (route.trips.getD kb 0) ∧
      (tt.trip_positions (route.trips.getD kb 0)).2 ≤ (tt.trip_positions ta).2

/-- The pruning test and update of one turn of the route scan, for the
candidate `c = (p_i, arr)`: local and target pruning, then the write. -/
def offer (target_id : Nat) (st : State) (c : Nat × Time) : State :=
  if c.2 < min (st.earliest_arrival_time.getD c.1 Time.inf)
      (st.earliest_arrival_time.getD target_id Time.inf) then
    improve st c.1 c.2
  else st

/-- The trip-upgrade check of one turn of the route scan, which reads only the
timetable and the snapshot `prev_earliest_arrival_time`. -/
def next_trip (tt : Timetable) (route_id : Nat) (route : Route) (prev : List Time)
    (i p_i : Nat) (t : trip_id_t) : trip_id_t :=
  let dep : Time :=
    match t with
    | none => Time.inf
    | some trip => ((route.stop_times_by_trips.getD (tt.trip_positions trip).2 []).getD i
        default).dep
  if prev.getD p_i Time.inf ≤ dep then earliest_trip tt route_id i (prev.getD p_i Time.inf)
  else t

/-- The candidates `(p_i, arr)` that the scan of a route puts to the pruning
test, in order; they depend on the timetable and the snapshot only. -/
def scan_offers (tt : Timetable) (route_id : Nat) (route : Route) (prev : List Time) :
    List Nat → Nat → trip_id_t → List (Nat × Time)
  | [], _, _ => []
  | p_i :: rest, i, t =>
    match t with
    | none => scan_offers tt route_id route prev rest (i + 1)
        (next_trip tt route_id route prev i p_i t)
    | some trip =>
      (p_i, ((route.stop_times_by_trips.getD (tt.trip_positions trip).2 []).getD i
        default).arr) ::
        scan_offers tt route_id route prev rest (i + 1)
          (next_trip tt route_id route prev i p_i t)

/-- The candidates of the scan of one queued pair (route, stop). -/
def route_offers (tt : Timetable) (prev : List Time) (route_stop : Nat × Nat) :
    List (Nat × Time) :=
  scan_offers tt route_stop.1 (tt.routes.getD route_stop.1 default) prev
    ((tt.routes.getD route_stop.1 default).stops.drop
      (((tt.routes.getD route_stop.1 default).stop_positions route_stop.2).getD 0))
    (((tt.routes.getD route_stop.1 default).stop_positions route_stop.2).getD 0) NULL_TRIP

/-- The arrival time at stop `r` as far as target pruning lets it matter: the
smaller of `earliest_arrival_time[r]` and `earliest_arrival_time[target]`. -/
def clipAt (target_id : Nat) (st : State) (r : Nat) : Time :=
  min (eatAt st r) (eatAt st target_id)

/-- The stop `r` is marked and its arrival time is strictly below that of the
target. -/
def markedBelow (target_id : Nat) (st : State) (r : Nat) : Prop :=
  eatAt st r < eatAt st target_id ∧ markAt st r

/-- Two states agree on what stage 2 computes whatever the order: the target
is inside the arrival vectors, which have the same length as the marks, and
the states have the same arrival times clipped at the target's, the same marks
at the stops below the target's arrival and at the target, the same flag
`stops_improved` and the same snapshot. -/
structure Stage2Agree (target_id : Nat) (a b : State) : Prop where
  target : target_id < a.earliest_arrival_time.length
  marks_left : a.stop_is_marked.length = a.earliest_arrival_time.length
  len : a.earliest_arrival_time.length = b.earliest_arrival_time.length
  marks_right : b.stop_is_marked.length = b.earliest_arrival_time.length
  clip : ∀ r, clipAt target_id a r = clipAt target_id b r
  below : ∀ r, markedBelow target_id a r ↔ markedBelow target_id b r
  improved : a.stops_improved = b.stops_improved
  prev : a.prev_earliest_arrival_time = b.prev_earliest_arrival_time
  target_mark : markAt a target_id ↔ markAt b target_id

/-- A timetable with two routes out of stop A = 0: route 0 to T = 1 (one trip,
10:00 at A, 10:10 at T) and route 1 to X = 2 (one trip, 10:00 at A, 10:15 at
X). -/
def two_routes : Timetable :=
  { stops := [⟨0, [0, 1], [], []⟩, ⟨1, [0], [], []⟩, ⟨2, [1], [], []⟩]
    routes :=
      [ { stops := [0, 1]
          stop_positions := fun p => if p = 0 then some 0 else if p = 1 then some 1 else none
          trips := [0]
          stop_times_by_trips := [[⟨Time.fin 600, Time.fin 600⟩, ⟨Time.fin 610, Time.fin 610⟩]]
          stop_times_by_stops := [[⟨Time.fin 600, Time.fin 600⟩], [⟨Time.fin 610, Time.fin 610⟩]] },
        { stops := [0, 2]
          stop_positions := fun p => if p = 0 then some 0 else if p = 2 then some 1 else none
          trips := [1]
          stop_times_by_trips := [[⟨Time.fin 600, Time.fin 600⟩, ⟨Time.fin 615, Time.fin 615⟩]]
          stop_times_by_stops := [[⟨Time.fin 600, Time.fin 600⟩], [⟨Time.fin 615, Time.fin 615⟩]] } ]
    trip_positions := fun trip => if trip = 0 then (0, 0) else (1, 0)
    inverse_in_hubs := []
    walking_time := fun a b => if a = b then Time.fin 0 else Time.inf
    max_stop_id := 2
    max_node_id := 2 }

/-- The state at the start of stage 2 in round 1 of `query(A, T, 09:00)` on
`two_routes`: the source A has been reached at 09:00, the marks are consumed. -/
def two_routes_start : State :=
  { earliest_arrival_time := [Time.fin 540, Time.inf, Time.inf]
    prev_earliest_arrival_time := [Time.fin 540, Time.inf, Time.inf]
    stop_is_marked := [false, false, false]
    tmp_hub_labels := []
    stops_improved := false }

/-- A timetable without routes: stops A = 0 and B = 1 and a walking transfer of
5 minutes from A to B. -/
def walk_only : Timetable :=
  { stops := [⟨0, [], [⟨1, Time.fin 5⟩], []⟩, ⟨1, [], [], []⟩]
    routes := []
    trip_positions := fun _ => (0, 0)
    inverse_in_hubs := []
    walking_time := fun a b => if a = b then Time.fin 0 else Time.inf
    max_stop_id := 1
    max_node_id := 1 }

/-- The timetable after the lookups `route.stop_positions[stop_id]` of the
pairs of a queue, in order. -/
def insert_positions (tt : Timetable) (queue : route_stop_queue_t) : Timetable :=
  queue.foldl (fun t route_stop => insert_position t route_stop.1 route_stop.2) tt

/-- The states the engine passes through while the `while (true)` loop of
`Raptor::query` runs, in order, for at most `fuel` rounds: the state at the
top of each round, after stage 1, after `make_queue`, after the route scans
and, when the round continues, after the source is marked, after
`scan_footpaths` and (as the top of the next round) after the source is
unmarked. -/
def round_loop_states (tt : Timetable) (order : route_stop_queue_t → route_stop_queue_t)
    (use_hl profile : Bool) (source_id target_id : Nat) :
    Nat → Nat → State → List State
  | 0, _, st => [st]
  | fuel + 1, round0, st =>
    let round := (round0 + 1) % 65536
    let st1 := stage1 st tt.stops
    match make_queue tt st1 with
    | none => [st, st1]
    | some (queue, st2) =>
      let r := scan_queue target_id (order queue) (tt, { st2 with stops_improved := false })
      let tt1 := r.1
      let st3 := r.2
      if !st3.stops_improved then [st, st1, st2, st3]
      else
        let st4 : State :=
          if round = 1 && !profile then
            { st3 with stop_is_marked := st3.stop_is_marked.set source_id true }
          else st3
        let st5 := scan_footpaths tt1 use_hl target_id st4
        let st6 : State :=
          if round = 1 && !profile then
            { st5 with stop_is_marked := st5.stop_is_marked.set source_id false }
          else st5
        st :: st1 :: st2 :: st3 :: st4 :: st5 ::
          round_loop_states tt1 order use_hl profile source_id target_id fuel round st6

/-- The second timetable is the first up to keys inserted into
`stop_positions` with the position 0: the stops, the hubs, the trip positions
and the tables of the routes are the same, and every key reads the same
position when a missing key reads 0. -/
structure SameTables (tt tt1 : Timetable) : Prop where
  stops : tt1.stops = tt.stops
  trip_positions : tt1.trip_positions = tt.trip_positions
  inverse_in_hubs : tt1.inverse_in_hubs = tt.inverse_in_hubs
  tables : tt1.routes.map (fun r => (r.stops, r.trips, r.stop_times_by_trips,
    r.stop_times_by_stops)) = tt.routes.map (fun r => (r.stops, r.trips,
      r.stop_times_by_trips, r.stop_times_by_stops))
  positions : ∀ rid p, ((tt1.routes.getD rid default).stop_positions p).getD 0 =
    ((tt.routes.getD rid default).stop_positions p).getD 0

/-- Scenario 4 with a hub-based walking time of 5 minutes between any two
stops, a stop and itself included. -/
def walk_five : Timetable :=
  { scenario4 with walking_time := fun _ _ => Time.fin 5 }

/-- The lists got by putting `x` at each place of a list. -/
def inserts (x : Nat × Nat) : route_stop_queue_t → List route_stop_queue_t
  | [] => [[x]]
  | y :: ys => (x :: y :: ys) :: (inserts x ys).map (fun l => y :: l)

/-- Every order in which the pairs of a queue can be visited. -/
def orders : route_stop_queue_t → List route_stop_queue_t
  | [] => [[]]
  | x :: xs => (orders xs).flatMap (inserts x)

/-- In each of the first `fuel` rounds of the loop of `Raptor::query` from the
state `st`, stage 2 leaves the same state in whatever order the queue is
visited. -/
def order_free (tt : Timetable) (use_hl profile : Bool) (source_id target_id : Nat) :
    Nat → Nat → State → Bool
  | 0, _, _ => true
  | fuel + 1, round0, st =>
    match make_queue tt (stage1 st tt.stops) with
    | none => true
    | some (queue, _) =>
      let st2 := stage2_start (stage1 st tt.stops)
      let st3 := traverse_routes tt target_id queue st2
      (orders queue).all (fun queue1 => decide (traverse_routes tt target_id queue1 st2 = st3)) &&
        (!st3.stops_improved ||
          order_free tt use_hl profile source_id target_id fuel ((round0 + 1) % 65536)
            (stage3 tt use_hl profile source_id target_id ((round0 + 1) % 65536) st3))

/-! ## Order and arithmetic of `Time` -/

namespace Time

@[simp] theorem fin_le_fin (a b : Int) : (fin a ≤ fin b) ↔ a ≤ b := by
  show ble (fin a) (fin b) = true ↔ _
  simp [ble]

@[simp] theorem le_inf (a : Time) : a ≤ inf := by
  show ble a inf = true
  cases a <;> rfl

@[simp] theorem inf_le_iff (a : Time) : inf ≤ a ↔ a = inf := by
  show ble inf a = true ↔ _
  cases a <;> simp [ble]

@[simp] theorem fin_lt_fin (a b : Int) : (fin a < fin b) ↔ a < b := by
  show blt (fin a) (fin b) = true ↔ _
  simp [blt]

@[simp] theorem fin_lt_inf (a : Int) : fin a < inf := by
  show blt (fin a) inf = true
  rfl

@[simp] theorem not_inf_lt (a : Time) : ¬ (inf < a) := by
  show ¬ (blt inf a = true)
  cases a <;> simp [blt]

@[simp] theorem fin_add_fin (a b : Int) : fin a + fin b = fin (a + b) := rfl

@[simp] theorem inf_add (a : Time) : inf + a = inf := rfl

@[simp] theorem add_inf (a : Time) : a + inf = inf := by cases a <;> rfl

theorem add_zero (a : Time) : a + fin 0 = a := by
  cases a <;> simp

end Time

/-- The departures of a stop's events are sorted when read by index. -/
theorem dep_le_of_sorted {evs : List StopTime}
    (hs : evs.Pairwise (fun a b => a.dep ≤ b.dep)) {i j : Nat} (hij : i ≤ j)
    (hj : j < evs.length) :
    (evs.getD i default).dep ≤ (evs.getD j default).dep := by
  rcases Nat.lt_or_ge i j with h | h
  · have hi : i < evs.length := by omega
    have := List.pairwise_iff_getElem.mp hs i j hi hj h
    simpa [List.getD_eq_getElem?_getD, List.getElem?_eq_getElem hi,
      List.getElem?_eq_getElem hj] using this
  · have : i = j := by omega
    subst this
    exact le_refl _

/-- The loop of `lower_bound` keeps its range invariant: everything before the
result departs before `t`, nothing from the result on does. -/
theorem lower_bound_loop_spec (evs : List StopTime) (t : Time)
    (hs : evs.Pairwise (fun a b => a.dep ≤ b.dep)) :
    ∀ (fuel first len : Nat), len ≤ fuel → first + len ≤ evs.length →
      (∀ i, i < first → (evs.getD i default).dep < t) →
      (∀ i, first + len ≤ i → i < evs.length → t ≤ (evs.getD i default).dep) →
      lower_bound_loop evs t fuel first len ≤ evs.length ∧
      (∀ i, i < lower_bound_loop evs t fuel first len → (evs.getD i default).dep < t) ∧
      (∀ i, lower_bound_loop evs t fuel first len ≤ i → i < evs.length →
        t ≤ (evs.getD i default).dep) := by
  intro fuel
  induction fuel with
  | zero =>
    intro first len hlen hbound hlo hhi
    have : len = 0 := by omega
    subst this
    simp only [lower_bound_loop]
    exact ⟨by omega, hlo, fun i hi hin => hhi i (by omega) hin⟩
  | succ fuel ih =>
    intro first len hlen hbound hlo hhi
    unfold lower_bound_loop
    by_cases h0 : len = 0
    · subst h0
      simp only [if_true]
      exact ⟨by omega, hlo, fun i hi hin => hhi i (by omega) hin⟩
    · simp only [h0, if_false]
      have hhalf : len / 2 < len := Nat.div_lt_self (by omega) (by omega)
      by_cases hmid : (evs.getD (first + len / 2) default).dep < t
      · simp only [hmid, if_true]
        apply ih
        · omega
        · omega
        · intro i hi
          exact lt_of_le_of_lt (dep_le_of_sorted hs (by omega) (by omega)) hmid
        · intro i hi hin
          exact hhi i (by omega) hin
      · simp only [hmid, if_false]
        apply ih
        · omega
        · omega
        · exact hlo
        · intro i hi hin
          exact le_trans (not_lt.mp hmid) (dep_le_of_sorted hs hi hin)

/-- On sorted events `lower_bound` is the first index that does not depart
before `t`. -/
theorem lower_bound_spec (evs : List StopTime) (t : Time)
    (hs : evs.Pairwise (fun a b => a.dep ≤ b.dep)) :
    lower_bound evs t ≤ evs.length ∧
      (∀ i, i < lower_bound evs t → (evs.getD i default).dep < t) ∧
      (∀ i, lower_bound evs t ≤ i → i < evs.length → t ≤ (evs.getD i default).dep) := by
  unfold lower_bound
  apply lower_bound_loop_spec evs t hs
  · exact le_refl _
  · omega
  · intro i hi
    omega
  · intro i hi hin
    omega

/-- Looking a key up after `queue_assign`. -/
theorem lookup_queue_assign (queue : route_stop_queue_t) (route_id stop_id r : Nat) :
    (queue_assign queue route_id stop_id).lookup r =
      if r = route_id then some stop_id else queue.lookup r := by
  induction queue with
  | nil =>
    by_cases h : r = route_id
    · subst h
      simp [queue_assign, List.lookup]
    · have h' : (r == route_id) = false := by simpa using h
      simp [queue_assign, List.lookup, h, h']
  | cons kv queue ih =>
    obtain ⟨k, p⟩ := kv
    by_cases hk : k = route_id
    · subst hk
      by_cases h : r = k
      · subst h
        simp [queue_assign, List.lookup]
      · have h' : (r == k) = false := by simpa using h
        simp [queue_assign, List.lookup, h, h']
    · by_cases hr : r = k
      · subst hr
        simp [queue_assign, List.lookup, hk]
      · have h' : (r == k) = false := by simpa using hr
        simp [queue_assign, List.lookup, hk, h', ih]

theorem QueueInv.congr {tt : Timetable} {queue : route_stop_queue_t} {M M' : Nat → Nat → Prop}
    (h : QueueInv tt queue M) (hM : ∀ s r, M s r ↔ M' s r) : QueueInv tt queue M' := by
  have : M = M' := by
    funext s r
    exact propext (hM s r)
  rw [← this]
  exact h

/-- One route of one marked stop keeps the invariant of `make_queue`. -/
theorem make_queue_routes_spec (tt : Timetable) (stop_id : Nat) :
    ∀ (routes : List Nat) (queue : route_stop_queue_t) (M : Nat → Nat → Prop),
      QueueInv tt queue M →
      (∀ r ∈ routes, ((tt.routes.getD r default).stop_positions stop_id).isSome) →
      ∃ queue1, make_queue_routes tt stop_id routes queue = some queue1 ∧
        QueueInv tt queue1 (fun s r => M s r ∨ (s = stop_id ∧ r ∈ routes)) := by
  intro routes
  induction routes with
  | nil =>
    intro queue M hinv _
    exact ⟨queue, rfl, hinv.congr (by simp)⟩
  | cons route_id rest ih =>
    intro queue M hinv hpos
    have hdef := hpos route_id (List.mem_cons_self _ _)
    obtain ⟨is, his⟩ := Option.isSome_iff_exists.mp hdef
    have hrest : ∀ r ∈ rest, ((tt.routes.getD r default).stop_positions stop_id).isSome :=
      fun r hr => hpos r (List.mem_cons_of_mem _ hr)
    have hself : PosLe tt route_id stop_id stop_id := ⟨is, is, his, his, le_refl _⟩
    -- the invariant after `queue[route_id] = stop_id`, when `stop_id` is the new minimum
    have hassign : (∀ s, M s route_id → PosLe tt route_id stop_id s) →
        QueueInv tt (queue_assign queue route_id stop_id)
          (fun s r => M s r ∨ (s = stop_id ∧ r = route_id)) := by
      intro hmin
      refine ⟨?_, ?_⟩
      · intro r p hl
        rw [lookup_queue_assign] at hl
        by_cases hr : r = route_id
        · subst hr
          simp only [if_true, Option.some.injEq] at hl
          subst hl
          refine ⟨Or.inr ⟨rfl, rfl⟩, ?_⟩
          rintro s (hs | ⟨hs, -⟩)
          · exact hmin s hs
          · subst hs
            exact hself
        · simp only [hr, if_false] at hl
          obtain ⟨h1, h2⟩ := hinv.1 r p hl
          refine ⟨Or.inl h1, ?_⟩
          rintro s (hs | ⟨-, hs⟩)
          · exact h2 s hs
          · exact absurd hs hr
      · rintro s r (hs | ⟨-, hr⟩)
        · rw [lookup_queue_assign]
          by_cases hr : r = route_id
          · exact ⟨stop_id, by simp [hr]⟩
          · obtain ⟨p, hp⟩ := hinv.2 s r hs
            exact ⟨p, by simp [hr, hp]⟩
        · subst hr
          exact ⟨stop_id, by simp [lookup_queue_assign]⟩
    have hfinish : ∀ queue', QueueInv tt queue' (fun s r => M s r ∨ (s = stop_id ∧ r = route_id)) →
        ∃ queue1, make_queue_routes tt stop_id rest queue' = some queue1 ∧
          QueueInv tt queue1 (fun s r => M s r ∨ (s = stop_id ∧ r ∈ route_id :: rest)) := by
      intro queue' hq
      obtain ⟨queue1, h1, h2⟩ := ih queue' _ hq hrest
      refine ⟨queue1, h1, h2.congr ?_⟩
      intro s r
      simp only [List.mem_cons]
      tauto
    unfold make_queue_routes
    cases hl : queue.lookup route_id with
    | none =>
      simp only []
      apply hfinish
      apply hassign
      intro s hs
      obtain ⟨p, hp⟩ := hinv.2 s route_id hs
      rw [hl] at hp
      cases hp
    | some p =>
      simp only []
      obtain ⟨hMp, hpmin⟩ := hinv.1 route_id p hl
      obtain ⟨ip, ip', hip, hip', -⟩ := hpmin p hMp
      have hco : check_stops_order tt route_id stop_id p = some (decide (is < ip)) := by
        simp only [check_stops_order, his, hip]
      rw [hco]
      by_cases hlt : is < ip
      · simp only [hlt, decide_True]
        apply hfinish
        apply hassign
        intro s hs
        obtain ⟨jp, js, hjp, hjs, hle⟩ := hpmin s hs
        rw [hip] at hjp
        cases hjp
        exact ⟨is, js, his, hjs, by omega⟩
      · simp only [hlt, decide_False]
        apply hfinish
        refine ⟨?_, ?_⟩
        · intro r q hq
          obtain ⟨h1, h2⟩ := hinv.1 r q hq
          refine ⟨Or.inl h1, ?_⟩
          rintro s (hs | ⟨hs, hr⟩)
          · exact h2 s hs
          · subst hs hr
            rw [hl] at hq
            cases hq
            exact ⟨ip, is, hip, his, by omega⟩
        · rintro s r (hs | ⟨-, hr⟩)
          · exact hinv.2 s r hs
          · subst hr
            exact ⟨p, hl⟩

/-- The loop over the stops keeps the invariant of `make_queue`. -/
theorem make_queue_stops_spec (tt : Timetable) (marked : List Bool) :
    ∀ (stops : List Stop) (queue : route_stop_queue_t) (M : Nat → Nat → Prop),
      QueueInv tt queue M →
      (∀ stop ∈ stops, ∀ r ∈ stop.routes,
        ((tt.routes.getD r default).stop_positions stop.id).isSome) →
      ∃ queue1, make_queue_stops tt marked stops queue = some queue1 ∧
        QueueInv tt queue1 (fun s r => M s r ∨
          ∃ stop ∈ stops, marked.getD stop.id false = true ∧ stop.id = s ∧ r ∈ stop.routes) := by
  intro stops
  induction stops with
  | nil =>
    intro queue M hinv _
    exact ⟨queue, rfl, hinv.congr (by simp)⟩
  | cons stop rest ih =>
    intro queue M hinv hpos
    have hrest : ∀ s ∈ rest, ∀ r ∈ s.routes,
        ((tt.routes.getD r default).stop_positions s.id).isSome :=
      fun s hs => hpos s (List.mem_cons_of_mem _ hs)
    unfold make_queue_stops
    by_cases hm : marked.getD stop.id false = true
    · rw [if_pos hm]
      obtain ⟨queue1, h1, h2⟩ := make_queue_routes_spec tt stop.id stop.routes queue M hinv
        (hpos stop (List.mem_cons_self _ _))
      rw [h1]
      simp only []
      obtain ⟨queue2, h3, h4⟩ := ih queue1 _ h2 hrest
      refine ⟨queue2, h3, h4.congr ?_⟩
      intro s r
      simp only [List.mem_cons, exists_eq_or_imp]
      constructor
      · rintro ((h | ⟨h, h'⟩) | h)
        · exact Or.inl h
        · exact Or.inr (Or.inl ⟨hm, h.symm, h'⟩)
        · exact Or.inr (Or.inr h)
      · rintro (h | ⟨-, h, h'⟩ | h)
        · exact Or.inl (Or.inl h)
        · exact Or.inl (Or.inr ⟨h.symm, h'⟩)
        · exact Or.inr h
    · rw [if_neg hm]
      obtain ⟨queue2, h3, h4⟩ := ih queue M hinv hrest
      refine ⟨queue2, h3, h4.congr ?_⟩
      intro s r
      simp only [List.mem_cons, exists_eq_or_imp]
      constructor
      · rintro (h | h)
        · exact Or.inl h
        · exact Or.inr (Or.inr h)
      · rintro (h | ⟨h, -⟩ | h)
        · exact Or.inl h
        · exact absurd h hm
        · exact Or.inr h

/-- With the positions defined `make_queue` does not throw; its queue satisfies
the invariant for all pairs (marked stop, route of the stop). -/
theorem make_queue_total (tt : Timetable) (st : State) (hpos : PositionsDefined tt) :
    ∃ queue, make_queue tt st = some (queue,
        { st with stop_is_marked := List.replicate st.stop_is_marked.length false }) ∧
      QueueInv tt queue (fun s r => ∃ stop ∈ tt.stops,
        st.stop_is_marked.getD stop.id false = true ∧ stop.id = s ∧ r ∈ stop.routes) := by
  have h0 : QueueInv tt [] (fun _ _ => False) :=
    ⟨fun r p h => by simp [List.lookup] at h, fun s r h => h.elim⟩
  obtain ⟨queue, hq, hinv⟩ := make_queue_stops_spec tt st.stop_is_marked tt.stops [] _ h0 hpos
  refine ⟨queue, ?_, hinv.congr (by simp)⟩
  unfold make_queue
  rw [hq]

/-! ## Reading and writing vectors -/

theorem getD_set_self {α : Type} (xs : List α) (i : Nat) (v d : α) (h : i < xs.length) :
    (xs.set i v).getD i d = v := by
  simp [List.getD_eq_getElem?_getD, List.getElem?_set, h]

theorem getD_set_ne {α : Type} (xs : List α) (i j : Nat) (v d : α) (h : i ≠ j) :
    (xs.set i v).getD j d = xs.getD j d := by
  simp [List.getD_eq_getElem?_getD, List.getElem?_set, h]

theorem getD_of_length_le {α : Type} (xs : List α) (i : Nat) (d : α) (h : xs.length ≤ i) :
    xs.getD i d = d := by
  simp [List.getD_eq_getElem?_getD, List.getElem?_eq_none h]

theorem getD_mem_or_default {α : Type} (xs : List α) (i : Nat) (d : α) :
    xs.getD i d ∈ xs ∨ xs.getD i d = d := by
  rcases Nat.lt_or_ge i xs.length with h | h
  · left
    rw [List.getD_eq_getElem?_getD, List.getElem?_eq_getElem h]
    exact List.getElem_mem h
  · right
    exact getD_of_length_le xs i d h

theorem getD_eq_getElem {α : Type} (xs : List α) (i : Nat) (d : α) (h : i < xs.length) :
    xs.getD i d = xs[i] := by
  rw [List.getD_eq_getElem?_getD, List.getElem?_eq_getElem h]
  rfl

theorem getD_set_cases {α : Type} (xs : List α) (i j : Nat) (v d : α) :
    (xs.set i v).getD j d = v ∨ (xs.set i v).getD j d = xs.getD j d := by
  by_cases hij : i = j
  · subst hij
    rcases Nat.lt_or_ge i xs.length with hi | hi
    · left
      exact getD_set_self xs i v d hi
    · right
      rw [List.set_eq_of_length_le hi]
  · right
    exact getD_set_ne xs i j v d hij

/-- Writing a value that is at most the old one lowers the vector pointwise. -/
theorem getD_set_le (xs : List Time) (i j : Nat) (v : Time)
    (h : v ≤ xs.getD i Time.inf) :
    (xs.set i v).getD j Time.inf ≤ xs.getD j Time.inf := by
  by_cases hij : i = j
  · subst hij
    rcases Nat.lt_or_ge i xs.length with hi | hi
    · rw [getD_set_self xs i v _ hi]
      exact h
    · rw [List.set_eq_of_length_le hi]
  · rw [getD_set_ne xs i j v _ hij]

/-! ## The state is only ever lowered -/

theorem Lowered.unchanged (st : State) : Lowered st st := ⟨rfl, fun _ => le_refl _⟩

theorem Lowered.andThen {a b c : State} (h1 : Lowered a b) (h2 : Lowered b c) : Lowered a c :=
  ⟨h2.1.trans h1.1, fun i => le_trans (h2.2 i) (h1.2 i)⟩

/-- A state that differs only outside `earliest_arrival_time`. -/
theorem Lowered.of_eq {a b : State} (h : b.earliest_arrival_time = a.earliest_arrival_time) :
    Lowered a b := by
  refine ⟨by rw [h], fun i => ?_⟩
  rw [h]

/-- Writing a value that is at most the old one. -/
theorem Lowered.of_set {a b : State} (i : Nat) (v : Time)
    (hv : v ≤ a.earliest_arrival_time.getD i Time.inf)
    (h : b.earliest_arrival_time = a.earliest_arrival_time.set i v) : Lowered a b := by
  refine ⟨by rw [h, List.length_set], fun j => ?_⟩
  rw [h]
  exact getD_set_le _ i j v hv

/-! ## The termination measure -/

theorem below_mono (arrs : List Time) {x y : Time} (h : x ≤ y) : below arrs x ≤ below arrs y := by
  unfold below
  apply List.countP_mono_left
  intro a _ ha
  simp only [decide_eq_true_eq] at ha ⊢
  exact lt_of_lt_of_le ha h

theorem below_lt (arrs : List Time) {v y : Time} (hv : v ∈ arrs) (h : v < y) :
    below arrs v < below arrs y := by
  unfold below
  induction arrs with
  | nil => cases hv
  | cons a arrs ih =>
    have hmono : List.countP (fun a => decide (a < v)) arrs ≤
        List.countP (fun a => decide (a < y)) arrs := below_mono arrs (le_of_lt h)
    rcases List.mem_cons.mp hv with rfl | hv'
    · rw [List.countP_cons_of_neg _ _ (by simp), List.countP_cons_of_pos _ _ (by simpa using h)]
      omega
    · have := ih hv'
      by_cases hav : a < v
      · rw [List.countP_cons_of_pos _ _ (by simpa using hav),
          List.countP_cons_of_pos _ _ (by simpa using lt_trans hav h)]
        omega
      · rw [List.countP_cons_of_neg _ _ (by simpa using hav)]
        by_cases hay : a < y
        · rw [List.countP_cons_of_pos _ _ (by simpa using hay)]
          omega
        · rw [List.countP_cons_of_neg _ _ (by simpa using hay)]
          exact this

theorem slack_mono (arrs : List Time) :
    ∀ (xs ys : List Time), xs.length = ys.length →
      (∀ i, xs.getD i Time.inf ≤ ys.getD i Time.inf) → slack arrs xs ≤ slack arrs ys := by
  intro xs
  induction xs with
  | nil =>
    intro ys hlen _
    cases ys with
    | nil => exact le_refl _
    | cons y ys => simp at hlen
  | cons x xs ih =>
    intro ys hlen hle
    cases ys with
    | nil => simp at hlen
    | cons y ys =>
      have h0 : x ≤ y := by simpa using hle 0
      have hrest : ∀ i, xs.getD i Time.inf ≤ ys.getD i Time.inf := by
        intro i
        simpa using hle (i + 1)
      have := ih ys (by simpa using hlen) hrest
      have := below_mono arrs h0
      simp only [slack, List.map_cons, List.sum_cons] at *
      omega

theorem slack_set_lt (arrs : List Time) :
    ∀ (xs : List Time) (i : Nat) (v : Time), i < xs.length → v ∈ arrs →
      v < xs.getD i Time.inf → slack arrs (xs.set i v) < slack arrs xs := by
  intro xs
  induction xs with
  | nil =>
    intro i v hi
    simp at hi
  | cons x xs ih =>
    intro i v hi hv hlt
    cases i with
    | zero =>
      have : below arrs v < below arrs x := below_lt arrs hv (by simpa using hlt)
      simp only [slack, List.set_cons_zero, List.map_cons, List.sum_cons]
      omega
    | succ i =>
      have := ih i v (by simpa using hi) hv (by simpa using hlt)
      simp only [slack, List.set_cons_succ, List.map_cons, List.sum_cons] at *
      omega

theorem Lowered.slack_le (arrs : List Time) {a b : State} (h : Lowered a b) :
    slack arrs b.earliest_arrival_time ≤ slack arrs a.earliest_arrival_time :=
  slack_mono arrs _ _ h.1 h.2

/-! ## Stage 2 as a sequence of improvements -/

/-- A table entry that is not the default belongs to the timetable's arrivals. -/
theorem arr_mem_arrivals (tt : Timetable) (route_id pos i : Nat)
    (h : (((tt.routes.getD route_id default).stop_times_by_trips.getD pos []).getD i
      default).arr ≠ Time.inf) :
    (((tt.routes.getD route_id default).stop_times_by_trips.getD pos []).getD i
      default).arr ∈ arrivals tt := by
  rcases getD_mem_or_default tt.routes route_id default with hr | hr
  · rcases getD_mem_or_default (tt.routes.getD route_id default).stop_times_by_trips pos []
      with hrow | hrow
    · rcases getD_mem_or_default
        ((tt.routes.getD route_id default).stop_times_by_trips.getD pos []) i default
        with he | he
      · unfold arrivals
        rw [List.mem_flatMap]
        refine ⟨_, hr, ?_⟩
        rw [List.mem_flatMap]
        exact ⟨_, hrow, List.mem_map_of_mem _ he⟩
      · rw [he] at h
        exact absurd rfl h
    · rw [hrow] at h
      exact absurd rfl h
  · rw [hr] at h
    exact absurd rfl h

/-- The state after one turn of the route loop: unchanged, or improved once. -/
theorem scan_stop_state (tt : Timetable) (route_id target_id i p_i : Nat) (t : trip_id_t)
    (st : State) (hp : ∃ route ∈ tt.routes, p_i ∈ route.stops) :
    (scan_stop tt route_id target_id (tt.routes.getD route_id default) i p_i t st).2 = st ∨
    Stage2Step tt target_id st
      (scan_stop tt route_id target_id (tt.routes.getD route_id default) i p_i t st).2 := by
  unfold scan_stop
  cases t with
  | none =>
    left
    simp only []
    split <;> rfl
  | some trip =>
    simp only []
    by_cases himp : (((tt.routes.getD route_id default).stop_times_by_trips.getD
        (tt.trip_positions trip).2 []).getD i default).arr <
        min (st.earliest_arrival_time.getD p_i Time.inf)
          (st.earliest_arrival_time.getD target_id Time.inf)
    · right
      rw [if_pos himp]
      have h1 := lt_of_lt_of_le himp (min_le_left _ _)
      have h2 := lt_of_lt_of_le himp (min_le_right _ _)
      have hne : (((tt.routes.getD route_id default).stop_times_by_trips.getD
          (tt.trip_positions trip).2 []).getD i default).arr ≠ Time.inf := by
        intro h
        rw [h] at h1
        exact Time.not_inf_lt _ h1
      have hstep := @Stage2Step.improve tt target_id st p_i _ hp
        (arr_mem_arrivals tt route_id _ i hne) h1 h2
      split <;> exact hstep
    · left
      rw [if_neg himp]
      split <;> rfl

/-- The route loop is a sequence of improvements. -/
theorem scan_route_steps (tt : Timetable) (route_id target_id : Nat) :
    ∀ (stops : List Nat) (i : Nat) (t : trip_id_t) (st : State),
      (∀ p ∈ stops, ∃ route ∈ tt.routes, p ∈ route.stops) →
      Relation.ReflTransGen (Stage2Step tt target_id) st
        (scan_route tt route_id target_id (tt.routes.getD route_id default) stops i t st) := by
  intro stops
  induction stops with
  | nil =>
    intro i t st _
    exact Relation.ReflTransGen.refl
  | cons p_i rest ih =>
    intro i t st hp
    unfold scan_route
    simp only []
    have hrest := ih (i + 1)
      (scan_stop tt route_id target_id (tt.routes.getD route_id default) i p_i t st).1
      (scan_stop tt route_id target_id (tt.routes.getD route_id default) i p_i t st).2
      (fun p h => hp p (List.mem_cons_of_mem _ h))
    rcases scan_stop_state tt route_id target_id i p_i t st (hp p_i (List.mem_cons_self _ _))
      with h | h
    · rw [h] at hrest ⊢
      exact hrest
    · exact Relation.ReflTransGen.head h hrest

/-- The stops a route scan visits are stops of a route of the timetable. -/
theorem mem_drop_route_stops (tt : Timetable) (route_id k : Nat) :
    ∀ p ∈ (tt.routes.getD route_id default).stops.drop k,
      ∃ route ∈ tt.routes, p ∈ route.stops := by
  intro p hp
  have hp' := List.mem_of_mem_drop hp
  rcases getD_mem_or_default tt.routes route_id default with hr | hr
  · exact ⟨_, hr, hp'⟩
  · rw [hr] at hp'
    cases hp'

theorem traverse_route_steps (tt : Timetable) (target_id : Nat) (route_stop : Nat × Nat)
    (st : State) :
    Relation.ReflTransGen (Stage2Step tt target_id) st
      (traverse_route tt target_id route_stop st) := by
  unfold traverse_route
  exact scan_route_steps tt _ target_id _ _ _ st (mem_drop_route_stops tt _ _)

/-- Stage 2 is a sequence of improvements. -/
theorem traverse_routes_steps (tt : Timetable) (target_id : Nat) :
    ∀ (queue : route_stop_queue_t) (st : State),
      Relation.ReflTransGen (Stage2Step tt target_id) st
        (traverse_routes tt target_id queue st) := by
  intro queue
  induction queue with
  | nil =>
    intro st
    exact Relation.ReflTransGen.refl
  | cons route_stop queue ih =>
    intro st
    unfold traverse_routes
    exact Relation.ReflTransGen.trans (traverse_route_steps tt target_id route_stop st) (ih _)

theorem Stage2Step.lowered {tt : Timetable} {target_id : Nat} {a b : State}
    (h : Stage2Step tt target_id a b) : Lowered a b := by
  cases h with
  | improve p arr hp harr hlocal htarget => exact Lowered.of_set p arr (le_of_lt hlocal) rfl

theorem Stage2Step.prev_eq {tt : Timetable} {target_id : Nat} {a b : State}
    (h : Stage2Step tt target_id a b) :
    b.prev_earliest_arrival_time = a.prev_earliest_arrival_time ∧
      b.tmp_hub_labels = a.tmp_hub_labels ∧
      b.stop_is_marked.length = a.stop_is_marked.length := by
  cases h with
  | improve p arr hp harr hlocal htarget => exact ⟨rfl, rfl, List.length_set _ _ _⟩

/-- An improvement at a stop inside the vector strictly lowers the measure. -/
theorem Stage2Step.slack_lt {tt : Timetable} {target_id : Nat} {a b : State}
    (hr : RouteStopsInRange tt a) (h : Stage2Step tt target_id a b) :
    slack (arrivals tt) b.earliest_arrival_time < slack (arrivals tt) a.earliest_arrival_time ∧
      b.stops_improved = true := by
  cases h with
  | improve p arr hp harr hlocal htarget =>
    obtain ⟨route, hroute, hmem⟩ := hp
    exact ⟨slack_set_lt _ _ p arr (hr route hroute p hmem) harr hlocal, rfl⟩

theorem RouteStopsInRange.of_length {tt : Timetable} {a b : State}
    (h : RouteStopsInRange tt a)
    (hlen : b.earliest_arrival_time.length = a.earliest_arrival_time.length) :
    RouteStopsInRange tt b := by
  intro route hroute p hp
  rw [hlen]
  exact h route hroute p hp

/-- What a sequence of improvements does to the state. -/
theorem stage2_summary {tt : Timetable} {target_id : Nat} {a b : State}
    (h : Relation.ReflTransGen (Stage2Step tt target_id) a b) :
    Lowered a b ∧ b.prev_earliest_arrival_time = a.prev_earliest_arrival_time ∧
      b.tmp_hub_labels = a.tmp_hub_labels ∧
      b.stop_is_marked.length = a.stop_is_marked.length ∧
      (RouteStopsInRange tt a →
        (b.stops_improved = a.stops_improved ∧
          slack (arrivals tt) b.earliest_arrival_time ≤
            slack (arrivals tt) a.earliest_arrival_time) ∨
        (b.stops_improved = true ∧
          slack (arrivals tt) b.earliest_arrival_time <
            slack (arrivals tt) a.earliest_arrival_time)) := by
  induction h with
  | refl => exact ⟨Lowered.unchanged _, rfl, rfl, rfl, fun _ => Or.inl ⟨rfl, le_refl _⟩⟩
  | tail hab hbc ih =>
    rename_i b c
    obtain ⟨hl, hp, ht, hm, hs⟩ := ih
    obtain ⟨hp', ht', hm'⟩ := hbc.prev_eq
    refine ⟨hl.andThen hbc.lowered, hp'.trans hp, ht'.trans ht, hm'.trans hm, fun hr => ?_⟩
    have hrb : RouteStopsInRange tt b := hr.of_length hl.1
    obtain ⟨hlt, himp⟩ := hbc.slack_lt hrb
    right
    rcases hs hr with ⟨-, h2⟩ | ⟨-, h2⟩
    · exact ⟨himp, lt_of_lt_of_le hlt h2⟩
    · exact ⟨himp, lt_trans hlt h2⟩

/-! ## Stage 3 only lowers arrival times -/

theorem FootFrame.stay (st : State) : FootFrame st st := ⟨Lowered.unchanged _, rfl, rfl, rfl⟩

theorem FootFrame.followedBy {a b c : State} (h1 : FootFrame a b) (h2 : FootFrame b c) :
    FootFrame a c :=
  ⟨h1.1.andThen h2.1, h2.2.1.trans h1.2.1, h2.2.2.1.trans h1.2.2.1, h2.2.2.2.trans h1.2.2.2⟩

theorem scan_transfers_frame (target_id stop_id : Nat) :
    ∀ (transfers : List Transfer) (acc : State × List Nat),
      FootFrame acc.1 (scan_transfers target_id stop_id transfers acc).1 ∧
      (scan_transfers target_id stop_id transfers acc).1.stop_is_marked = acc.1.stop_is_marked ∧
      (scan_transfers target_id stop_id transfers acc).1.tmp_hub_labels =
        acc.1.tmp_hub_labels := by
  intro transfers
  induction transfers with
  | nil =>
    intro acc
    exact ⟨FootFrame.stay _, rfl, rfl⟩
  | cons transfer rest ih =>
    rintro ⟨st, improved⟩
    unfold scan_transfers
    simp only []
    by_cases hlt : st.earliest_arrival_time.getD stop_id Time.inf + transfer.time <
        st.earliest_arrival_time.getD transfer.dest Time.inf
    · simp only [if_pos hlt]
      have hstep : FootFrame st { st with
          earliest_arrival_time := st.earliest_arrival_time.set transfer.dest
            (st.earliest_arrival_time.getD stop_id Time.inf + transfer.time) } :=
        ⟨Lowered.of_set _ _ (le_of_lt hlt) rfl, rfl, rfl, rfl⟩
      split
      · exact ⟨hstep, rfl, rfl⟩
      · obtain ⟨h1, h2, h3⟩ := ih ({ st with
          earliest_arrival_time := st.earliest_arrival_time.set transfer.dest
            (st.earliest_arrival_time.getD stop_id Time.inf + transfer.time) },
          improved.insert transfer.dest)
        exact ⟨hstep.followedBy h1, h2, h3⟩
    · simp only [if_neg hlt]
      split
      · exact ⟨FootFrame.stay _, rfl, rfl⟩
      · exact ih (st, improved)

theorem scan_footpaths_stops_frame (tt : Timetable) (target_id : Nat) :
    ∀ (stops : List Stop) (acc : State × List Nat),
      FootFrame acc.1 (scan_footpaths_stops tt target_id stops acc).1 ∧
      (scan_footpaths_stops tt target_id stops acc).1.stop_is_marked = acc.1.stop_is_marked ∧
      (scan_footpaths_stops tt target_id stops acc).1.tmp_hub_labels =
        acc.1.tmp_hub_labels := by
  intro stops
  induction stops with
  | nil =>
    intro acc
    exact ⟨FootFrame.stay _, rfl, rfl⟩
  | cons stop rest ih =>
    intro acc
    unfold scan_footpaths_stops
    simp only []
    split
    · obtain ⟨h1, h2, h3⟩ := scan_transfers_frame target_id stop.id
        (tt.stops.getD stop.id default).transfers acc
      obtain ⟨h4, h5, h6⟩ := ih (scan_transfers target_id stop.id
        (tt.stops.getD stop.id default).transfers acc)
      exact ⟨h1.followedBy h4, h5.trans h2, h6.trans h3⟩
    · exact ih acc

theorem mark_improved_frame :
    ∀ (improved : List Nat) (st : State),
      FootFrame st (mark_improved improved st) ∧
      (mark_improved improved st).earliest_arrival_time = st.earliest_arrival_time ∧
      (mark_improved improved st).tmp_hub_labels = st.tmp_hub_labels := by
  intro improved
  induction improved with
  | nil =>
    intro st
    exact ⟨FootFrame.stay _, rfl, rfl⟩
  | cons stop_id rest ih =>
    intro st
    unfold mark_improved
    obtain ⟨h1, h2, h3⟩ := ih { st with stop_is_marked := st.stop_is_marked.set stop_id true }
    have hstep : FootFrame st { st with stop_is_marked := st.stop_is_marked.set stop_id true } :=
      ⟨Lowered.unchanged _, rfl, List.length_set _ _ _, rfl⟩
    exact ⟨hstep.followedBy h1, h2, h3⟩

/-- In hub mode the sweep over the out-hubs changes `tmp_hub_labels` only. -/
theorem scan_out_hubs_frame (target_id stop_id : Nat) :
    ∀ (out_hubs : List (Time × Nat)) (acc : State × List Nat),
      (scan_out_hubs target_id stop_id out_hubs acc).1.earliest_arrival_time =
        acc.1.earliest_arrival_time ∧
      (scan_out_hubs target_id stop_id out_hubs acc).1.prev_earliest_arrival_time =
        acc.1.prev_earliest_arrival_time ∧
      (scan_out_hubs target_id stop_id out_hubs acc).1.stop_is_marked = acc.1.stop_is_marked ∧
      (scan_out_hubs target_id stop_id out_hubs acc).1.stops_improved =
        acc.1.stops_improved := by
  intro out_hubs
  induction out_hubs with
  | nil =>
    intro acc
    exact ⟨rfl, rfl, rfl, rfl⟩
  | cons kv rest ih =>
    rintro ⟨st, improved⟩
    unfold scan_out_hubs
    simp only []
    split
    · exact ⟨rfl, rfl, rfl, rfl⟩
    · split
      · exact ih _
      · exact ih _

theorem scan_hubs_stops_frame (tt : Timetable) (target_id : Nat) :
    ∀ (stops : List Stop) (acc : State × List Nat),
      (scan_hubs_stops tt target_id stops acc).1.earliest_arrival_time =
        acc.1.earliest_arrival_time ∧
      (scan_hubs_stops tt target_id stops acc).1.prev_earliest_arrival_time =
        acc.1.prev_earliest_arrival_time ∧
      (scan_hubs_stops tt target_id stops acc).1.stop_is_marked = acc.1.stop_is_marked ∧
      (scan_hubs_stops tt target_id stops acc).1.stops_improved = acc.1.stops_improved := by
  intro stops
  induction stops with
  | nil =>
    intro acc
    exact ⟨rfl, rfl, rfl, rfl⟩
  | cons stop rest ih =>
    intro acc
    unfold scan_hubs_stops
    simp only []
    split
    · obtain ⟨h1, h2, h3, h4⟩ := scan_out_hubs_frame target_id stop.id
        (tt.stops.getD stop.id default).out_hubs acc
      obtain ⟨h5, h6, h7, h8⟩ := ih (scan_out_hubs target_id stop.id
        (tt.stops.getD stop.id default).out_hubs acc)
      exact ⟨h5.trans h1, h6.trans h2, h7.trans h3, h8.trans h4⟩
    · exact ih acc

/-- The loop over the hubs is entered with an empty list only, so it leaves the
state as it is. -/
theorem propagate_hubs_eq (tt : Timetable) (target_id : Nat) :
    ∀ (hubs : List Nat) (st : State), propagate_hubs tt target_id hubs st = st := by
  intro hubs
  induction hubs with
  | nil =>
    intro st
    rfl
  | cons hub_id rest ih =>
    intro st
    unfold propagate_hubs
    split
    · rename_i h
      have hnil : tt.inverse_in_hubs.getD hub_id [] = [] := List.isEmpty_iff.mp h
      rw [hnil]
      exact ih _
    · exact ih st

/-- The footpath stage lowers arrival times and touches neither the snapshot
nor `stops_improved`. -/
theorem scan_footpaths_frame (tt : Timetable) (use_hl : Bool) (target_id : Nat) (st : State) :
    FootFrame st (scan_footpaths tt use_hl target_id st) := by
  unfold scan_footpaths
  cases use_hl with
  | false =>
    simp only [Bool.not_false, if_true]
    exact (scan_footpaths_stops_frame tt target_id tt.stops (st, [])).1.followedBy
      (mark_improved_frame _ _).1
  | true =>
    simp only [Bool.not_true, Bool.false_eq_true, if_false]
    rw [propagate_hubs_eq]
    obtain ⟨h1, h2, h3, h4⟩ := scan_hubs_stops_frame tt target_id tt.stops (st, [])
    exact ⟨Lowered.of_eq h1, h2, by rw [h3], h4⟩

/-! ## Stage 1 and the queue leave arrival times alone -/

theorem stage1_frame :
    ∀ (stops : List Stop) (st : State),
      (stage1 st stops).earliest_arrival_time = st.earliest_arrival_time ∧
      (stage1 st stops).stop_is_marked = st.stop_is_marked ∧
      (stage1 st stops).tmp_hub_labels = st.tmp_hub_labels ∧
      (stage1 st stops).stops_improved = st.stops_improved ∧
      (stage1 st stops).prev_earliest_arrival_time.length =
        st.prev_earliest_arrival_time.length := by
  intro stops
  induction stops with
  | nil =>
    intro st
    exact ⟨rfl, rfl, rfl, rfl, rfl⟩
  | cons stop rest ih =>
    intro st
    unfold stage1
    split
    · obtain ⟨h1, h2, h3, h4, h5⟩ := ih { st with
        prev_earliest_arrival_time := st.prev_earliest_arrival_time.set stop.id
          (st.earliest_arrival_time.getD stop.id Time.inf) }
      exact ⟨h1, h2, h3, h4, h5.trans (List.length_set _ _ _)⟩
    · exact ih st

theorem make_queue_state (tt : Timetable) (st : State) (queue : route_stop_queue_t)
    (st1 : State) (h : make_queue tt st = some (queue, st1)) :
    st1 = { st with stop_is_marked := List.replicate st.stop_is_marked.length false } := by
  unfold make_queue at h
  split at h
  · cases h
  · cases h
    rfl

/-! ## Keys inserted into `stop_positions` -/

theorem SameTables.same (tt : Timetable) : SameTables tt tt :=
  ⟨rfl, rfl, rfl, rfl, fun _ _ => rfl⟩

theorem SameTables.next {a b c : Timetable} (h1 : SameTables a b) (h2 : SameTables b c) :
    SameTables a c :=
  ⟨h2.stops.trans h1.stops, h2.trip_positions.trans h1.trip_positions,
    h2.inverse_in_hubs.trans h1.inverse_in_hubs, h2.tables.trans h1.tables,
    fun rid p => (h2.positions rid p).trans (h1.positions rid p)⟩

/-- Reading a mapped list by index. -/
theorem getD_map {α β : Type} (f : α → β) (xs : List α) (i : Nat) (d : α) :
    (xs.map f).getD i (f d) = f (xs.getD i d) := by
  simp only [List.getD_eq_getElem?_getD, List.getElem?_map]
  cases xs[i]? <;> rfl

/-- The tables of a route read by id are the same in both timetables. -/
theorem SameTables.route {tt tt1 : Timetable} (h : SameTables tt tt1) (rid : Nat) :
    (tt1.routes.getD rid default).stops = (tt.routes.getD rid default).stops ∧
    (tt1.routes.getD rid default).trips = (tt.routes.getD rid default).trips ∧
    (tt1.routes.getD rid default).stop_times_by_trips =
      (tt.routes.getD rid default).stop_times_by_trips ∧
    (tt1.routes.getD rid default).stop_times_by_stops =
      (tt.routes.getD rid default).stop_times_by_stops := by
  have h1 := getD_map (fun r : Route => (r.stops, r.trips, r.stop_times_by_trips,
    r.stop_times_by_stops)) tt1.routes rid default
  have h2 := getD_map (fun r : Route => (r.stops, r.trips, r.stop_times_by_trips,
    r.stop_times_by_stops)) tt.routes rid default
  rw [h.tables, h2] at h1
  simp only [Prod.mk.injEq] at h1
  exact ⟨h1.1.symm, h1.2.1.symm, h1.2.2.1.symm, h1.2.2.2.symm⟩

/-- The lookup `route.stop_positions[stop_id]` leaves the tables as they are. -/
theorem insert_position_same (tt : Timetable) (route_id stop_id : Nat) :
    SameTables tt (insert_position tt route_id stop_id) := by
  unfold insert_position
  dsimp only
  cases hpos : (tt.routes.getD route_id default).stop_positions stop_id with
  | some v => exact SameTables.same tt
  | none =>
    dsimp only
    refine ⟨rfl, rfl, rfl, ?_, ?_⟩
    · dsimp only
      rw [List.map_set]
      apply List.ext_getElem?
      intro i
      rw [List.getElem?_set]
      split
      · rename_i hi
        subst hi
        split
        · rename_i hlt
          rw [List.length_map] at hlt
          rw [List.getElem?_map, List.getElem?_eq_getElem hlt, Option.map_some',
            getD_eq_getElem _ _ _ hlt]
        · rename_i hlt
          rw [List.length_map] at hlt
          rw [List.getElem?_map, List.getElem?_eq_none (by omega)]
          rfl
      · rfl
    · intro rid p
      dsimp only
      by_cases hr : rid = route_id
      · subst hr
        rcases Nat.lt_or_ge rid tt.routes.length with hlt | hge
        · rw [getD_set_self _ _ _ _ hlt]
          dsimp only
          split
          · rename_i hp
            rw [hp, hpos]
            rfl
          · rfl
        · rw [List.set_eq_of_length_le hge]
      · rw [getD_set_ne _ _ _ _ _ (Ne.symm hr)]

/-- The lookups of a whole queue leave the tables as they are. -/
theorem insert_positions_same :
    ∀ (queue : route_stop_queue_t) (tt : Timetable), SameTables tt (insert_positions tt queue) := by
  intro queue
  induction queue with
  | nil =>
    intro tt
    exact SameTables.same tt
  | cons route_stop rest ih =>
    intro tt
    exact (insert_position_same tt route_stop.1 route_stop.2).next (ih _)

/-- A lookup of a key that is present changes nothing. -/
theorem insert_position_of_defined (tt : Timetable) (route_id stop_id : Nat)
    (h : ((tt.routes.getD route_id default).stop_positions stop_id).isSome) :
    insert_position tt route_id stop_id = tt := by
  unfold insert_position
  dsimp only
  cases hpos : (tt.routes.getD route_id default).stop_positions stop_id with
  | some v => rfl
  | none =>
    rw [hpos] at h
    cases h

/-- The lookups of a queue whose keys are all present change nothing. -/
theorem insert_positions_of_defined (tt : Timetable) :
    ∀ (queue : route_stop_queue_t),
      (∀ route_stop ∈ queue,
        ((tt.routes.getD route_stop.1 default).stop_positions route_stop.2).isSome) →
      insert_positions tt queue = tt := by
  intro queue
  induction queue with
  | nil =>
    intro _
    rfl
  | cons route_stop rest ih =>
    intro h
    show insert_positions (insert_position tt route_stop.1 route_stop.2) rest = tt
    rw [insert_position_of_defined tt _ _ (h route_stop (List.mem_cons_self _ _))]
    exact ih fun rs hrs => h rs (List.mem_cons_of_mem _ hrs)

theorem earliest_trip_same {tt tt1 : Timetable} (h : SameTables tt tt1)
    (route_id stop_idx : Nat) (t : Time) :
    earliest_trip tt1 route_id stop_idx t = earliest_trip tt route_id stop_idx t := by
  obtain ⟨-, h2, -, h4⟩ := h.route route_id
  unfold earliest_trip
  dsimp only
  rw [h2, h4]

theorem scan_stop_same {tt tt1 : Timetable} (h : SameTables tt tt1)
    (route_id target_id i p_i : Nat) (t : trip_id_t) (st : State) :
    scan_stop tt1 route_id target_id (tt1.routes.getD route_id default) i p_i t st =
      scan_stop tt route_id target_id (tt.routes.getD route_id default) i p_i t st := by
  obtain ⟨-, -, h3, -⟩ := h.route route_id
  unfold scan_stop
  dsimp only
  rw [h3, h.trip_positions, earliest_trip_same h]

theorem scan_route_same {tt tt1 : Timetable} (h : SameTables tt tt1)
    (route_id target_id : Nat) :
    ∀ (stops : List Nat) (i : Nat) (t : trip_id_t) (st : State),
      scan_route tt1 route_id target_id (tt1.routes.getD route_id default) stops i t st =
        scan_route tt route_id target_id (tt.routes.getD route_id default) stops i t st := by
  intro stops
  induction stops with
  | nil =>
    intro i t st
    rfl
  | cons p_i rest ih =>
    intro i t st
    unfold scan_route
    dsimp only
    rw [scan_stop_same h, ih]

/-- The scan of a queued pair does not see the inserted keys: a missing key
reads the position 0, the position it is inserted with. -/
theorem traverse_route_same {tt tt1 : Timetable} (h : SameTables tt tt1)
    (target_id : Nat) (route_stop : Nat × Nat) (st : State) :
    traverse_route tt1 target_id route_stop st = traverse_route tt target_id route_stop st := by
  unfold traverse_route
  dsimp only
  rw [h.positions, (h.route route_stop.1).1, scan_route_same h]

theorem traverse_routes_same {tt tt1 : Timetable} (h : SameTables tt tt1) (target_id : Nat) :
    ∀ (queue : route_stop_queue_t) (st : State),
      traverse_routes tt1 target_id queue st = traverse_routes tt target_id queue st := by
  intro queue
  induction queue with
  | nil =>
    intro st
    rfl
  | cons route_stop rest ih =>
    intro st
    unfold traverse_routes
    rw [traverse_route_same h, ih]

/-- The loop over the queue with its effect on the timetable: the state is
that of `traverse_routes` on the timetable on entry, the timetable has the
keys of the queue inserted. -/
theorem scan_queue_eq (target_id : Nat) :
    ∀ (queue : route_stop_queue_t) (tt : Timetable) (st : State),
      scan_queue target_id queue (tt, st) =
        (insert_positions tt queue, traverse_routes tt target_id queue st) := by
  intro queue
  induction queue with
  | nil =>
    intro tt st
    rfl
  | cons route_stop rest ih =>
    intro tt st
    unfold scan_queue
    dsimp only
    rw [ih, traverse_routes_same (insert_position_same tt route_stop.1 route_stop.2),
      traverse_route_same (insert_position_same tt route_stop.1 route_stop.2)]
    rfl

theorem scan_transfers_stops_same {tt tt1 : Timetable} (h : tt1.stops = tt.stops)
    (target_id : Nat) :
    ∀ (stops : List Stop) (acc : State × List Nat),
      scan_footpaths_stops tt1 target_id stops acc =
        scan_footpaths_stops tt target_id stops acc := by
  intro stops
  induction stops with
  | nil =>
    intro acc
    rfl
  | cons stop rest ih =>
    intro acc
    unfold scan_footpaths_stops
    dsimp only
    rw [h, ih, ih]

theorem scan_hubs_stops_same {tt tt1 : Timetable} (h : tt1.stops = tt.stops)
    (target_id : Nat) :
    ∀ (stops : List Stop) (acc : State × List Nat),
      scan_hubs_stops tt1 target_id stops acc = scan_hubs_stops tt target_id stops acc := by
  intro stops
  induction stops with
  | nil =>
    intro acc
    rfl
  | cons stop rest ih =>
    intro acc
    unfold scan_hubs_stops
    dsimp only
    rw [h, ih, ih]

/-- The footpath stage does not read the routes. -/
theorem scan_footpaths_same {tt tt1 : Timetable} (h : SameTables tt tt1) (use_hl : Bool)
    (target_id : Nat) (st : State) :
    scan_footpaths tt1 use_hl target_id st = scan_footpaths tt use_hl target_id st := by
  unfold scan_footpaths
  dsimp only
  rw [h.stops, scan_transfers_stops_same h.stops, scan_hubs_stops_same h.stops,
    propagate_hubs_eq, propagate_hubs_eq]

theorem stage3_same {tt tt1 : Timetable} (h : SameTables tt tt1) (use_hl profile : Bool)
    (source_id target_id round : Nat) (st : State) :
    stage3 tt1 use_hl profile source_id target_id round st =
      stage3 tt use_hl profile source_id target_id round st := by
  unfold stage3
  simp only [scan_footpaths_same h]

theorem mem_queue_assign :
    ∀ (queue : route_stop_queue_t) (route_id stop_id : Nat) (x : Nat × Nat),
      x ∈ queue_assign queue route_id stop_id → x = (route_id, stop_id) ∨ x ∈ queue := by
  intro queue
  induction queue with
  | nil =>
    intro route_id stop_id x hx
    rw [show queue_assign [] route_id stop_id = [(route_id, stop_id)] from rfl,
      List.mem_singleton] at hx
    exact Or.inl hx
  | cons head rest ih =>
    intro route_id stop_id x hx
    obtain ⟨r, p⟩ := head
    unfold queue_assign at hx
    split at hx
    · rcases List.mem_cons.mp hx with h | h
      · exact Or.inl h
      · exact Or.inr (List.mem_cons_of_mem _ h)
    · rcases List.mem_cons.mp hx with h | h
      · exact Or.inr (h ▸ List.mem_cons_self _ _)
      · rcases ih route_id stop_id x h with h1 | h1
        · exact Or.inl h1
        · exact Or.inr (List.mem_cons_of_mem _ h1)

theorem make_queue_routes_mem (tt : Timetable) (stop_id : Nat) :
    ∀ (routes : List Nat) (queue queue1 : route_stop_queue_t),
      make_queue_routes tt stop_id routes queue = some queue1 →
      ∀ x ∈ queue1, x ∈ queue ∨ (x.2 = stop_id ∧ x.1 ∈ routes) := by
  intro routes
  induction routes with
  | nil =>
    intro queue queue1 h x hx
    rw [show make_queue_routes tt stop_id [] queue = some queue from rfl] at h
    injection h with h
    rw [← h] at hx
    exact Or.inl hx
  | cons route_id rest ih =>
    intro queue queue1 h x hx
    have hassign : ∀ queue2, make_queue_routes tt stop_id rest
        (queue_assign queue route_id stop_id) = some queue2 → ∀ y ∈ queue2,
        y ∈ queue ∨ (y.2 = stop_id ∧ y.1 ∈ route_id :: rest) := by
      intro queue2 h2 y hy
      rcases ih _ _ h2 y hy with h1 | ⟨h1, h3⟩
      · rcases mem_queue_assign queue route_id stop_id y h1 with h4 | h4
        · rw [h4]
          exact Or.inr ⟨rfl, List.mem_cons_self _ _⟩
        · exact Or.inl h4
      · exact Or.inr ⟨h1, List.mem_cons_of_mem _ h3⟩
    unfold make_queue_routes at h
    split at h
    · split at h
      · cases h
      · exact hassign _ h x hx
      · rcases ih _ _ h x hx with h1 | ⟨h1, h3⟩
        · exact Or.inl h1
        · exact Or.inr ⟨h1, List.mem_cons_of_mem _ h3⟩
    · exact hassign _ h x hx

theorem make_queue_stops_mem (tt : Timetable) (marked : List Bool) :
    ∀ (stops : List Stop) (queue queue1 : route_stop_queue_t),
      make_queue_stops tt marked stops queue = some queue1 →
      ∀ x ∈ queue1, x ∈ queue ∨ ∃ stop ∈ stops, stop.id = x.2 ∧ x.1 ∈ stop.routes := by
  intro stops
  induction stops with
  | nil =>
    intro queue queue1 h x hx
    rw [show make_queue_stops tt marked [] queue = some queue from rfl] at h
    injection h with h
    rw [← h] at hx
    exact Or.inl hx
  | cons stop rest ih =>
    intro queue queue1 h x hx
    unfold make_queue_stops at h
    split at h
    · split at h
      · cases h
      · rename_i queue2 hq2
        rcases ih _ _ h x hx with h1 | ⟨s, hs, h2, h3⟩
        · rcases make_queue_routes_mem tt stop.id stop.routes queue queue2 hq2 x h1 with
            h4 | ⟨h4, h5⟩
          · exact Or.inl h4
          · exact Or.inr ⟨stop, List.mem_cons_self _ _, h4.symm, h5⟩
        · exact Or.inr ⟨s, List.mem_cons_of_mem _ hs, h2, h3⟩
    · rcases ih _ _ h x hx with h1 | ⟨s, hs, h2, h3⟩
      · exact Or.inl h1
      · exact Or.inr ⟨s, List.mem_cons_of_mem _ hs, h2, h3⟩

/-- Every pair of the queue is a stop of the timetable with a route that the
stop lists. -/
theorem make_queue_mem (tt : Timetable) (st : State) (queue : route_stop_queue_t)
    (st2 : State) (h : make_queue tt st = some (queue, st2)) :
    ∀ x ∈ queue, ∃ stop ∈ tt.stops, stop.id = x.2 ∧ x.1 ∈ stop.routes := by
  intro x hx
  unfold make_queue at h
  split at h
  · cases h
  · rename_i queue1 hq1
    injection h with h
    injection h with h1 h2
    rw [← h1] at hx
    rcases make_queue_stops_mem tt _ _ _ _ hq1 x hx with h3 | h3
    · cases h3
    · exact h3

/-- When every route listed by a stop knows the stop, the lookups of the queue
of a round insert nothing, in whatever order the queue is visited. -/
theorem insert_positions_queue (tt : Timetable) (hpos : PositionsDefined tt) (st : State)
    (queue : route_stop_queue_t) (st2 : State) (h : make_queue tt st = some (queue, st2))
    (queue1 : route_stop_queue_t) (hperm : queue1.Perm queue) :
    insert_positions tt queue1 = tt := by
  apply insert_positions_of_defined
  intro x hx
  obtain ⟨stop, hstop, hid, hr⟩ := make_queue_mem tt st queue st2 h x (hperm.mem_iff.mp hx)
  rw [← hid]
  exact hpos stop hstop x.1 hr

/-! ## The order of the queue -/

/-- A queue with one pair is visited in one way. -/
theorem order_singleton (order : route_stop_queue_t → route_stop_queue_t)
    (hperm : ∀ queue, (order queue).Perm queue) (x : Nat × Nat) : order [x] = [x] :=
  List.perm_singleton.mp (hperm [x])

/-- The empty queue is visited in one way. -/
theorem order_nil (order : route_stop_queue_t → route_stop_queue_t)
    (hperm : ∀ queue, (order queue).Perm queue) : order [] = [] :=
  List.perm_nil.mp (hperm [])


/-! ## The round loop -/

theorem set_last_append (l : List Time) (x y : Time) :
    (l ++ [x]).set ((l ++ [x]).length - 1) y = l ++ [y] := by
  have h : (l ++ [x]).length - 1 = l.length := by simp
  rw [h, List.set_append_right _ _ (le_refl _)]
  simp

/-- One round of `round_loop`, with its stages named: the route scans run on
the timetable at the top of the round, over the queue as `order` hands it out,
and the next round starts from the timetable with the keys of the queue
inserted. -/
theorem round_loop_succ (tt : Timetable) (order : route_stop_queue_t → route_stop_queue_t)
    (use_hl profile : Bool) (source_id target_id : Nat)
    (fuel round0 : Nat) (target_labels : List Time) (st : State) :
    round_loop tt order use_hl profile source_id target_id (fuel + 1) round0 target_labels st =
      match make_queue tt (stage1 st tt.stops) with
      | none => Outcome.threw
      | some (queue, _) =>
        if !(traverse_routes tt target_id (order queue)
            (stage2_start (stage1 st tt.stops))).stops_improved then
          Outcome.returned
            (target_labels ++ [(traverse_routes tt target_id (order queue)
              (stage2_start (stage1 st tt.stops))).earliest_arrival_time.getD target_id Time.inf])
            (traverse_routes tt target_id (order queue) (stage2_start (stage1 st tt.stops)))
        else
          round_loop (insert_positions tt (order queue)) order use_hl profile source_id
            target_id fuel ((round0 + 1) % 65536)
            (target_labels ++ [(stage3 tt use_hl profile source_id target_id
              ((round0 + 1) % 65536) (traverse_routes tt target_id (order queue)
                (stage2_start (stage1 st tt.stops)))).earliest_arrival_time.getD target_id
                  Time.inf])
            (stage3 tt use_hl profile source_id target_id ((round0 + 1) % 65536)
              (traverse_routes tt target_id (order queue)
                (stage2_start (stage1 st tt.stops)))) := by
  conv_lhs => unfold round_loop
  dsimp only
  cases hq : make_queue tt (stage1 st tt.stops) with
  | none => rfl
  | some qs =>
    obtain ⟨queue, st2⟩ := qs
    have hst2 := make_queue_state tt _ queue st2 hq
    subst hst2
    dsimp only
    rw [scan_queue_eq, set_last_append]
    dsimp only
    rw [scan_footpaths_same (insert_positions_same (order queue) tt)]
    rfl

/-- One round of `round_loop` when every route listed by a stop knows the
stop: no key is inserted and the next round starts from the same timetable. -/
theorem round_loop_succ_defined (tt : Timetable)
    (order : route_stop_queue_t → route_stop_queue_t)
    (hperm : ∀ queue, (order queue).Perm queue) (hpos : PositionsDefined tt)
    (use_hl profile : Bool) (source_id target_id : Nat)
    (fuel round0 : Nat) (target_labels : List Time) (st : State) :
    round_loop tt order use_hl profile source_id target_id (fuel + 1) round0 target_labels st =
      match make_queue tt (stage1 st tt.stops) with
      | none => Outcome.threw
      | some (queue, _) =>
        if !(traverse_routes tt target_id (order queue)
            (stage2_start (stage1 st tt.stops))).stops_improved then
          Outcome.returned
            (target_labels ++ [(traverse_routes tt target_id (order queue)
              (stage2_start (stage1 st tt.stops))).earliest_arrival_time.getD target_id Time.inf])
            (traverse_routes tt target_id (order queue) (stage2_start (stage1 st tt.stops)))
        else
          round_loop tt order use_hl profile source_id target_id fuel ((round0 + 1) % 65536)
            (target_labels ++ [(stage3 tt use_hl profile source_id target_id
              ((round0 + 1) % 65536) (traverse_routes tt target_id (order queue)
                (stage2_start (stage1 st tt.stops)))).earliest_arrival_time.getD target_id
                  Time.inf])
            (stage3 tt use_hl profile source_id target_id ((round0 + 1) % 65536)
              (traverse_routes tt target_id (order queue)
                (stage2_start (stage1 st tt.stops)))) := by
  rw [round_loop_succ]
  cases hq : make_queue tt (stage1 st tt.stops) with
  | none => rfl
  | some qs =>
    obtain ⟨queue, st2⟩ := qs
    dsimp only
    rw [insert_positions_queue tt hpos _ queue st2 hq (order queue) (hperm queue)]

/-- The state at the start of stage 2, against the state at the top of the
round. -/
theorem stage2_start_frame (tt : Timetable) (st : State) :
    (stage2_start (stage1 st tt.stops)).earliest_arrival_time = st.earliest_arrival_time ∧
    (stage2_start (stage1 st tt.stops)).tmp_hub_labels = st.tmp_hub_labels ∧
    (stage2_start (stage1 st tt.stops)).stops_improved = false ∧
    (stage2_start (stage1 st tt.stops)).stop_is_marked.length = st.stop_is_marked.length ∧
    (stage2_start (stage1 st tt.stops)).prev_earliest_arrival_time.length =
      st.prev_earliest_arrival_time.length := by
  obtain ⟨h1, h2, h3, h4, h5⟩ := stage1_frame tt.stops st
  refine ⟨h1, h3, rfl, ?_, h5⟩
  simp [stage2_start, h2]

/-- Stage 3 lowers arrival times and touches neither the snapshot nor
`stops_improved`. -/
theorem stage3_frame (tt : Timetable) (use_hl profile : Bool)
    (source_id target_id round : Nat) (st3 : State) :
    FootFrame st3 (stage3 tt use_hl profile source_id target_id round st3) := by
  unfold stage3
  simp only []
  split
  · have h1 : FootFrame st3 { st3 with stop_is_marked := st3.stop_is_marked.set source_id true } :=
      ⟨Lowered.unchanged _, rfl, List.length_set _ _ _, rfl⟩
    have h2 := scan_footpaths_frame tt use_hl target_id
      { st3 with stop_is_marked := st3.stop_is_marked.set source_id true }
    refine (h1.followedBy h2).followedBy ⟨Lowered.unchanged _, rfl, List.length_set _ _ _, rfl⟩
  · exact scan_footpaths_frame tt use_hl target_id st3

/-- Stage 2 of a round, against the state at the top of the round. -/
theorem round_stage2 (tt : Timetable) (target_id : Nat) (queue : route_stop_queue_t)
    (st : State) :
    Lowered st (traverse_routes tt target_id queue (stage2_start (stage1 st tt.stops))) ∧
    (RouteStopsInRange tt st →
      (traverse_routes tt target_id queue (stage2_start (stage1 st tt.stops))).stops_improved
        = true →
      slack (arrivals tt) (traverse_routes tt target_id queue
        (stage2_start (stage1 st tt.stops))).earliest_arrival_time <
        slack (arrivals tt) st.earliest_arrival_time) := by
  obtain ⟨h1, h2, h3, h4, h5⟩ := stage2_start_frame tt st
  obtain ⟨hl, -, -, -, hs⟩ := stage2_summary (traverse_routes_steps tt target_id queue
    (stage2_start (stage1 st tt.stops)))
  have hl0 : Lowered st (stage2_start (stage1 st tt.stops)) := Lowered.of_eq h1
  refine ⟨hl0.andThen hl, fun hr himp => ?_⟩
  rw [← h1]
  rcases hs (hr.of_length hl0.1) with ⟨h, -⟩ | ⟨-, h⟩
  · rw [h3] at h
    rw [himp] at h
    cases h
  · exact h

/-- Termination: with the ids in range the round loop returns as soon as the
fuel exceeds the measure. -/
theorem round_loop_returns (tt : Timetable)
    (order : route_stop_queue_t → route_stop_queue_t)
    (hperm : ∀ queue, (order queue).Perm queue) (use_hl profile : Bool)
    (source_id target_id : Nat) (hpos : PositionsDefined tt) :
    ∀ (fuel round0 : Nat) (target_labels : List Time) (st : State),
      RouteStopsInRange tt st → slack (arrivals tt) st.earliest_arrival_time < fuel →
      ∃ labels st1, round_loop tt order use_hl profile source_id target_id fuel round0
        target_labels st = Outcome.returned labels st1 := by
  intro fuel
  induction fuel with
  | zero =>
    intro round0 target_labels st _ h
    omega
  | succ fuel ih =>
    intro round0 target_labels st hr hfuel
    rw [round_loop_succ_defined tt order hperm hpos]
    obtain ⟨queue, hq, -⟩ := make_queue_total tt (stage1 st tt.stops) hpos
    rw [hq]
    simp only []
    obtain ⟨hl, hs⟩ := round_stage2 tt target_id (order queue) st
    split
    · exact ⟨_, _, rfl⟩
    · rename_i himp
      have himp' : (traverse_routes tt target_id (order queue)
          (stage2_start (stage1 st tt.stops))).stops_improved = true := by
        simpa using himp
      have h3 := (stage3_frame tt use_hl profile source_id target_id ((round0 + 1) % 65536)
        (traverse_routes tt target_id (order queue) (stage2_start (stage1 st tt.stops)))).1
      apply ih
      · exact hr.of_length (hl.andThen h3).1
      · have := hs hr himp'
        have := h3.slack_le (arrivals tt)
        omega

/-- More fuel does not change what the round loop returns. -/
theorem round_loop_fuel_mono (tt : Timetable)
    (order : route_stop_queue_t → route_stop_queue_t) (use_hl profile : Bool)
    (source_id target_id : Nat) :
    ∀ (fuel round0 : Nat) (target_labels : List Time) (st : State) (labels : List Time)
      (st1 : State),
      round_loop tt order use_hl profile source_id target_id fuel round0 target_labels st =
        Outcome.returned labels st1 →
      ∀ fuel1, fuel ≤ fuel1 →
        round_loop tt order use_hl profile source_id target_id fuel1 round0 target_labels st =
          Outcome.returned labels st1 := by
  intro fuel
  induction fuel generalizing tt with
  | zero =>
    intro round0 target_labels st labels st1 h
    cases h
  | succ fuel ih =>
    intro round0 target_labels st labels st1 h fuel1 hle
    obtain ⟨fuel2, rfl⟩ : ∃ fuel2, fuel1 = fuel2 + 1 := ⟨fuel1 - 1, by omega⟩
    rw [round_loop_succ] at h ⊢
    cases hq : make_queue tt (stage1 st tt.stops) with
    | none =>
      rw [hq] at h
      cases h
    | some qs =>
      obtain ⟨queue, st2⟩ := qs
      rw [hq] at h
      simp only [] at h ⊢
      split
      · rename_i himp
        rw [if_pos himp] at h
        exact h
      · rename_i himp
        rw [if_neg himp] at h
        exact ih _ _ _ _ _ _ h fuel2 (by omega)

/-- What the round loop returns: the labels it was given, followed by a
non-empty, non-increasing list of values that are at most
`earliest_arrival_time[target]` at the start; the state is only lowered. -/
theorem round_loop_labels (tt : Timetable)
    (order : route_stop_queue_t → route_stop_queue_t) (use_hl profile : Bool)
    (source_id target_id : Nat) :
    ∀ (fuel round0 : Nat) (target_labels : List Time) (st : State) (labels : List Time)
      (st1 : State),
      round_loop tt order use_hl profile source_id target_id fuel round0 target_labels st =
        Outcome.returned labels st1 →
      ∃ suffix, labels = target_labels ++ suffix ∧ suffix ≠ [] ∧
        List.Chain' (fun a b => b ≤ a) suffix ∧
        (∀ x ∈ suffix, x ≤ st.earliest_arrival_time.getD target_id Time.inf) ∧
        Lowered st st1 := by
  intro fuel
  induction fuel generalizing tt with
  | zero =>
    intro round0 target_labels st labels st1 h
    cases h
  | succ fuel ih =>
    intro round0 target_labels st labels st1 h
    rw [round_loop_succ] at h
    cases hq : make_queue tt (stage1 st tt.stops) with
    | none =>
      rw [hq] at h
      cases h
    | some qs =>
      obtain ⟨queue, st2⟩ := qs
      rw [hq] at h
      simp only [] at h
      obtain ⟨hl, -⟩ := round_stage2 tt target_id (order queue) st
      split at h
      · cases h
        refine ⟨[_], rfl, by simp, List.chain'_singleton _, ?_, hl⟩
        intro x hx
        rw [List.mem_singleton] at hx
        subst hx
        exact hl.2 target_id
      · have h3 := (stage3_frame tt use_hl profile source_id target_id ((round0 + 1) % 65536)
          (traverse_routes tt target_id (order queue) (stage2_start (stage1 st tt.stops)))).1
        obtain ⟨suffix, hlab, hne, hchain, hle, hl1⟩ := ih _ _ _ _ _ _ h
        have hl6 := hl.andThen h3
        refine ⟨_ :: suffix, by rw [hlab, List.append_assoc]; rfl, by simp, ?_, ?_,
          hl6.andThen hl1⟩
        · cases suffix with
          | nil => exact absurd rfl hne
          | cons y ys =>
            exact List.Chain'.cons (hle y (List.mem_cons_self _ _)) hchain
        · intro x hx
          rcases List.mem_cons.mp hx with rfl | hx
          · exact hl6.2 target_id
          · exact le_trans (hle x hx) (hl6.2 target_id)

/-! ## `query` -/

theorem query_init_frame (tt : Timetable) (use_hl profile : Bool) (source_id target_id : Nat)
    (departure_time : Time) (st : State) :
    (query_init tt use_hl profile source_id target_id departure_time st).1 =
      [(query_init tt use_hl profile source_id target_id departure_time
        st).2.earliest_arrival_time.getD target_id Time.inf] ∧
    (query_init tt use_hl profile source_id target_id departure_time
      st).2.earliest_arrival_time.length = st.earliest_arrival_time.length := by
  unfold query_init
  refine ⟨rfl, ?_⟩
  dsimp only
  split <;> simp

/-- Termination of `query`: with the ids in range it returns a vector. -/
theorem query_returns (tt : Timetable) (order : route_stop_queue_t → route_stop_queue_t)
    (hperm : ∀ queue, (order queue).Perm queue) (use_hl profile : Bool) (st : State)
    (source_id target_id : Nat) (departure_time : Time)
    (hpos : PositionsDefined tt) (hrange : RouteStopsInRange tt st) :
    ∃ fuel labels st1,
      query tt order use_hl profile fuel st source_id target_id departure_time =
        Outcome.returned labels st1 := by
  obtain ⟨-, hlen⟩ := query_init_frame tt use_hl profile source_id target_id departure_time st
  obtain ⟨labels, st1, h⟩ := round_loop_returns tt order hperm use_hl profile source_id
    target_id hpos
    (slack (arrivals tt) (query_init tt use_hl profile source_id target_id departure_time
      st).2.earliest_arrival_time + 1) 0
    (query_init tt use_hl profile source_id target_id departure_time st).1
    (query_init tt use_hl profile source_id target_id departure_time st).2
    (hrange.of_length hlen) (Nat.lt_succ_self _)
  exact ⟨slack (arrivals tt) (query_init tt use_hl profile source_id target_id departure_time
    st).2.earliest_arrival_time + 1, labels, st1, h⟩

/-- The vector `query` returns: the round-0 label, then a non-empty,
non-increasing list of values none of which exceeds the round-0 label. -/
theorem query_labels (tt : Timetable) (order : route_stop_queue_t → route_stop_queue_t)
    (use_hl profile : Bool) (fuel : Nat) (st : State)
    (source_id target_id : Nat) (departure_time : Time) (labels : List Time) (st1 : State)
    (h : query tt order use_hl profile fuel st source_id target_id departure_time =
      Outcome.returned labels st1) :
    ∃ suffix, labels = (query_init tt use_hl profile source_id target_id departure_time
        st).2.earliest_arrival_time.getD target_id Time.inf :: suffix ∧ suffix ≠ [] ∧
      List.Chain' (fun a b => b ≤ a) suffix ∧
      ∀ x ∈ suffix, x ≤ (query_init tt use_hl profile source_id target_id departure_time
        st).2.earliest_arrival_time.getD target_id Time.inf := by
  unfold query at h
  obtain ⟨suffix, h1, h2, h3, h4, -⟩ := round_loop_labels tt order use_hl profile source_id
    target_id _ _ _ _ _ _ h
  rw [(query_init_frame tt use_hl profile source_id target_id departure_time st).1] at h1
  exact ⟨suffix, h1, h2, h3, h4⟩

theorem nonIncreasing_of_chain {l : List Time} (h : List.Chain' (fun a b => b ≤ a) l) :
    NonIncreasing l := by
  intro k hk
  exact List.chain'_iff_get.mp h k (by omega)

/-- The round-0 label of a query on a fresh engine with `source != target`. -/
theorem query_init_label (tt : Timetable) (use_hl profile : Bool) (st : State)
    (source_id target_id : Nat) (departure_time : Time)
    (hfresh : Fresh tt use_hl st) (hne : source_id ≠ target_id)
    (htarget : target_id ≤ tt.max_stop_id) :
    (query_init tt use_hl profile source_id target_id departure_time
      st).2.earliest_arrival_time.getD target_id Time.inf =
      if use_hl && !profile then departure_time + tt.walking_time source_id target_id
      else Time.inf := by
  obtain ⟨heat, -, -, -⟩ := hfresh
  unfold query_init
  dsimp only
  split
  · dsimp only
    rw [getD_set_self]
    rw [List.length_set, heat, List.length_replicate]
    omega
  · rw [getD_set_ne _ _ _ _ _ hne, heat]
    simp only [List.getD_eq_getElem?_getD, List.getElem?_replicate]
    split <;> rfl


/-! ## Re-initialising the engine -/

theorem stage1_improved (b : Bool) :
    ∀ (stops : List Stop) (st : State),
      stage1 { st with stops_improved := b } stops =
        { stage1 st stops with stops_improved := b } := by
  intro stops
  induction stops with
  | nil =>
    intro st
    rfl
  | cons stop rest ih =>
    intro st
    unfold stage1
    dsimp only
    split
    · exact ih { st with
        prev_earliest_arrival_time := st.prev_earliest_arrival_time.set stop.id
          (st.earliest_arrival_time.getD stop.id Time.inf) }
    · exact ih st

theorem make_queue_improved (tt : Timetable) (st : State) (b : Bool) :
    make_queue tt { st with stops_improved := b } =
      (make_queue tt st).map fun qs => (qs.1, { qs.2 with stops_improved := b }) := by
  unfold make_queue
  dsimp only
  split <;> rfl

/-- The round loop does not read `stops_improved` before writing it. -/
theorem round_loop_improved (tt : Timetable)
    (order : route_stop_queue_t → route_stop_queue_t) (use_hl profile : Bool)
    (source_id target_id : Nat) (fuel round0 : Nat) (target_labels : List Time) (st : State)
    (b : Bool) :
    round_loop tt order use_hl profile source_id target_id fuel round0 target_labels
        { st with stops_improved := b } =
      round_loop tt order use_hl profile source_id target_id fuel round0 target_labels st := by
  cases fuel with
  | zero => rfl
  | succ fuel =>
    rw [round_loop_succ, round_loop_succ, stage1_improved, make_queue_improved]
    cases make_queue tt (stage1 st tt.stops) with
    | none => rfl
    | some qs => rfl

/-- In direct-transfer mode the round loop leaves `tmp_hub_labels` alone. -/
theorem round_loop_tmp (tt : Timetable) (order : route_stop_queue_t → route_stop_queue_t)
    (profile : Bool) (source_id target_id : Nat) :
    ∀ (fuel round0 : Nat) (target_labels : List Time) (st : State) (labels : List Time)
      (st1 : State),
      round_loop tt order false profile source_id target_id fuel round0 target_labels st =
        Outcome.returned labels st1 →
      st1.tmp_hub_labels = st.tmp_hub_labels := by
  intro fuel
  induction fuel generalizing tt with
  | zero =>
    intro round0 target_labels st labels st1 h
    cases h
  | succ fuel ih =>
    intro round0 target_labels st labels st1 h
    rw [round_loop_succ] at h
    cases hq : make_queue tt (stage1 st tt.stops) with
    | none =>
      rw [hq] at h
      cases h
    | some qs =>
      obtain ⟨queue, st2⟩ := qs
      rw [hq] at h
      dsimp only at h
      have h2 : (traverse_routes tt target_id (order queue)
          (stage2_start (stage1 st tt.stops))).tmp_hub_labels = st.tmp_hub_labels :=
        (stage2_summary (traverse_routes_steps tt target_id (order queue)
          (stage2_start (stage1 st tt.stops)))).2.2.1.trans (stage2_start_frame tt st).2.1
      split at h
      · cases h
        exact h2
      · rw [ih _ _ _ _ _ _ h, ← h2]
        unfold stage3 scan_footpaths
        simp only [Bool.not_false, if_true]
        split
        · dsimp only
          rw [(mark_improved_frame _ _).2.2, (scan_footpaths_stops_frame tt target_id _ _).2.2]
        · rw [(mark_improved_frame _ _).2.2, (scan_footpaths_stops_frame tt target_id _ _).2.2]

theorem query_tmp (tt : Timetable) (order : route_stop_queue_t → route_stop_queue_t)
    (profile : Bool) (fuel : Nat) (st : State)
    (source_id target_id : Nat) (departure_time : Time) (labels : List Time) (st1 : State)
    (h : query tt order false profile fuel st source_id target_id departure_time =
      Outcome.returned labels st1) :
    st1.tmp_hub_labels = st.tmp_hub_labels := by
  unfold query at h
  rw [round_loop_tmp tt order profile source_id target_id _ _ _ _ _ _ h]
  rfl

theorem query_improved (tt : Timetable) (order : route_stop_queue_t → route_stop_queue_t)
    (use_hl profile : Bool) (fuel : Nat) (st : State)
    (source_id target_id : Nat) (departure_time : Time) (b : Bool) :
    query tt order use_hl profile fuel { st with stops_improved := b } source_id target_id
        departure_time =
      query tt order use_hl profile fuel st source_id target_id departure_time := by
  unfold query
  have h : query_init tt use_hl profile source_id target_id departure_time
      { st with stops_improved := b } =
      ((query_init tt use_hl profile source_id target_id departure_time st).1,
        { (query_init tt use_hl profile source_id target_id departure_time st).2 with
          stops_improved := b }) := by
    unfold query_init
    dsimp only
    split <;> rfl
  rw [h]
  exact round_loop_improved tt order use_hl profile source_id target_id fuel 0 _ _ b

/-- After `clear` and `init` the engine is as after the first `init`, up to
`stops_improved`, provided `tmp_hub_labels` was left alone in direct-transfer
mode. -/
theorem init_clear (tt : Timetable) (use_hl : Bool) (b : Bool) (st1 : State)
    (htmp : use_hl = false → st1.tmp_hub_labels = []) :
    init tt use_hl (clear use_hl st1) =
      { init tt use_hl (constructed b) with stops_improved := st1.stops_improved } := by
  cases use_hl with
  | false =>
    have := htmp rfl
    simp [init, clear, constructed, this]
  | true => simp [init, clear, constructed]

/-- The engine after `init` is fresh. -/
theorem fresh_init (tt : Timetable) (use_hl : Bool) (b : Bool) :
    Fresh tt use_hl (init tt use_hl (constructed b)) := by
  refine ⟨?_, ?_, rfl, ?_⟩
  · simp [init, constructed, resize]
  · simp [init, constructed, resize]
  · intro h
    subst h
    simp [init, constructed, resize]

/-! ## Boarding in a valid timetable -/

/-- A route read by index is a route of the timetable or the empty default. -/
theorem route_mem_or_default (tt : Timetable) (route_id : Nat) :
    tt.routes.getD route_id default ∈ tt.routes ∨
      tt.routes.getD route_id default = default :=
  getD_mem_or_default tt.routes route_id default

/-- What `earliest_trip` returns in a valid timetable: nothing, or the trip at
the first index `k` whose departure is at least `t`. -/
theorem earliest_trip_valid (tt : Timetable) (hv : ValidTimetable tt)
    (route_id stop_idx : Nat) (t : Time) :
    earliest_trip tt route_id stop_idx t = NULL_TRIP ∨
    ∃ k, k < (tt.routes.getD route_id default).trips.length ∧
      k < ((tt.routes.getD route_id default).stop_times_by_stops.getD stop_idx []).length ∧
      stop_idx < (tt.routes.getD route_id default).stop_times_by_stops.length ∧
      earliest_trip tt route_id stop_idx t =
        some ((tt.routes.getD route_id default).trips.getD k 0) ∧
      t ≤ (((tt.routes.getD route_id default).stop_times_by_stops.getD stop_idx []).getD k
        default).dep ∧
      ∀ j, j < k →
        (((tt.routes.getD route_id default).stop_times_by_stops.getD stop_idx []).getD j
          default).dep < t := by
  by_cases hnull : lower_bound
      ((tt.routes.getD route_id default).stop_times_by_stops.getD stop_idx []) t =
      ((tt.routes.getD route_id default).stop_times_by_stops.getD stop_idx []).length
  · left
    unfold earliest_trip
    dsimp only
    rw [if_pos hnull]
  · right
    have hidx : stop_idx < (tt.routes.getD route_id default).stop_times_by_stops.length := by
      by_contra hcon
      apply hnull
      rw [getD_of_length_le _ stop_idx [] (by omega)]
      rfl
    have hr : tt.routes.getD route_id default ∈ tt.routes := by
      rcases route_mem_or_default tt route_id with hr | hr
      · exact hr
      · rw [hr] at hidx
        simp [default] at hidx
    have he : (tt.routes.getD route_id default).stop_times_by_stops.getD stop_idx [] ∈
        (tt.routes.getD route_id default).stop_times_by_stops := by
      rw [getD_eq_getElem _ stop_idx [] hidx]
      exact List.getElem_mem hidx
    have hlen := hv.events_length _ hr _ he
    obtain ⟨hle, hlo, hhi⟩ := lower_bound_spec _ t (hv.fifo _ hr _ he)
    have hk : lower_bound
        ((tt.routes.getD route_id default).stop_times_by_stops.getD stop_idx []) t <
        ((tt.routes.getD route_id default).stop_times_by_stops.getD stop_idx []).length := by
      omega
    refine ⟨_, by omega, hk, hidx, ?_, hhi _ (le_refl _) hk, hlo⟩
    unfold earliest_trip
    dsimp only
    rw [if_neg hnull]

/-- In a valid timetable the trip found at index `k` of stop `j` arrives at
every later stop no earlier than it leaves stop `j`. -/
theorem dep_le_later_arr (tt : Timetable) (hv : ValidTimetable tt) (route_id j k i : Nat)
    (hk : k < (tt.routes.getD route_id default).trips.length)
    (hj : j < (tt.routes.getD route_id default).stop_times_by_stops.length)
    (hji : j < i) :
    (((tt.routes.getD route_id default).stop_times_by_stops.getD j []).getD k default).dep ≤
      (((tt.routes.getD route_id default).stop_times_by_trips.getD
        (tt.trip_positions ((tt.routes.getD route_id default).trips.getD k 0)).2 []).getD i
          default).arr := by
  have hr : tt.routes.getD route_id default ∈ tt.routes := by
    rcases route_mem_or_default tt route_id with hr | hr
    · exact hr
    · rw [hr] at hj
      simp [default] at hj
  rw [hv.trip_pos _ hr k hk, hv.transposed _ hr j hj k hk]
  rcases getD_mem_or_default (tt.routes.getD route_id default).stop_times_by_trips k []
    with hrow | hrow
  · rcases Nat.lt_or_ge i
      ((tt.routes.getD route_id default).stop_times_by_trips.getD k []).length with hi | hi
    · have hp := List.pairwise_iff_getElem.mp (hv.dep_le_arr _ hr _ hrow) j i (by omega) hi hji
      rw [getD_eq_getElem _ i default hi, getD_eq_getElem _ j default (by omega)]
      exact hp
    · rw [getD_of_length_le _ i default hi]
      exact Time.le_inf _
  · rw [hrow]
    exact Time.le_inf _

/-- The arrival of the trip found at index `k` of stop `j`, at stop `j`
itself, is not after its departure there. -/
theorem arr_le_dep_at (tt : Timetable) (hv : ValidTimetable tt) (route_id j k : Nat)
    (hk : k < (tt.routes.getD route_id default).trips.length)
    (hj : j < (tt.routes.getD route_id default).stop_times_by_stops.length) :
    (((tt.routes.getD route_id default).stop_times_by_stops.getD j []).getD k default).arr ≤
      (((tt.routes.getD route_id default).stop_times_by_stops.getD j []).getD k default).dep := by
  have hr : tt.routes.getD route_id default ∈ tt.routes := by
    rcases route_mem_or_default tt route_id with hr | hr
    · exact hr
    · rw [hr] at hj
      simp [default] at hj
  rw [hv.transposed _ hr j hj k hk]
  rcases getD_mem_or_default (tt.routes.getD route_id default).stop_times_by_trips k []
    with hrow | hrow
  · rcases getD_mem_or_default
      ((tt.routes.getD route_id default).stop_times_by_trips.getD k []) j default with he | he
    · exact hv.arr_le_dep _ hr _ hrow _ he
    · rw [he]
      exact le_refl _
  · rw [hrow]
    exact le_refl _

/-! ## A query from a stop to itself -/

/-- Boarding with a threshold of at least `d` gives a trip all of whose later
arrivals are at least `d`. -/
theorem tripAfter_earliest_trip (tt : Timetable) (hv : ValidTimetable tt)
    (route_id i : Nat) (d t : Time) (hd : d ≤ t) :
    TripAfter tt (tt.routes.getD route_id default) d (i + 1)
      (earliest_trip tt route_id i t) := by
  intro trip htrip j hj
  rcases earliest_trip_valid tt hv route_id i t with h | ⟨k, hk, -, hi, heq, hle, -⟩
  · rw [h] at htrip
    cases htrip
  · rw [heq] at htrip
    cases htrip
    exact le_trans (le_trans hd hle) (dep_le_later_arr tt hv route_id i k j hk hi (by omega))

/-- With `earliest_arrival_time[target] = d`, a snapshot that is at least `d`
everywhere and a current trip that arrives no earlier than `d`, one turn of the
route loop changes nothing. -/
theorem scan_stop_noop (tt : Timetable) (hv : ValidTimetable tt)
    (route_id target_id i p_i : Nat) (t : trip_id_t) (st : State) (d : Time)
    (htarget : st.earliest_arrival_time.getD target_id Time.inf = d)
    (hprev : ∀ p, d ≤ st.prev_earliest_arrival_time.getD p Time.inf)
    (htrip : TripAfter tt (tt.routes.getD route_id default) d i t) :
    (scan_stop tt route_id target_id (tt.routes.getD route_id default) i p_i t st).2 = st ∧
    TripAfter tt (tt.routes.getD route_id default) d (i + 1)
      (scan_stop tt route_id target_id (tt.routes.getD route_id default) i p_i t st).1 := by
  have hkeep : TripAfter tt (tt.routes.getD route_id default) d (i + 1) t :=
    fun trip h j hj => htrip trip h j (by omega)
  unfold scan_stop
  cases t with
  | none =>
    dsimp only
    split
    · exact ⟨rfl, tripAfter_earliest_trip tt hv route_id i d _ (hprev p_i)⟩
    · exact ⟨rfl, hkeep⟩
  | some trip =>
    dsimp only
    have harr := htrip trip rfl i (le_refl _)
    have hno : ¬ (((tt.routes.getD route_id default).stop_times_by_trips.getD
        (tt.trip_positions trip).2 []).getD i default).arr <
        min (st.earliest_arrival_time.getD p_i Time.inf)
          (st.earliest_arrival_time.getD target_id Time.inf) := by
      rw [htarget]
      intro h
      exact absurd (lt_of_lt_of_le h (min_le_right _ _)) (not_lt.mpr harr)
    rw [if_neg hno]
    dsimp only
    split
    · exact ⟨rfl, tripAfter_earliest_trip tt hv route_id i d _ (hprev p_i)⟩
    · exact ⟨rfl, hkeep⟩

theorem scan_route_noop (tt : Timetable) (hv : ValidTimetable tt)
    (route_id target_id : Nat) (d : Time) :
    ∀ (stops : List Nat) (i : Nat) (t : trip_id_t) (st : State),
      st.earliest_arrival_time.getD target_id Time.inf = d →
      (∀ p, d ≤ st.prev_earliest_arrival_time.getD p Time.inf) →
      TripAfter tt (tt.routes.getD route_id default) d i t →
      scan_route tt route_id target_id (tt.routes.getD route_id default) stops i t st = st := by
  intro stops
  induction stops with
  | nil =>
    intro i t st _ _ _
    rfl
  | cons p_i rest ih =>
    intro i t st htarget hprev htrip
    obtain ⟨h1, h2⟩ := scan_stop_noop tt hv route_id target_id i p_i t st d htarget hprev htrip
    unfold scan_route
    dsimp only
    rw [h1] at *
    exact ih (i + 1) _ st htarget hprev h2

theorem traverse_routes_noop (tt : Timetable) (hv : ValidTimetable tt)
    (target_id : Nat) (d : Time) :
    ∀ (queue : route_stop_queue_t) (st : State),
      st.earliest_arrival_time.getD target_id Time.inf = d →
      (∀ p, d ≤ st.prev_earliest_arrival_time.getD p Time.inf) →
      traverse_routes tt target_id queue st = st := by
  intro queue
  induction queue with
  | nil =>
    intro st _ _
    rfl
  | cons route_stop queue ih =>
    intro st htarget hprev
    unfold traverse_routes traverse_route
    dsimp only
    rw [scan_route_noop tt hv route_stop.1 target_id d _ _ NULL_TRIP st htarget hprev
      (fun trip h => by cases h)]
    exact ih st htarget hprev

theorem stage1_prev_ge (d : Time) :
    ∀ (stops : List Stop) (st : State),
      (∀ p, d ≤ st.earliest_arrival_time.getD p Time.inf) →
      (∀ p, d ≤ st.prev_earliest_arrival_time.getD p Time.inf) →
      ∀ p, d ≤ (stage1 st stops).prev_earliest_arrival_time.getD p Time.inf := by
  intro stops
  induction stops with
  | nil =>
    intro st _ hprev
    exact hprev
  | cons stop rest ih =>
    intro st heat hprev
    unfold stage1
    dsimp only
    split
    · refine ih { st with
        prev_earliest_arrival_time := st.prev_earliest_arrival_time.set stop.id
          (st.earliest_arrival_time.getD stop.id Time.inf) } heat ?_
      intro p
      rcases getD_set_cases st.prev_earliest_arrival_time stop.id p
        (st.earliest_arrival_time.getD stop.id Time.inf) Time.inf with h | h
      · rw [h]
        exact heat _
      · rw [h]
        exact hprev p
    · exact ih st heat hprev

/-- The state after the initialisation of `query(s, s, d)` on a fresh engine. -/
theorem query_init_self (tt : Timetable) (use_hl profile : Bool) (st : State) (s : Nat)
    (d : Time) (hself : tt.walking_time s s = Time.fin 0) (hfresh : Fresh tt use_hl st)
    (hs : s ≤ tt.max_stop_id) :
    (query_init tt use_hl profile s s d st).2.earliest_arrival_time.getD s Time.inf = d ∧
    (∀ p, d ≤ (query_init tt use_hl profile s s d st).2.earliest_arrival_time.getD p
      Time.inf) ∧
    (∀ p, d ≤ (query_init tt use_hl profile s s d st).2.prev_earliest_arrival_time.getD p
      Time.inf) := by
  obtain ⟨heat, hprev, -, -⟩ := hfresh
  have hrep : ∀ p, (List.replicate (tt.max_stop_id + 1) Time.inf).getD p Time.inf = Time.inf := by
    intro p
    simp only [List.getD_eq_getElem?_getD, List.getElem?_replicate]
    split <;> rfl
  have hset : ∀ p, d ≤ ((List.replicate (tt.max_stop_id + 1) Time.inf).set s d).getD p
      Time.inf := by
    intro p
    rcases getD_set_cases (List.replicate (tt.max_stop_id + 1) Time.inf) s p d Time.inf
      with h | h
    · rw [h]
    · rw [h, hrep]
      exact Time.le_inf _
  have hlen : s < ((List.replicate (tt.max_stop_id + 1) Time.inf).set s d).length := by
    rw [List.length_set, List.length_replicate]
    omega
  unfold query_init
  dsimp only
  rw [heat, hprev, hself, Time.add_zero]
  split
  · dsimp only
    refine ⟨getD_set_self _ s d _ hlen, ?_, hset⟩
    intro p
    rcases getD_set_cases ((List.replicate (tt.max_stop_id + 1) Time.inf).set s d) s p d
      Time.inf with h | h
    · rw [h]
    · rw [h]
      exact hset p
  · refine ⟨getD_set_self _ s d _ ?_, hset, hset⟩
    rw [List.length_replicate]
    omega


/-! ## The single-trip scenario -/

theorem lower_bound_single (e : StopTime) (t : Time) :
    lower_bound [e] t = if e.dep < t then 1 else 0 := by
  unfold lower_bound
  simp only [List.length_cons, List.length_nil, Nat.zero_add]
  unfold lower_bound_loop
  simp only [Nat.one_ne_zero, if_false, Nat.reduceDiv, Nat.add_zero, List.getD_cons_zero,
    Nat.zero_add, Nat.sub_zero, Nat.sub_self]
  unfold lower_bound_loop
  rfl

/-- Boarding at A in the single-trip scenario: the only trip is caught when the
threshold is not after its departure. -/
theorem single_trip_board (aA dB : Time) (x y dv : Int) (hd : dv ≤ x) :
    earliest_trip (single_trip aA (Time.fin x) (Time.fin y) dB) 0 0 (Time.fin dv) = some 0 := by
  have h1 : ¬ (Time.fin x < Time.fin dv) := by
    rw [Time.fin_lt_fin]
    omega
  show (if lower_bound [(⟨aA, Time.fin x⟩ : StopTime)] (Time.fin dv) = 1 then NULL_TRIP
    else some ([0].getD (lower_bound [(⟨aA, Time.fin x⟩ : StopTime)] (Time.fin dv)) 0)) = some 0
  rw [lower_bound_single, if_neg h1]
  rfl

/-- One turn of the route loop without a current trip: the state is kept and
the trip is looked up. -/
theorem scan_stop_none (tt : Timetable) (route_id target_id : Nat) (route : Route)
    (i p_i : Nat) (st : State) :
    scan_stop tt route_id target_id route i p_i NULL_TRIP st =
      (earliest_trip tt route_id i (st.prev_earliest_arrival_time.getD p_i Time.inf), st) := by
  unfold scan_stop
  dsimp only
  rw [if_pos (Time.le_inf _)]

/-- Stage 2 of round 1 in the single-trip scenario. -/
theorem single_trip_round1 (aA dB : Time) (x y dv : Int) (hd : dv ≤ x) :
    traverse_routes (single_trip aA (Time.fin x) (Time.fin y) dB) 1 [(0, 0)]
        ⟨[Time.fin dv, Time.inf], [Time.fin dv, Time.inf], [false, false], [], false⟩ =
      ⟨[Time.fin dv, Time.fin y], [Time.fin dv, Time.inf], [false, true], [], true⟩ := by
  have hb := single_trip_board aA dB x y dv hd
  have h2 : Time.fin y < min Time.inf Time.inf := by
    rw [min_self]
    exact Time.fin_lt_inf y
  show scan_route (single_trip aA (Time.fin x) (Time.fin y) dB) 0 1
    (single_trip_route aA (Time.fin x) (Time.fin y) dB) [0, 1] 0 NULL_TRIP
    ⟨[Time.fin dv, Time.inf], [Time.fin dv, Time.inf], [false, false], [], false⟩ = _
  unfold scan_route
  rw [scan_stop_none]
  dsimp only
  rw [show ([Time.fin dv, Time.inf] : List Time).getD 0 Time.inf = Time.fin dv from rfl, hb]
  unfold scan_route scan_stop
  dsimp only
  rw [show (((single_trip_route aA (Time.fin x) (Time.fin y) dB).stop_times_by_trips.getD
      ((single_trip aA (Time.fin x) (Time.fin y) dB).trip_positions 0).2 []).getD (0 + 1)
        default) = (⟨Time.fin y, dB⟩ : StopTime) from rfl]
  dsimp only
  rw [show ([Time.fin dv, Time.inf] : List Time).getD 1 Time.inf = Time.inf from rfl, if_pos h2]
  dsimp only
  split <;> rfl

/-- Stage 2 of round 2 in the single-trip scenario: nothing improves. -/
theorem single_trip_round2 (aA dB : Time) (x y dv : Int) :
    traverse_routes (single_trip aA (Time.fin x) (Time.fin y) dB) 1 [(0, 1)]
        ⟨[Time.fin dv, Time.fin y], [Time.fin dv, Time.fin y], [false, false], [], false⟩ =
      ⟨[Time.fin dv, Time.fin y], [Time.fin dv, Time.fin y], [false, false], [], false⟩ := by
  show scan_route (single_trip aA (Time.fin x) (Time.fin y) dB) 0 1
    (single_trip_route aA (Time.fin x) (Time.fin y) dB) [1] 1 NULL_TRIP
    ⟨[Time.fin dv, Time.fin y], [Time.fin dv, Time.fin y], [false, false], [], false⟩ = _
  unfold scan_route
  rw [scan_stop_none]
  rfl

/-- In the single-trip scenario every route listed by a stop knows the stop. -/
theorem single_trip_defined (aA x y dB : Time) : PositionsDefined (single_trip aA x y dB) := by
  intro stop hstop r hr
  have hs : stop = ⟨0, [0], [], []⟩ ∨ stop = ⟨1, [0], [], []⟩ := by
    simpa [single_trip] using hstop
  rcases hs with hs | hs
  · subst hs
    have : r = 0 := by simpa using hr
    subst this
    rfl
  · subst hs
    have : r = 0 := by simpa using hr
    subst this
    rfl

/-- The single-trip scenario, for any departure time not after the departure
of the trip at A: two rounds run and `query(A, B, d)` returns `[INF, y, y]`. -/
theorem single_trip_query (order : route_stop_queue_t → route_stop_queue_t)
    (hperm : ∀ queue, (order queue).Perm queue) (aA dB : Time) (x y dv : Int) (b : Bool)
    (hd : dv ≤ x) :
    query (single_trip aA (Time.fin x) (Time.fin y) dB) order false false 2
        (init (single_trip aA (Time.fin x) (Time.fin y) dB) false (constructed b)) 0 1
        (Time.fin dv) =
      Outcome.returned [Time.inf, Time.fin y, Time.fin y]
        ⟨[Time.fin dv, Time.fin y], [Time.fin dv, Time.fin y], [false, false], [], false⟩ := by
  unfold query
  rw [round_loop_succ_defined _ order hperm (single_trip_defined aA (Time.fin x) (Time.fin y) dB)]
  rw [show make_queue (single_trip aA (Time.fin x) (Time.fin y) dB)
      (stage1 (query_init (single_trip aA (Time.fin x) (Time.fin y) dB) false false 0 1
        (Time.fin dv) (init (single_trip aA (Time.fin x) (Time.fin y) dB) false
          (constructed b))).2 (single_trip aA (Time.fin x) (Time.fin y) dB).stops) =
      some ([(0, 0)], ⟨[Time.fin dv, Time.inf], [Time.fin dv, Time.inf], [false, false], [], b⟩)
    from rfl]
  dsimp only
  rw [order_singleton order hperm, show stage2_start (stage1 (query_init (single_trip aA (Time.fin x) (Time.fin y) dB) false
        false 0 1 (Time.fin dv) (init (single_trip aA (Time.fin x) (Time.fin y) dB) false
          (constructed b))).2 (single_trip aA (Time.fin x) (Time.fin y) dB).stops) =
      ⟨[Time.fin dv, Time.inf], [Time.fin dv, Time.inf], [false, false], [], false⟩ from rfl,
    single_trip_round1 aA dB x y dv hd]
  rw [if_neg (show ¬ ((!true) = true) from by decide)]
  rw [round_loop_succ_defined _ order hperm (single_trip_defined aA (Time.fin x) (Time.fin y) dB)]
  rw [show make_queue (single_trip aA (Time.fin x) (Time.fin y) dB)
      (stage1 (stage3 (single_trip aA (Time.fin x) (Time.fin y) dB) false false 0 1
        ((0 + 1) % 65536)
        ⟨[Time.fin dv, Time.fin y], [Time.fin dv, Time.inf], [false, true], [], true⟩)
        (single_trip aA (Time.fin x) (Time.fin y) dB).stops) =
      some ([(0, 1)], ⟨[Time.fin dv, Time.fin y], [Time.fin dv, Time.fin y], [false, false], [],
        true⟩) from rfl]
  dsimp only
  rw [order_singleton order hperm, show stage2_start (stage1 (stage3 (single_trip aA (Time.fin x) (Time.fin y) dB) false
        false 0 1 ((0 + 1) % 65536)
        ⟨[Time.fin dv, Time.fin y], [Time.fin dv, Time.inf], [false, true], [], true⟩)
        (single_trip aA (Time.fin x) (Time.fin y) dB).stops) =
      ⟨[Time.fin dv, Time.fin y], [Time.fin dv, Time.fin y], [false, false], [], false⟩
    from rfl,
    single_trip_round2 aA dB x y dv]
  rfl

/-- In the single-trip scenario one round is not enough: the first round
improves B, so the loop goes on. -/
theorem single_trip_query_one (order : route_stop_queue_t → route_stop_queue_t)
    (hperm : ∀ queue, (order queue).Perm queue) (aA dB : Time) (x y dv : Int) (b : Bool)
    (hd : dv ≤ x) :
    query (single_trip aA (Time.fin x) (Time.fin y) dB) order false false 1
        (init (single_trip aA (Time.fin x) (Time.fin y) dB) false (constructed b)) 0 1
        (Time.fin dv) = Outcome.timeout := by
  unfold query
  rw [round_loop_succ_defined _ order hperm (single_trip_defined aA (Time.fin x) (Time.fin y) dB)]
  rw [show make_queue (single_trip aA (Time.fin x) (Time.fin y) dB)
      (stage1 (query_init (single_trip aA (Time.fin x) (Time.fin y) dB) false false 0 1
        (Time.fin dv) (init (single_trip aA (Time.fin x) (Time.fin y) dB) false
          (constructed b))).2 (single_trip aA (Time.fin x) (Time.fin y) dB).stops) =
      some ([(0, 0)], ⟨[Time.fin dv, Time.inf], [Time.fin dv, Time.inf], [false, false], [], b⟩)
    from rfl]
  dsimp only
  rw [order_singleton order hperm, show stage2_start (stage1 (query_init (single_trip aA (Time.fin x) (Time.fin y) dB) false
        false 0 1 (Time.fin dv) (init (single_trip aA (Time.fin x) (Time.fin y) dB) false
          (constructed b))).2 (single_trip aA (Time.fin x) (Time.fin y) dB).stops) =
      ⟨[Time.fin dv, Time.inf], [Time.fin dv, Time.inf], [false, false], [], false⟩ from rfl,
    single_trip_round1 aA dB x y dv hd]
  rw [if_neg (show ¬ ((!true) = true) from by decide)]
  rfl

/-! ## The example timetables are valid -/

/-- Scenario 4 is a valid timetable. -/
theorem scenario4_valid : ValidTimetable scenario4 where
  fifo := by decide
  arr_le_dep := by decide
  dep_le_arr := by decide
  events_length := by decide
  transposed := by decide
  trip_pos := by decide
  transfers_nonneg := by decide
  walking_nonneg := by
    intro a b
    show Time.fin 0 ≤ if a = b then Time.fin 0 else Time.inf
    split
    · exact le_refl _
    · exact Time.le_inf _
  walking_self := by
    intro a
    show (if a = a then Time.fin 0 else Time.inf) = Time.fin 0
    rw [if_pos rfl]
  positions := by
    unfold PositionsDefined
    decide


theorem eatAt_improve (st : State) (p q : Nat) (arr : Time)
    (hp : p < st.earliest_arrival_time.length) :
    eatAt (improve st p arr) q = if q = p then arr else eatAt st q := by
  unfold eatAt improve
  dsimp only
  by_cases h : q = p
  · subst h
    rw [if_pos rfl, getD_set_self _ _ _ _ hp]
  · rw [if_neg h, getD_set_ne _ _ _ _ _ (Ne.symm h)]

theorem prevAt_improve (st : State) (p q : Nat) (arr : Time) :
    prevAt (improve st p arr) q = prevAt st q := rfl

theorem markAt_improve (st : State) (p q : Nat) (arr : Time)
    (hp : p < st.stop_is_marked.length) :
    markAt (improve st p arr) q ↔ q = p ∨ markAt st q := by
  unfold markAt improve
  dsimp only
  by_cases h : q = p
  · subst h
    rw [getD_set_self _ _ _ _ hp]
    simp
  · rw [getD_set_ne _ _ _ _ _ (Ne.symm h)]
    simp [h]

theorem eatAt_improve_le (st : State) (p q : Nat) (arr : Time) (h : arr ≤ eatAt st p) :
    eatAt (improve st p arr) q ≤ eatAt st q :=
  getD_set_le _ p q arr h

theorem HasChain.mono_val {st : State} {n L : Nat} {v w : Time} (h : HasChain st n L v)
    (hvw : v ≤ w) : HasChain st n L w := by
  obtain ⟨C, h1, h2, h3, h4⟩ := h
  exact ⟨C, h1, h2, h3, fun c hc => le_trans (h4 c hc) hvw⟩

theorem HasChain.chainLower {st st1 : State} {n L : Nat} {v : Time} (h : HasChain st n L v)
    (hle : ∀ p, eatAt st1 p ≤ eatAt st p) : HasChain st1 n L v := by
  obtain ⟨C, h1, h2, h3, h4⟩ := h
  exact ⟨C, h1, h2, h3, fun c hc => le_trans (hle c) (h4 c hc)⟩

/-- The value of a non-empty chain is at least any lower bound of the arrival
times. -/
theorem HasChain.ge {st : State} {n L : Nat} {v d : Time} (h : HasChain st n (L + 1) v)
    (hd : ∀ p, d ≤ eatAt st p) : d ≤ v := by
  obtain ⟨C, -, h2, -, h4⟩ := h
  cases C with
  | nil => simp at h2
  | cons c C => exact le_trans (hd c) (h4 c (List.mem_cons_self _ _))

/-- Lowering a stop strictly below its arrival time, to a value that is at
least the value of a chain, extends the chain by that stop. -/
theorem HasChain.extend {st st1 : State} {n L : Nat} {v w : Time} (p : Nat)
    (h : HasChain st n L v) (hvw : v ≤ w) (hlt : w < eatAt st p) (hp : p < n)
    (hst1 : ∀ q, eatAt st1 q = if q = p then w else eatAt st q) :
    HasChain st1 n (L + 1) w := by
  obtain ⟨C, h1, h2, h3, h4⟩ := h
  have hnot : p ∉ C := by
    intro hpC
    exact absurd (lt_of_lt_of_le hlt (le_trans (h4 p hpC) hvw)) (lt_irrefl _)
  refine ⟨p :: C, List.nodup_cons.mpr ⟨hnot, h1⟩, by simpa using h2, ?_, ?_⟩
  · intro c hc
    rcases List.mem_cons.mp hc with rfl | hc
    · exact hp
    · exact h3 c hc
  · intro c hc
    rw [hst1]
    rcases List.mem_cons.mp hc with rfl | hc
    · rw [if_pos rfl]
    · have hne : c ≠ p := fun heq => hnot (heq ▸ hc)
      rw [if_neg hne]
      exact le_trans (h4 c hc) hvw

/-! ## Saturation is kept when arrival times go down -/

theorem Pruned.prunedLower {tt : Timetable} {target_id : Nat} {st st1 : State} {rid trip i : Nat}
    (h : Pruned tt target_id st rid trip i) (hle : ∀ p, eatAt st1 p ≤ eatAt st p) :
    Pruned tt target_id st1 rid trip i :=
  le_trans (min_le_min (hle _) (hle _)) h

theorem Keeps.keepsOfPrev {tt : Timetable} {st st1 : State} {rid trip j i : Nat}
    (h : Keeps tt st1 rid trip j i) (hprev : ∀ q, prevAt st1 q ≤ prevAt st q) :
    Keeps tt st rid trip j i :=
  fun m h1 h2 => lt_of_lt_of_le (h m h1 h2) (hprev _)

theorem Sat.satLower {tt : Timetable} {target_id : Nat} {st st1 : State} {rid j : Nat}
    (h : Sat tt target_id st rid j)
    (hj : prevAt st1 (stopAt tt rid j) = prevAt st (stopAt tt rid j))
    (hprev : ∀ q, prevAt st1 q ≤ prevAt st q) (hle : ∀ p, eatAt st1 p ≤ eatAt st p) :
    Sat tt target_id st1 rid j := by
  intro trip htrip i hji hi hkeep
  rw [hj] at htrip
  exact (h trip htrip i hji hi (hkeep.keepsOfPrev hprev)).prunedLower hle

/-- An improvement that extends a chain keeps the invariant of stage 2. -/
theorem Stage2Inv.step {c : Ctx} {k : Nat} {B : Nat → Prop} {st : State}
    (h : Stage2Inv c k B st) (p : Nat) (arr v : Time)
    (hchain : HasChain st c.N (k + 1) v) (hv : v ≤ arr) (hlt : arr < eatAt st p)
    (hp : p < c.N) : Stage2Inv c k B (improve st p arr) := by
  have hpe : p < st.earliest_arrival_time.length := by rw [h.len_eat]; exact hp
  have hpm : p < st.stop_is_marked.length := by rw [h.len_mark]; exact hp
  have hle : ∀ q, eatAt (improve st p arr) q ≤ eatAt st q :=
    fun q => eatAt_improve_le st p q arr (le_of_lt hlt)
  have hd : c.d ≤ arr := le_trans (hchain.ge h.ge_d) hv
  have hsrc : c.source_id ≠ p := by
    intro heq
    rw [← heq, h.src] at hlt
    exact absurd (lt_of_lt_of_le hlt hd) (lt_irrefl _)
  refine ⟨?_, ?_, ?_, ?_, ?_, ?_, ?_, ?_, ?_, ?_⟩
  · show (st.earliest_arrival_time.set p arr).length = c.N
    rw [List.length_set]
    exact h.len_eat
  · show (st.stop_is_marked.set p true).length = c.N
    rw [List.length_set]
    exact h.len_mark
  · intro q
    rw [eatAt_improve st p q arr hpe]
    split
    · exact hd
    · exact h.ge_d q
  · intro q
    exact le_trans (hle q) (h.le_prev q)
  · rw [eatAt_improve st p _ arr hpe, if_neg hsrc]
    exact h.src
  · intro hm
    rcases (markAt_improve st p _ arr hpm).mp hm with h1 | h1
    · exact hsrc h1
    · exact h.src_unmarked h1
  · intro q hq
    exact (h.board q hq).chainLower hle
  · intro q hq
    rw [eatAt_improve st p q arr hpe]
    by_cases hqp : q = p
    · rw [if_pos hqp]
      exact hchain.extend p hv hlt hp (fun x => eatAt_improve st p x arr hpe)
    · rw [if_neg hqp]
      rcases (markAt_improve st p q arr hpm).mp hq with h1 | h1
      · exact absurd h1 hqp
      · exact (h.chain q h1).chainLower hle
  · intro q hq
    by_cases hqp : q = p
    · left
      exact (markAt_improve st p q arr hpm).mpr (Or.inl hqp)
    · rcases h.fresh q hq with h1 | h1
      · left
        exact (markAt_improve st p q arr hpm).mpr (Or.inr h1)
      · right
        rw [eatAt_improve st p q arr hpe, if_neg hqp]
        exact h1
  · intro rid j hj hB
    exact (h.old rid j hj hB).satLower rfl (fun _ => le_refl _) hle

/-- One turn of the loop over the transfers of a stop. -/
theorem scan_transfers_cons (target_id stop_id : Nat) (transfer : Transfer)
    (rest : List Transfer) (st : State) (improved : List Nat) :
    scan_transfers target_id stop_id (transfer :: rest) (st, improved) =
      if eatAt st stop_id + transfer.time < eatAt st transfer.dest then
        if eatAt (lowerAt st transfer.dest (eatAt st stop_id + transfer.time)) target_id <
            eatAt st stop_id + transfer.time then
          (lowerAt st transfer.dest (eatAt st stop_id + transfer.time),
            improved.insert transfer.dest)
        else scan_transfers target_id stop_id rest
          (lowerAt st transfer.dest (eatAt st stop_id + transfer.time),
            improved.insert transfer.dest)
      else
        if eatAt st target_id < eatAt st stop_id + transfer.time then (st, improved)
        else scan_transfers target_id stop_id rest (st, improved) := by
  conv_lhs => unfold scan_transfers
  dsimp only
  by_cases hlt : eatAt st stop_id + transfer.time < eatAt st transfer.dest
  · rw [if_pos hlt]
    unfold eatAt at hlt
    rw [if_pos hlt]
    rfl
  · rw [if_neg hlt]
    unfold eatAt at hlt
    rw [if_neg hlt]
    rfl

theorem eatAt_lowerAt (st : State) (p q : Nat) (v : Time)
    (hp : p < st.earliest_arrival_time.length) :
    eatAt (lowerAt st p v) q = if q = p then v else eatAt st q := by
  unfold eatAt lowerAt
  dsimp only
  by_cases h : q = p
  · subst h
    rw [if_pos rfl, getD_set_self _ _ _ _ hp]
  · rw [if_neg h, getD_set_ne _ _ _ _ _ (Ne.symm h)]

theorem eatAt_lowerAt_le (st : State) (p q : Nat) (v : Time) (h : v ≤ eatAt st p) :
    eatAt (lowerAt st p v) q ≤ eatAt st q :=
  getD_set_le _ p q v h

/-- The deferred marking: a stop is marked afterwards only if it was marked or
is in the set of improved stops, and marks are kept. -/
theorem markAt_mark_improved :
    ∀ (improved : List Nat) (st : State) (q : Nat),
      (markAt (mark_improved improved st) q → markAt st q ∨ q ∈ improved) ∧
      (markAt st q → markAt (mark_improved improved st) q) := by
  intro improved
  induction improved with
  | nil =>
    intro st q
    exact ⟨fun h => Or.inl h, fun h => h⟩
  | cons stop_id rest ih =>
    intro st q
    unfold mark_improved
    obtain ⟨h1, h2⟩ := ih { st with stop_is_marked := st.stop_is_marked.set stop_id true } q
    have hcases := getD_set_cases st.stop_is_marked stop_id q true false
    constructor
    · intro h
      rcases h1 h with h3 | h3
      · by_cases hq : stop_id = q
        · exact Or.inr (hq ▸ List.mem_cons_self _ _)
        · left
          unfold markAt at h3 ⊢
          dsimp only at h3
          rw [getD_set_ne _ _ _ _ _ hq] at h3
          exact h3
      · exact Or.inr (List.mem_cons_of_mem _ h3)
    · intro h
      apply h2
      unfold markAt at h ⊢
      dsimp only
      rcases hcases with h3 | h3
      · exact h3
      · rw [h3]
        exact h

theorem eatAt_mark_improved (improved : List Nat) (st : State) (q : Nat) :
    eatAt (mark_improved improved st) q = eatAt st q := by
  unfold eatAt
  rw [(mark_improved_frame improved st).2.1]

theorem getD_replicate_inf (n p : Nat) :
    (List.replicate n Time.inf).getD p Time.inf = Time.inf := by
  simp only [List.getD_eq_getElem?_getD, List.getElem?_replicate]
  split <;> rfl

/-- In hub mode `scan_footpaths` changes `tmp_hub_labels` at most. -/
theorem scan_footpaths_hl_frame (tt : Timetable) (target_id : Nat) (st : State) :
    (scan_footpaths tt true target_id st).earliest_arrival_time = st.earliest_arrival_time ∧
    (scan_footpaths tt true target_id st).prev_earliest_arrival_time =
      st.prev_earliest_arrival_time ∧
    (scan_footpaths tt true target_id st).stop_is_marked = st.stop_is_marked ∧
    (scan_footpaths tt true target_id st).stops_improved = st.stops_improved := by
  have h : scan_footpaths tt true target_id st =
      (scan_hubs_stops tt target_id tt.stops (st, [])).1 := by
    unfold scan_footpaths
    simp only [Bool.not_true, Bool.false_eq_true, if_false]
    exact propagate_hubs_eq tt target_id _ _
  rw [h]
  exact scan_hubs_stops_frame tt target_id tt.stops (st, [])

/-- `Label::dominates` as a proposition. -/
theorem dominates_eq_true (a b : Label) :
    a.dominates b = true ↔
      (a._arrival_time ≤ b._arrival_time ∧ a._walking_time < b._walking_time) ∨
      (a._arrival_time < b._arrival_time ∧ a._walking_time ≤ b._walking_time) := by
  unfold Label.dominates
  simp only [Bool.or_eq_true, Bool.and_eq_true, decide_eq_true_eq]

/-- A sequence of improvements that ends with `stops_improved` unset is empty. -/
theorem stage2_not_improved {tt : Timetable} {target_id : Nat} {a b : State}
    (h : Relation.ReflTransGen (Stage2Step tt target_id) a b)
    (hb : b.stops_improved = false) : b = a := by
  rcases Relation.ReflTransGen.cases_tail h with h1 | ⟨c, -, hstep⟩
  · exact h1
  · cases hstep with
    | improve p arr hp harr hlocal htarget => cases hb

/-- The round loop, entered with a label vector that ends with the current
`earliest_arrival_time[target]`, returns a vector whose last two elements are
equal. -/
theorem round_loop_last_two (tt : Timetable)
    (order : route_stop_queue_t → route_stop_queue_t) (use_hl profile : Bool)
    (source_id target_id : Nat) :
    ∀ (fuel round0 : Nat) (front : List Time) (st : State) (labels : List Time)
      (st1 : State),
      round_loop tt order use_hl profile source_id target_id fuel round0
        (front ++ [st.earliest_arrival_time.getD target_id Time.inf]) st =
        Outcome.returned labels st1 →
      ∃ front1 x, labels = front1 ++ [x, x] := by
  intro fuel
  induction fuel generalizing tt with
  | zero =>
    intro round0 front st labels st1 h
    cases h
  | succ fuel ih =>
    intro round0 front st labels st1 h
    rw [round_loop_succ] at h
    cases hq : make_queue tt (stage1 st tt.stops) with
    | none =>
      rw [hq] at h
      cases h
    | some qs =>
      obtain ⟨queue, st2⟩ := qs
      rw [hq] at h
      simp only [] at h
      split at h
      · rename_i himp
        have himp' : (traverse_routes tt target_id (order queue)
            (stage2_start (stage1 st tt.stops))).stops_improved = false := by
          simpa using himp
        have heq := stage2_not_improved (traverse_routes_steps tt target_id (order queue)
          (stage2_start (stage1 st tt.stops))) himp'
        rw [heq, (stage2_start_frame tt st).1] at h
        injection h with h1 h2
        exact ⟨front, st.earliest_arrival_time.getD target_id Time.inf, by
          rw [← h1, List.append_assoc]
          rfl⟩
      · obtain ⟨front1, x, hx⟩ := ih _ _ (front ++ [st.earliest_arrival_time.getD target_id
          Time.inf]) _ _ _ h
        exact ⟨front1, x, hx⟩

/-- The vector returned by `query` ends with two equal elements. -/
theorem query_last_two (tt : Timetable) (order : route_stop_queue_t → route_stop_queue_t)
    (use_hl profile : Bool) (fuel : Nat) (st : State)
    (source_id target_id : Nat) (departure_time : Time) (labels : List Time) (st1 : State)
    (h : query tt order use_hl profile fuel st source_id target_id departure_time =
      Outcome.returned labels st1) :
    ∃ front x, labels = front ++ [x, x] := by
  unfold query at h
  dsimp only at h
  rw [(query_init_frame tt use_hl profile source_id target_id departure_time st).1] at h
  exact round_loop_last_two tt order use_hl profile source_id target_id fuel 0 [] _ _ _ h

/-- Lowering `earliest_arrival_time` with the snapshot untouched keeps the
snapshot invariant. -/
theorem SnapshotInv.of_lowered {a b : State} (h : SnapshotInv a) (hl : Lowered a b)
    (hp : b.prev_earliest_arrival_time = a.prev_earliest_arrival_time) : SnapshotInv b := by
  intro s
  unfold eatAt prevAt
  rw [hp]
  exact le_trans (hl.2 s) (h s)

/-- Stage 1 keeps the snapshot invariant, whatever part of the stops it runs
over. -/
theorem snapshot_stage1 :
    ∀ (stops : List Stop) (st : State), SnapshotInv st → SnapshotInv (stage1 st stops) := by
  intro stops
  induction stops with
  | nil =>
    intro st h
    exact h
  | cons stop rest ih =>
    intro st h
    unfold stage1
    split
    · apply ih
      intro s
      unfold eatAt prevAt
      dsimp only
      by_cases hs : s = stop.id
      · subst hs
        rcases getD_set_cases st.prev_earliest_arrival_time stop.id stop.id
          (st.earliest_arrival_time.getD stop.id Time.inf) Time.inf with h1 | h1
        · rw [h1]
        · rw [h1]
          exact h stop.id
      · rw [getD_set_ne _ _ _ _ _ (Ne.symm hs)]
        exact h s
    · exact ih st h

/-- The snapshot invariant does not depend on the marks or on the flag. -/
theorem SnapshotInv.of_arrays {a b : State} (h : SnapshotInv a)
    (he : b.earliest_arrival_time = a.earliest_arrival_time)
    (hp : b.prev_earliest_arrival_time = a.prev_earliest_arrival_time) : SnapshotInv b :=
  h.of_lowered (Lowered.of_eq he) hp

/-- `make_queue` keeps the snapshot invariant. -/
theorem snapshot_make_queue (tt : Timetable) (st : State) (queue : route_stop_queue_t)
    (st1 : State) (hq : make_queue tt st = some (queue, st1)) (h : SnapshotInv st) :
    SnapshotInv st1 := by
  rw [make_queue_state tt st queue st1 hq]
  exact h.of_arrays rfl rfl

/-- The route scans of stage 2 keep the snapshot invariant. -/
theorem snapshot_traverse_routes (tt : Timetable) (target_id : Nat)
    (queue : route_stop_queue_t) (st : State) (h : SnapshotInv st) :
    SnapshotInv (traverse_routes tt target_id queue st) := by
  obtain ⟨hl, hp, -⟩ := stage2_summary (traverse_routes_steps tt target_id queue st)
  exact h.of_lowered hl hp

/-- `scan_footpaths` keeps the snapshot invariant. -/
theorem snapshot_scan_footpaths (tt : Timetable) (use_hl : Bool) (target_id : Nat)
    (st : State) (h : SnapshotInv st) : SnapshotInv (scan_footpaths tt use_hl target_id st) := by
  obtain ⟨hl, hp, -⟩ := scan_footpaths_frame tt use_hl target_id st
  exact h.of_lowered hl hp

/-- Stage 3 of a round keeps the snapshot invariant. -/
theorem snapshot_stage3 (tt : Timetable) (use_hl profile : Bool)
    (source_id target_id round : Nat) (st : State) (h : SnapshotInv st) :
    SnapshotInv (stage3 tt use_hl profile source_id target_id round st) := by
  obtain ⟨hl, hp, -⟩ := stage3_frame tt use_hl profile source_id target_id round st
  exact h.of_lowered hl hp

/-- The state a round loop returns satisfies the snapshot invariant when the
state it starts from does. -/
theorem snapshot_round_loop (tt : Timetable)
    (order : route_stop_queue_t → route_stop_queue_t) (use_hl profile : Bool)
    (source_id target_id : Nat) :
    ∀ (fuel round0 : Nat) (target_labels : List Time) (st : State) (labels : List Time)
      (st1 : State),
      SnapshotInv st →
      round_loop tt order use_hl profile source_id target_id fuel round0 target_labels st =
        Outcome.returned labels st1 →
      SnapshotInv st1 := by
  intro fuel
  induction fuel generalizing tt with
  | zero =>
    intro round0 target_labels st labels st1 _ h
    cases h
  | succ fuel ih =>
    intro round0 target_labels st labels st1 hinv h
    rw [round_loop_succ] at h
    cases hq : make_queue tt (stage1 st tt.stops) with
    | none =>
      rw [hq] at h
      cases h
    | some qs =>
      obtain ⟨queue, st2⟩ := qs
      rw [hq] at h
      simp only [] at h
      have h2 : SnapshotInv (traverse_routes tt target_id (order queue)
          (stage2_start (stage1 st tt.stops))) :=
        snapshot_traverse_routes tt target_id (order queue) _
          ((snapshot_stage1 tt.stops st hinv).of_arrays rfl rfl)
      split at h
      · injection h with h1 h2'
        rw [← h2']
        exact h2
      · exact ih _ _ _ _ _ _ (snapshot_stage3 tt use_hl profile source_id target_id _ _ h2) h

/-- Adding a walking time that is not positive does not make a time later. -/
theorem add_le_of_nonpos (a w : Time) (hw : w ≤ Time.fin 0) : a + w ≤ a := by
  cases a <;> cases w <;> simp at hw ⊢
  omega

/-- The initialisation of `query` on a fresh engine establishes the snapshot
invariant, provided that in a hub-mode non-profile query from a stop to itself
walking from the stop to itself takes no (positive) time. -/
theorem snapshot_query_init (tt : Timetable) (use_hl profile : Bool) (st : State)
    (source_id target_id : Nat) (d : Time) (hfresh : Fresh tt use_hl st)
    (hself : use_hl = true → profile = false → target_id = source_id →
      tt.walking_time source_id source_id ≤ Time.fin 0) :
    SnapshotInv (query_init tt use_hl profile source_id target_id d st).2 := by
  obtain ⟨heat, hprev, -, -⟩ := hfresh
  have hP : (query_init tt use_hl profile source_id target_id d
      st).2.prev_earliest_arrival_time =
      (List.replicate (tt.max_stop_id + 1) Time.inf).set source_id d := by
    unfold query_init
    dsimp only
    rw [hprev]
    split <;> rfl
  have hE : (query_init tt use_hl profile source_id target_id d
      st).2.earliest_arrival_time =
        (List.replicate (tt.max_stop_id + 1) Time.inf).set source_id d ∨
      (use_hl = true ∧ profile = false ∧
        (query_init tt use_hl profile source_id target_id d st).2.earliest_arrival_time =
          ((List.replicate (tt.max_stop_id + 1) Time.inf).set source_id d).set
            target_id (d + tt.walking_time source_id target_id)) := by
    unfold query_init
    dsimp only
    rw [heat]
    split
    · rename_i hc
      simp only [Bool.and_eq_true, Bool.not_eq_true'] at hc
      exact Or.inr ⟨hc.1, hc.2, rfl⟩
    · exact Or.inl rfl
  intro s
  unfold eatAt prevAt
  rw [hP]
  rcases hE with h | ⟨hu, hpf, h⟩
  · rw [h]
  · rw [h]
    rcases getD_set_cases ((List.replicate (tt.max_stop_id + 1) Time.inf).set source_id d)
      target_id s (d + tt.walking_time source_id target_id) Time.inf with h1 | h1
    · by_cases hts : s = target_id
      · by_cases hss : s = source_id
        · rw [h1, ← hts, hss]
          have hw := hself hu hpf (hts.symm.trans hss)
          rcases getD_set_cases (List.replicate (tt.max_stop_id + 1) Time.inf) source_id
            source_id d Time.inf with h2 | h2
          · rw [h2]
            exact add_le_of_nonpos d _ hw
          · rw [h2, getD_replicate_inf]
            exact Time.le_inf _
        · rw [getD_set_ne _ _ _ _ _ (Ne.symm hss), getD_replicate_inf]
          exact Time.le_inf _
      · rw [getD_set_ne _ _ _ _ _ (Ne.symm hts)]
    · rw [h1]

/-! ## Deferred marking in the direct-transfer sweep -/

/-- The scan of one transfer list records exactly the stops it lowers. -/
theorem tracked_scan_transfers (st0 : State) (target_id stop_id : Nat) :
    ∀ (transfers : List Transfer) (st : State) (improved : List Nat),
      Tracked st0 (st, improved) →
      (∀ transfer ∈ transfers, transfer.dest < st0.earliest_arrival_time.length) →
      Tracked st0 (scan_transfers target_id stop_id transfers (st, improved)) := by
  intro transfers
  induction transfers with
  | nil =>
    intro st improved h _
    exact h
  | cons transfer rest ih =>
    intro st improved h hd
    have hrest : ∀ transfer ∈ rest, transfer.dest < st0.earliest_arrival_time.length :=
      fun x hx => hd x (List.mem_cons_of_mem _ hx)
    have hdest : transfer.dest < st.earliest_arrival_time.length := by
      have := h.2.2
      dsimp only at this
      rw [this]
      exact hd transfer (List.mem_cons_self _ _)
    rw [scan_transfers_cons]
    have hlow : eatAt st stop_id + transfer.time < eatAt st transfer.dest →
        Tracked st0 (lowerAt st transfer.dest (eatAt st stop_id + transfer.time),
          improved.insert transfer.dest) := by
      intro hlt
      refine ⟨fun s => ?_, fun s => ?_, ?_⟩
      · exact le_trans (eatAt_lowerAt_le st _ s _ (le_of_lt hlt)) (h.1 s)
      · dsimp only
        rw [eatAt_lowerAt st _ s _ hdest, List.mem_insert_iff]
        by_cases hs : s = transfer.dest
        · rw [if_pos hs]
          subst hs
          exact ⟨fun _ => lt_of_lt_of_le hlt (h.1 _), fun _ => Or.inl rfl⟩
        · rw [if_neg hs]
          constructor
          · rintro (h1 | h1)
            · exact absurd h1 hs
            · exact (h.2.1 s).mp h1
          · intro h1
            exact Or.inr ((h.2.1 s).mpr h1)
      · show (st.earliest_arrival_time.set _ _).length = _
        rw [List.length_set]
        exact h.2.2
    split
    · rename_i hlt
      split
      · exact hlow hlt
      · exact ih _ _ (hlow hlt) hrest
    · split
      · exact h
      · exact ih _ _ h hrest

/-- The transfers of a stop read by id lead to stops in range when those of
every stop of the timetable do. -/
theorem transfers_in_range (tt : Timetable) (n : Nat)
    (hdest : ∀ stop ∈ tt.stops, ∀ transfer ∈ stop.transfers, transfer.dest < n) (s : Nat) :
    ∀ transfer ∈ (tt.stops.getD s default).transfers, transfer.dest < n := by
  rcases getD_mem_or_default tt.stops s default with h | h
  · exact hdest _ h
  · rw [h]
    intro transfer ht
    cases ht

/-- The sweep over the stops records exactly the stops it lowers. -/
theorem tracked_scan_footpaths_stops (tt : Timetable) (st0 : State) (target_id : Nat)
    (hdest : ∀ stop ∈ tt.stops, ∀ transfer ∈ stop.transfers,
      transfer.dest < st0.earliest_arrival_time.length) :
    ∀ (stops : List Stop) (acc : State × List Nat),
      Tracked st0 acc → Tracked st0 (scan_footpaths_stops tt target_id stops acc) := by
  intro stops
  induction stops with
  | nil =>
    intro acc h
    exact h
  | cons stop rest ih =>
    intro acc h
    unfold scan_footpaths_stops
    dsimp only
    split
    · apply ih
      obtain ⟨st, improved⟩ := acc
      exact tracked_scan_transfers st0 target_id stop.id _ st improved h
        (transfers_in_range tt _ hdest stop.id)
    · exact ih acc h

/-- The sweep skips the stops that are not marked on entry: it is the sweep
over the stops marked on entry. -/
theorem scan_footpaths_stops_filter (tt : Timetable) (target_id : Nat) (marks : List Bool) :
    ∀ (stops : List Stop) (acc : State × List Nat),
      acc.1.stop_is_marked = marks →
      scan_footpaths_stops tt target_id stops acc =
        scan_footpaths_stops tt target_id
          (stops.filter fun stop => marks.getD stop.id false) acc := by
  intro stops
  induction stops with
  | nil =>
    intro acc _
    rfl
  | cons stop rest ih =>
    intro acc hm
    by_cases hs : marks.getD stop.id false = true
    · rw [show List.filter (fun stop : Stop => marks.getD stop.id false) (stop :: rest) =
        stop :: List.filter (fun stop : Stop => marks.getD stop.id false) rest from
          List.filter_cons_of_pos hs]
      unfold scan_footpaths_stops
      dsimp only
      rw [hm, if_pos hs, if_pos hs]
      apply ih
      rw [(scan_transfers_frame target_id stop.id _ acc).2.1]
      exact hm
    · rw [show List.filter (fun stop : Stop => marks.getD stop.id false) (stop :: rest) =
        List.filter (fun stop : Stop => marks.getD stop.id false) rest from
          List.filter_cons_of_neg hs]
      rw [show scan_footpaths_stops tt target_id (stop :: rest) acc =
        scan_footpaths_stops tt target_id rest acc from by
          rw [scan_footpaths_stops, hm, if_neg hs]]
      exact ih acc hm

/-- A recorded stop inside the vector is marked by the final loop. -/
theorem markAt_mark_improved_mem :
    ∀ (improved : List Nat) (st : State) (q : Nat),
      q ∈ improved → q < st.stop_is_marked.length → markAt (mark_improved improved st) q := by
  intro improved
  induction improved with
  | nil =>
    intro st q h _
    cases h
  | cons x rest ih =>
    intro st q h hq
    unfold mark_improved
    rcases List.mem_cons.mp h with h1 | h1
    · subst h1
      apply (markAt_mark_improved rest _ q).2
      unfold markAt
      exact getD_set_self _ _ _ _ hq
    · apply ih _ q h1
      show q < (st.stop_is_marked.set x true).length
      rw [List.length_set]
      exact hq

/-- After `scan_footpaths` in direct-transfer mode a stop is marked exactly
when it was marked on entry or its arrival time was strictly lowered. -/
theorem scan_footpaths_marks (tt : Timetable) (target_id : Nat) (st : State)
    (hlen : st.stop_is_marked.length = st.earliest_arrival_time.length)
    (hdest : ∀ stop ∈ tt.stops, ∀ transfer ∈ stop.transfers,
      transfer.dest < st.earliest_arrival_time.length) (s : Nat) :
    markAt (scan_footpaths tt false target_id st) s ↔
      markAt st s ∨ eatAt (scan_footpaths tt false target_id st) s < eatAt st s := by
  have hsf : scan_footpaths tt false target_id st =
      mark_improved (scan_footpaths_stops tt target_id tt.stops (st, [])).2
        (scan_footpaths_stops tt target_id tt.stops (st, [])).1 := by
    unfold scan_footpaths
    simp only [Bool.not_false, if_true]
  have htr : Tracked st (scan_footpaths_stops tt target_id tt.stops (st, [])) := by
    apply tracked_scan_footpaths_stops tt st target_id hdest
    refine ⟨fun s => le_refl _, fun s => ?_, rfl⟩
    constructor
    · intro h
      cases h
    · intro h
      exact absurd h (lt_irrefl _)
  have hmarks := (scan_footpaths_stops_frame tt target_id tt.stops (st, [])).2.1
  dsimp only at hmarks
  have hm : ∀ q, markAt (scan_footpaths_stops tt target_id tt.stops (st, [])).1 q ↔
      markAt st q := by
    intro q
    unfold markAt
    rw [hmarks]
  rw [hsf, eatAt_mark_improved]
  constructor
  · intro h
    rcases (markAt_mark_improved _ _ s).1 h with h1 | h1
    · exact Or.inl ((hm s).mp h1)
    · exact Or.inr ((htr.2.1 s).mp h1)
  · rintro (h | h)
    · exact (markAt_mark_improved _ _ s).2 ((hm s).mpr h)
    · apply markAt_mark_improved_mem _ _ s ((htr.2.1 s).mpr h)
      rw [hmarks, hlen, ← htr.2.2]
      by_contra hcon
      unfold eatAt at h
      rw [getD_of_length_le _ s Time.inf (by omega)] at h
      exact Time.not_inf_lt _ h

/-! ## Trip monotonicity along a route scan -/

/-- The events of a stop index inside the table are a row of the table. -/
theorem events_mem (route : Route) (i : Nat) (hi : i < route.stop_times_by_stops.length) :
    route.stop_times_by_stops.getD i [] ∈ route.stop_times_by_stops := by
  rw [getD_eq_getElem _ i [] hi]
  exact List.getElem_mem hi

/-- With consistent tables `earliest_trip` returns nothing or a trip of the
route, the one at the first position whose departure is at least `t`. -/
theorem earliest_trip_tables (tt : Timetable) (route_id i : Nat) (t : Time)
    (h : RouteTables tt (tt.routes.getD route_id default))
    (hi : i < (tt.routes.getD route_id default).stop_times_by_stops.length) :
    (earliest_trip tt route_id i t = NULL_TRIP ∧
      ∀ k, k < (tt.routes.getD route_id default).trips.length →
        (((tt.routes.getD route_id default).stop_times_by_stops.getD i []).getD k
          default).dep < t) ∨
    ∃ k, k < (tt.routes.getD route_id default).trips.length ∧
      earliest_trip tt route_id i t =
        some ((tt.routes.getD route_id default).trips.getD k 0) ∧
      ∀ j, j < k →
        (((tt.routes.getD route_id default).stop_times_by_stops.getD i []).getD j
          default).dep < t := by
  have he := events_mem _ i hi
  have hlen := h.events_length _ he
  obtain ⟨hle, hlo, -⟩ := lower_bound_spec _ t (h.fifo _ he)
  by_cases hnull : lower_bound
      ((tt.routes.getD route_id default).stop_times_by_stops.getD i []) t =
      ((tt.routes.getD route_id default).stop_times_by_stops.getD i []).length
  · left
    constructor
    · unfold earliest_trip
      dsimp only
      rw [if_pos hnull]
    · intro k hk
      exact hlo k (by omega)
  · right
    refine ⟨_, by omega, ?_, hlo⟩
    unfold earliest_trip
    dsimp only
    rw [if_neg hnull]

/-- One turn of the route scan with a current trip of the route: the trip
after the turn is a trip of the route at the same or an earlier position. -/
theorem scan_stop_trip (tt : Timetable) (route_id target_id i p_i k : Nat) (st : State)
    (h : RouteTables tt (tt.routes.getD route_id default))
    (hi : i < (tt.routes.getD route_id default).stop_times_by_stops.length)
    (hk : k < (tt.routes.getD route_id default).trips.length) :
    ∃ k1, k1 ≤ k ∧
      (scan_stop tt route_id target_id (tt.routes.getD route_id default) i p_i
        (some ((tt.routes.getD route_id default).trips.getD k 0)) st).1 =
        some ((tt.routes.getD route_id default).trips.getD k1 0) := by
  obtain ⟨dep, st1, hstep⟩ : ∃ dep st1,
      scan_stop tt route_id target_id (tt.routes.getD route_id default) i p_i
        (some ((tt.routes.getD route_id default).trips.getD k 0)) st =
      (if st1.prev_earliest_arrival_time.getD p_i Time.inf ≤ dep then
        (earliest_trip tt route_id i (st1.prev_earliest_arrival_time.getD p_i Time.inf), st1)
      else (some ((tt.routes.getD route_id default).trips.getD k 0), st1)) ∧
      dep = (((tt.routes.getD route_id default).stop_times_by_stops.getD i []).getD k
        default).dep := by
    unfold scan_stop
    dsimp only
    rw [h.trip_pos k hk, ← h.transposed i hi k hk]
    split
    · exact ⟨_, _, rfl, rfl⟩
    · exact ⟨_, _, rfl, rfl⟩
  obtain ⟨heq, hdep⟩ := hstep
  rw [heq]
  split
  · rename_i hle
    rcases earliest_trip_tables tt route_id i
      (st1.prev_earliest_arrival_time.getD p_i Time.inf) h hi with ⟨-, hall⟩ | ⟨k1, hk1, he, hlo⟩
    · exact absurd (hdep ▸ hall k hk) (not_lt.mpr hle)
    · refine ⟨k1, ?_, he⟩
      by_contra hcon
      have := hlo k (by omega)
      rw [← hdep] at this
      exact absurd this (not_lt.mpr hle)
  · exact ⟨k, le_refl _, rfl⟩

/-- One turn of the route scan without a current trip: the trip after the
turn is `NULL_TRIP` or a trip of the route. -/
theorem scan_stop_first (tt : Timetable) (route_id target_id i p_i : Nat) (st : State)
    (h : RouteTables tt (tt.routes.getD route_id default))
    (hi : i < (tt.routes.getD route_id default).stop_times_by_stops.length) :
    (scan_stop tt route_id target_id (tt.routes.getD route_id default) i p_i NULL_TRIP
      st).1 = NULL_TRIP ∨
    ∃ k, k < (tt.routes.getD route_id default).trips.length ∧
      (scan_stop tt route_id target_id (tt.routes.getD route_id default) i p_i NULL_TRIP
        st).1 = some ((tt.routes.getD route_id default).trips.getD k 0) := by
  unfold scan_stop
  dsimp only
  split
  · rcases earliest_trip_tables tt route_id i
      (st.prev_earliest_arrival_time.getD p_i Time.inf) h hi with ⟨he, -⟩ | ⟨k, hk, he, -⟩
    · exact Or.inl he
    · exact Or.inr ⟨k, hk, he⟩
  · exact Or.inl rfl

/-- The state after a route scan is the last state of its trace. -/
theorem scan_route_trace_last (tt : Timetable) (route_id target_id : Nat) (route : Route) :
    ∀ (stops : List Nat) (i : Nat) (t : trip_id_t) (st : State),
      scan_route tt route_id target_id route stops i t st =
        ((scan_route_trace tt route_id target_id route stops i t st).map Prod.snd).getLastD
          st := by
  intro stops
  induction stops with
  | nil =>
    intro i t st
    rfl
  | cons p_i rest ih =>
    intro i t st
    unfold scan_route scan_route_trace
    dsimp only
    rw [ih, List.map_cons, List.getLastD_cons]

/-- Along the trace of a route scan over stop indices inside the table,
every turn leaves a current trip of the route at the same or an earlier
position, once there is a current trip. -/
theorem scan_route_trace_chain (tt : Timetable) (route_id target_id : Nat)
    (h : RouteTables tt (tt.routes.getD route_id default)) :
    ∀ (stops : List Nat) (i : Nat) (t : trip_id_t) (st : State),
      i + stops.length ≤ (tt.routes.getD route_id default).stop_times_by_stops.length →
      (t = NULL_TRIP ∨ ∃ k, k < (tt.routes.getD route_id default).trips.length ∧
        t = some ((tt.routes.getD route_id default).trips.getD k 0)) →
      List.Chain (NotLater tt (tt.routes.getD route_id default)) t
        ((scan_route_trace tt route_id target_id (tt.routes.getD route_id default) stops i t
          st).map Prod.fst) := by
  intro stops
  induction stops with
  | nil =>
    intro i t st _ _
    exact List.Chain.nil
  | cons p_i rest ih =>
    intro i t st hlen ht
    rw [List.length_cons] at hlen
    have hi : i < (tt.routes.getD route_id default).stop_times_by_stops.length := by omega
    unfold scan_route_trace
    dsimp only
    rw [List.map_cons]
    rcases ht with ht | ⟨k, hk, ht⟩
    · subst ht
      refine List.Chain.cons ?_ (ih _ _ _ (by omega)
        (scan_stop_first tt route_id target_id i p_i st h hi))
      intro ta hta
      cases hta
    · subst ht
      obtain ⟨k1, hk1, he⟩ := scan_stop_trip tt route_id target_id i p_i k st h hi hk
      refine List.Chain.cons ?_ (ih _ _ _ (by omega) (Or.inr ⟨k1, by omega, he⟩))
      intro ta hta
      injection hta with hta
      refine ⟨k, k1, hk1, hk, hta.symm, he, ?_⟩
      rw [← hta, h.trip_pos k hk, h.trip_pos k1 (by omega)]
      exact hk1

/-! ## Stage 2 as a sequence of candidates, and what its order cannot change -/

theorem offer_prev (target_id : Nat) (st : State) (c : Nat × Time) :
    (offer target_id st c).prev_earliest_arrival_time = st.prev_earliest_arrival_time := by
  unfold offer
  split <;> rfl

theorem offer_length (target_id : Nat) (st : State) (c : Nat × Time) :
    (offer target_id st c).earliest_arrival_time.length = st.earliest_arrival_time.length := by
  unfold offer
  split
  · exact List.length_set _ _ _
  · rfl

/-- The candidates leave the snapshot alone. -/
theorem foldl_offer_prev (target_id : Nat) :
    ∀ (cs : List (Nat × Time)) (st : State),
      (cs.foldl (offer target_id) st).prev_earliest_arrival_time =
        st.prev_earliest_arrival_time := by
  intro cs
  induction cs with
  | nil =>
    intro st
    rfl
  | cons c rest ih =>
    intro st
    rw [List.foldl_cons, ih, offer_prev]

/-- One turn of the route scan is the trip-upgrade check and, when there is a
current trip, the pruning test of its candidate. -/
theorem scan_stop_offer (tt : Timetable) (route_id target_id : Nat) (route : Route)
    (i p_i : Nat) (t : trip_id_t) (st : State) :
    scan_stop tt route_id target_id route i p_i t st =
      (next_trip tt route_id route st.prev_earliest_arrival_time i p_i t,
        match t with
        | none => st
        | some trip => offer target_id st
            (p_i, ((route.stop_times_by_trips.getD (tt.trip_positions trip).2 []).getD i
              default).arr)) := by
  cases t with
  | none =>
    unfold scan_stop next_trip
    dsimp only
    split <;> rfl
  | some trip =>
    unfold scan_stop next_trip offer improve
    dsimp only
    split <;> split <;> rfl

/-- The scan of a route is the fold of the pruning test over its candidates. -/
theorem scan_route_offers (tt : Timetable) (route_id target_id : Nat) (route : Route) :
    ∀ (stops : List Nat) (i : Nat) (t : trip_id_t) (st : State),
      scan_route tt route_id target_id route stops i t st =
        (scan_offers tt route_id route st.prev_earliest_arrival_time stops i t).foldl
          (offer target_id) st := by
  intro stops
  induction stops with
  | nil =>
    intro i t st
    rfl
  | cons p_i rest ih =>
    intro i t st
    unfold scan_route
    dsimp only
    rw [scan_stop_offer, ih]
    cases t with
    | none => rfl
    | some trip =>
      dsimp only
      rw [offer_prev]
      rfl

/-- The scan of a queued pair is the fold of the pruning test over its
candidates. -/
theorem traverse_route_offers (tt : Timetable) (target_id : Nat) (route_stop : Nat × Nat)
    (st : State) :
    traverse_route tt target_id route_stop st =
      (route_offers tt st.prev_earliest_arrival_time route_stop).foldl (offer target_id) st := by
  unfold traverse_route route_offers
  exact scan_route_offers tt _ target_id _ _ _ _ st

/-- Stage 2 is the fold of the pruning test over the candidates of the queued
pairs, in the order of the queue. -/
theorem traverse_routes_offers (tt : Timetable) (target_id : Nat) :
    ∀ (queue : route_stop_queue_t) (st : State),
      traverse_routes tt target_id queue st =
        (queue.flatMap (route_offers tt st.prev_earliest_arrival_time)).foldl
          (offer target_id) st := by
  intro queue
  induction queue with
  | nil =>
    intro st
    rfl
  | cons route_stop rest ih =>
    intro st
    unfold traverse_routes
    rw [ih, traverse_route_offers, foldl_offer_prev, List.flatMap_cons, List.foldl_append]

theorem clip_pass_own (e et v : Time) (h : v < min e et) : min v et = min (min e et) v := by
  have h1 : v ≤ et := le_of_lt (lt_of_lt_of_le h (min_le_right _ _))
  rw [min_eq_left h1, min_eq_right (le_of_lt h)]

theorem clip_pass_target (e et v : Time) (h : v < et) : min e v = min (min e et) v := by
  rw [min_assoc, min_eq_right (le_of_lt h)]

theorem below_pass_target (m : Prop) (e et v : Time) (h : v < et) :
    (e < v ∧ m) ↔ ((e < et ∧ m) ∧ min e et < v) := by
  constructor
  · rintro ⟨h1, h2⟩
    exact ⟨⟨lt_trans h1 h, h2⟩, lt_of_le_of_lt (min_le_left _ _) h1⟩
  · rintro ⟨⟨h1, h2⟩, h3⟩
    rw [min_eq_left (le_of_lt h1)] at h3
    exact ⟨h3, h2⟩

theorem below_pass_own (m : Prop) (e et v : Time) (h : v < min e et) :
    (v < et ∧ True) ↔ ((e < et ∧ m) ∨ v < min e et) := by
  constructor
  · intro _
    exact Or.inr h
  · intro _
    exact ⟨lt_of_lt_of_le h (min_le_right _ _), trivial⟩

theorem below_fail_target (m : Prop) (e et v : Time) (h : ¬ v < et) :
    (e < et ∧ m) ↔ ((e < et ∧ m) ∧ min e et < v) := by
  constructor
  · rintro ⟨h1, h2⟩
    exact ⟨⟨h1, h2⟩, lt_of_le_of_lt (min_le_left _ _) (lt_of_lt_of_le h1 (not_lt.mp h))⟩
  · rintro ⟨h1, -⟩
    exact h1

theorem offer_marks_length (target_id : Nat) (st : State) (c : Nat × Time) :
    (offer target_id st c).stop_is_marked.length = st.stop_is_marked.length := by
  unfold offer
  split
  · exact List.length_set _ _ _
  · rfl

/-- The pruning test of a candidate reads the clipped arrival time at its
stop. -/
theorem offer_eq (target_id : Nat) (st : State) (c : Nat × Time) :
    offer target_id st c =
      if c.2 < clipAt target_id st c.1 then improve st c.1 c.2 else st := rfl

/-- What a candidate does to the clipped arrival times: at its own stop, or
everywhere when its stop is the target, the clipped arrival time becomes the
minimum with the candidate; elsewhere it stays. -/
theorem clipAt_offer (target_id : Nat) (st : State) (c : Nat × Time) (r : Nat)
    (ht : target_id < st.earliest_arrival_time.length)
    (hc : c.1 < st.earliest_arrival_time.length) :
    clipAt target_id (offer target_id st c) r =
      if r = c.1 ∨ c.1 = target_id then min (clipAt target_id st r) c.2
      else clipAt target_id st r := by
  obtain ⟨p, v⟩ := c
  dsimp only at hc ⊢
  rw [offer_eq]
  dsimp only
  by_cases hpass : v < clipAt target_id st p
  · rw [if_pos hpass]
    unfold clipAt at hpass ⊢
    rw [eatAt_improve st p r v hc, eatAt_improve st p target_id v hc]
    by_cases hr : r = p <;> by_cases hpt : p = target_id
    · rw [hr]
      rw [hpt] at hpass ⊢
      simp only [if_true, or_self, min_self] at hpass ⊢
      exact (min_eq_right (le_of_lt hpass)).symm
    · have hpt' : ¬ target_id = p := fun h => hpt h.symm
      rw [hr]
      simp only [if_true, if_neg hpt', true_or]
      exact clip_pass_own _ _ _ hpass
    · rw [hpt] at hpass hr ⊢
      simp only [if_neg hr, if_true, or_true, min_self] at hpass ⊢
      exact clip_pass_target _ _ _ hpass
    · have hpt' : ¬ target_id = p := fun h => hpt h.symm
      simp only [if_neg hr, if_neg hpt', hr, hpt, or_self, if_false]
  · rw [if_neg hpass]
    split
    · rename_i hcond
      apply (min_eq_left _).symm
      rcases hcond with hr | hpt
      · rw [hr]
        exact not_lt.mp hpass
      · rw [hpt] at hpass
        unfold clipAt at hpass ⊢
        rw [min_self] at hpass
        exact le_trans (min_le_right _ _) (not_lt.mp hpass)
    · rfl

/-- What a candidate does to the flag `stops_improved`. -/
theorem improved_offer (target_id : Nat) (st : State) (c : Nat × Time) :
    (offer target_id st c).stops_improved = true ↔
      st.stops_improved = true ∨ c.2 < clipAt target_id st c.1 := by
  rw [offer_eq]
  split
  · rename_i h
    exact ⟨fun _ => Or.inr h, fun _ => rfl⟩
  · rename_i h
    exact ⟨fun h1 => Or.inl h1, fun h1 => h1.resolve_right h⟩

/-- What a candidate does to the marks below the target's arrival: a
candidate at the target keeps the marks of the stops that stay below it; a
candidate at another stop marks that stop when it passes. -/
theorem markedBelow_offer (target_id : Nat) (st : State) (c : Nat × Time) (r : Nat)
    (ht : target_id < st.earliest_arrival_time.length)
    (hc : c.1 < st.earliest_arrival_time.length)
    (hm : st.stop_is_marked.length = st.earliest_arrival_time.length) :
    markedBelow target_id (offer target_id st c) r ↔
      if c.1 = target_id then markedBelow target_id st r ∧ clipAt target_id st r < c.2
      else if r = c.1 then markedBelow target_id st r ∨ c.2 < clipAt target_id st r
      else markedBelow target_id st r := by
  obtain ⟨p, v⟩ := c
  dsimp only at hc ⊢
  rw [offer_eq]
  dsimp only
  have hcm : p < st.stop_is_marked.length := by omega
  by_cases hpass : v < clipAt target_id st p
  · rw [if_pos hpass]
    unfold markedBelow
    unfold clipAt at hpass ⊢
    rw [eatAt_improve st p r v hc, eatAt_improve st p target_id v hc,
      markAt_improve st p r v hcm]
    by_cases hpt : p = target_id
    · rw [hpt] at hpass ⊢
      rw [min_self] at hpass
      simp only [if_true]
      by_cases hr : r = target_id
      · rw [hr]
        simp only [if_true, lt_self_iff_false, false_and]
      · simp only [if_neg hr, hr, false_or]
        exact below_pass_target _ _ _ _ hpass
    · have hpt' : ¬ target_id = p := fun h => hpt h.symm
      rw [if_neg hpt, if_neg hpt']
      by_cases hr : r = p
      · rw [hr]
        simp only [if_true, true_or]
        exact below_pass_own _ _ _ _ hpass
      · simp only [hr, if_false, false_or]
  · rw [if_neg hpass]
    by_cases hpt : p = target_id
    · rw [if_pos hpt]
      rw [hpt] at hpass
      unfold markedBelow
      unfold clipAt at hpass ⊢
      rw [min_self] at hpass
      exact below_fail_target _ _ _ _ hpass
    · rw [if_neg hpt]
      split
      · rename_i hr
        rw [hr]
        exact ⟨fun h => Or.inl h, fun h => h.resolve_right hpass⟩
      · rfl

/-- What a candidate does to the mark of the target: a candidate at the target
marks it when it passes. -/
theorem markAt_offer_target (target_id : Nat) (st : State) (c : Nat × Time)
    (hc : c.1 < st.earliest_arrival_time.length)
    (hm : st.stop_is_marked.length = st.earliest_arrival_time.length) :
    markAt (offer target_id st c) target_id ↔
      markAt st target_id ∨ (c.1 = target_id ∧ c.2 < clipAt target_id st target_id) := by
  obtain ⟨p, v⟩ := c
  dsimp only at hc ⊢
  rw [offer_eq]
  dsimp only
  have hcm : p < st.stop_is_marked.length := by omega
  by_cases hpass : v < clipAt target_id st p
  · rw [if_pos hpass, markAt_improve st p target_id v hcm]
    constructor
    · rintro (h | h)
      · exact Or.inr ⟨h.symm, h ▸ hpass⟩
      · exact Or.inl h
    · rintro (h | ⟨h, -⟩)
      · exact Or.inr h
      · exact Or.inl h.symm
  · rw [if_neg hpass]
    constructor
    · intro h
      exact Or.inl h
    · rintro (h | ⟨h, h1⟩)
      · exact h
      · exact absurd (h ▸ h1) hpass

theorem time_swap1 (c v w : Time) :
    (v < c ∨ w < min c v) ↔ (w < c ∨ v < min c w) := by
  cases c <;> cases v <;> cases w <;> simp [lt_min_iff] <;> omega

theorem time_swap2 (T cq v w : Time) (h : cq ≤ T) :
    (v < T ∨ w < min cq v) ↔ (w < cq ∨ v < T) := by
  cases T <;> cases cq <;> cases v <;> cases w <;> simp [lt_min_iff] at h ⊢ <;> omega

theorem time_swap3 (cr v w : Time) :
    (cr < v ∧ min cr v < w) ↔ (cr < w ∧ min cr w < v) := by
  cases cr <;> cases v <;> cases w <;> simp [min_lt_iff] <;> omega

theorem time_swap4 (m : Prop) (cq v w : Time) :
    ((m ∧ cq < v) ∨ w < min cq v) ↔ ((m ∨ w < cq) ∧ min cq w < v) := by
  by_cases hm : m <;> cases cq <;> cases v <;> cases w <;>
    simp [lt_min_iff, min_lt_iff, hm] <;> omega

/-- The clipped arrival time at a stop is at most that at the target. -/
theorem clipAt_le_target (target_id : Nat) (st : State) (r : Nat) :
    clipAt target_id st r ≤ clipAt target_id st target_id := by
  unfold clipAt
  rw [min_self]
  exact min_le_right _ _

theorem Stage2Agree.start {target_id : Nat} {a : State}
    (h : target_id < a.earliest_arrival_time.length)
    (hm : a.stop_is_marked.length = a.earliest_arrival_time.length) :
    Stage2Agree target_id a a :=
  ⟨h, hm, rfl, hm, fun _ => rfl, fun _ => Iff.rfl, rfl, rfl, Iff.rfl⟩

theorem Stage2Agree.chain {target_id : Nat} {a b c : State}
    (h1 : Stage2Agree target_id a b) (h2 : Stage2Agree target_id b c) :
    Stage2Agree target_id a c :=
  ⟨h1.target, h1.marks_left, h1.len.trans h2.len, h2.marks_right,
    fun r => (h1.clip r).trans (h2.clip r), fun r => (h1.below r).trans (h2.below r),
    h1.improved.trans h2.improved, h1.prev.trans h2.prev,
    h1.target_mark.trans h2.target_mark⟩

/-- The same candidate put to two agreeing states leaves agreeing states. -/
theorem Stage2Agree.offer_both {target_id : Nat} {a b : State}
    (h : Stage2Agree target_id a b) (c : Nat × Time)
    (hc : c.1 < a.earliest_arrival_time.length) :
    Stage2Agree target_id (offer target_id a c) (offer target_id b c) := by
  have htb : target_id < b.earliest_arrival_time.length := h.len ▸ h.target
  have hcb : c.1 < b.earliest_arrival_time.length := h.len ▸ hc
  refine ⟨by rw [offer_length]; exact h.target,
    by rw [offer_marks_length, offer_length]; exact h.marks_left,
    by rw [offer_length, offer_length]; exact h.len,
    by rw [offer_marks_length, offer_length]; exact h.marks_right, fun r => ?_, fun r => ?_, ?_,
    by rw [offer_prev, offer_prev]; exact h.prev, ?_⟩
  · rw [clipAt_offer target_id a c r h.target hc, clipAt_offer target_id b c r htb hcb, h.clip]
  · rw [markedBelow_offer target_id a c r h.target hc h.marks_left,
      markedBelow_offer target_id b c r htb hcb h.marks_right, h.below, h.clip]
  · rw [Bool.eq_iff_iff, improved_offer, improved_offer, h.improved, h.clip]
  · rw [markAt_offer_target target_id a c hc h.marks_left,
      markAt_offer_target target_id b c hcb h.marks_right, h.target_mark, h.clip]

/-- Two candidates put to a state in either order leave agreeing states. -/
theorem Stage2Agree.offer_swap {target_id : Nat} {a : State}
    (ht : target_id < a.earliest_arrival_time.length)
    (hm : a.stop_is_marked.length = a.earliest_arrival_time.length) (x y : Nat × Time)
    (hx : x.1 < a.earliest_arrival_time.length) (hy : y.1 < a.earliest_arrival_time.length) :
    Stage2Agree target_id (offer target_id (offer target_id a x) y)
      (offer target_id (offer target_id a y) x) := by
  have e1 : ∀ c : Nat × Time,
      (offer target_id a c).earliest_arrival_time.length = a.earliest_arrival_time.length :=
    fun c => offer_length target_id a c
  have m1 : ∀ c : Nat × Time, (offer target_id a c).stop_is_marked.length =
      (offer target_id a c).earliest_arrival_time.length := by
    intro c
    rw [offer_marks_length, offer_length]
    exact hm
  have hclip : ∀ (c d : Nat × Time) (r : Nat), c.1 < a.earliest_arrival_time.length →
      d.1 < a.earliest_arrival_time.length →
      clipAt target_id (offer target_id (offer target_id a c) d) r =
        if r = d.1 ∨ d.1 = target_id then
          min (if r = c.1 ∨ c.1 = target_id then min (clipAt target_id a r) c.2
            else clipAt target_id a r) d.2
        else if r = c.1 ∨ c.1 = target_id then min (clipAt target_id a r) c.2
          else clipAt target_id a r := by
    intro c d r hc hd
    rw [clipAt_offer target_id _ d r (by rw [e1]; exact ht) (by rw [e1]; exact hd),
      clipAt_offer target_id a c r ht hc]
  refine ⟨by rw [offer_length, e1]; exact ht, by rw [offer_marks_length, offer_length]; exact m1 x,
    by simp only [offer_length],
    by rw [offer_marks_length, offer_length]; exact m1 y, fun r => ?_, fun r => ?_, ?_,
    by rw [offer_prev, offer_prev, offer_prev, offer_prev], ?_⟩
  · rw [hclip x y r hx hy, hclip y x r hy hx]
    by_cases h1 : r = x.1 ∨ x.1 = target_id <;> by_cases h2 : r = y.1 ∨ y.1 = target_id
    · simp only [if_pos h1, if_pos h2]
      exact min_right_comm _ _ _
    · simp only [if_pos h1, if_neg h2]
    · simp only [if_neg h1, if_pos h2]
    · simp only [if_neg h1, if_neg h2]
  · rw [markedBelow_offer target_id _ y r (by rw [e1]; exact ht) (by rw [e1]; exact hy) (m1 x),
      markedBelow_offer target_id a x r ht hx hm,
      markedBelow_offer target_id _ x r (by rw [e1]; exact ht) (by rw [e1]; exact hx) (m1 y),
      markedBelow_offer target_id a y r ht hy hm,
      clipAt_offer target_id a x r ht hx, clipAt_offer target_id a y r ht hy]
    by_cases hxt : x.1 = target_id <;> by_cases hyt : y.1 = target_id
    · simp only [hxt, hyt, if_true, or_true, and_assoc]
      exact and_congr_right (fun _ => time_swap3 _ _ _)
    · simp only [hxt, hyt, if_true, if_false, or_true, or_false]
      by_cases hry : r = y.1
      · simp only [if_pos hry]
        exact time_swap4 _ _ _ _
      · simp only [if_neg hry]
    · simp only [hxt, hyt, if_true, if_false, or_true, or_false]
      by_cases hrx : r = x.1
      · simp only [if_pos hrx]
        exact (time_swap4 _ _ _ _).symm
      · simp only [if_neg hrx]
    · simp only [hxt, hyt, if_false, or_false]
      by_cases hrx : r = x.1 <;> by_cases hry : r = y.1
      · simp only [if_pos hrx, if_pos hry, or_assoc]
        exact or_congr_right (time_swap1 _ _ _)
      · simp only [if_pos hrx, if_neg hry]
      · simp only [if_neg hrx, if_pos hry]
      · simp only [if_neg hrx, if_neg hry]
  · rw [Bool.eq_iff_iff, improved_offer, improved_offer, improved_offer, improved_offer,
      clipAt_offer target_id a x y.1 ht hx, clipAt_offer target_id a y x.1 ht hy,
      or_assoc, or_assoc]
    refine or_congr_right ?_
    by_cases hxy : x.1 = y.1
    · simp only [hxy, true_or, if_true]
      exact time_swap1 _ _ _
    · have hyx : ¬ y.1 = x.1 := fun h => hxy h.symm
      by_cases hxt : x.1 = target_id
      · have hyt : ¬ y.1 = target_id := fun h => hxy (hxt.trans h.symm)
        have hty : ¬ target_id = y.1 := fun h => hyt h.symm
        simp only [hyx, hxt, hyt, hty, false_or, or_false, or_true, if_true, if_false]
        exact time_swap2 _ _ _ _ (clipAt_le_target target_id a y.1)
      · by_cases hyt : y.1 = target_id
        · have htx : ¬ target_id = x.1 := fun h => hxt h.symm
          simp only [hxy, hxt, hyt, htx, false_or, or_false, or_true, if_true, if_false]
          exact (time_swap2 _ _ _ _ (clipAt_le_target target_id a x.1)).symm
        · simp only [hyx, hxy, hxt, hyt, false_or, or_false, if_false]
          exact or_comm
  · rw [markAt_offer_target target_id _ y (by rw [e1]; exact hy) (m1 x),
      markAt_offer_target target_id a x hx hm,
      markAt_offer_target target_id _ x (by rw [e1]; exact hx) (m1 y),
      markAt_offer_target target_id a y hy hm,
      clipAt_offer target_id a x target_id ht hx, clipAt_offer target_id a y target_id ht hy,
      or_assoc, or_assoc]
    refine or_congr_right ?_
    by_cases hxt : x.1 = target_id <;> by_cases hyt : y.1 = target_id
    · simp only [hxt, hyt, true_and, or_true, if_true]
      exact time_swap1 _ _ _
    · have hty : ¬ target_id = y.1 := fun h => hyt h.symm
      simp only [hxt, hyt, hty, true_and, false_and, or_false, false_or, if_false]
    · have htx : ¬ target_id = x.1 := fun h => hxt h.symm
      simp only [hxt, hyt, htx, true_and, false_and, or_false, false_or, if_false]
    · simp only [hxt, hyt, false_and, or_self]

theorem foldl_offer_length (target_id : Nat) (cs : List (Nat × Time)) (st : State) :
    (cs.foldl (offer target_id) st).earliest_arrival_time.length =
      st.earliest_arrival_time.length := by
  induction cs generalizing st with
  | nil => rfl
  | cons c cs ih => rw [List.foldl_cons, ih, offer_length]

/-- The same candidates put in the same order to two agreeing states leave agreeing
states. -/
theorem Stage2Agree.foldl_both {target_id : Nat} (cs : List (Nat × Time)) {a b : State}
    (h : Stage2Agree target_id a b)
    (hcs : ∀ c ∈ cs, c.1 < a.earliest_arrival_time.length) :
    Stage2Agree target_id (cs.foldl (offer target_id) a) (cs.foldl (offer target_id) b) := by
  induction cs generalizing a b with
  | nil => exact h
  | cons c cs ih =>
    rw [List.foldl_cons, List.foldl_cons]
    refine ih (h.offer_both c (hcs c (List.mem_cons_self _ _))) (fun d hd => ?_)
    rw [offer_length]
    exact hcs d (List.mem_cons_of_mem _ hd)

/-- The candidates of stage 2 put in any order leave agreeing states. -/
theorem Stage2Agree.foldl_perm {target_id : Nat} {cs ds : List (Nat × Time)}
    (hp : cs.Perm ds) {a b : State} (h : Stage2Agree target_id a b)
    (hcs : ∀ c ∈ cs, c.1 < a.earliest_arrival_time.length) :
    Stage2Agree target_id (cs.foldl (offer target_id) a) (ds.foldl (offer target_id) b) := by
  induction hp generalizing a b with
  | nil => exact h
  | cons x _ ih =>
    rw [List.foldl_cons, List.foldl_cons]
    refine ih (h.offer_both x (hcs x (List.mem_cons_self _ _))) (fun d hd => ?_)
    rw [offer_length]
    exact hcs d (List.mem_cons_of_mem _ hd)
  | swap x y l =>
    rw [List.foldl_cons, List.foldl_cons, List.foldl_cons, List.foldl_cons]
    have hy : y.1 < a.earliest_arrival_time.length := hcs y (List.mem_cons_self _ _)
    have hx : x.1 < a.earliest_arrival_time.length :=
      hcs x (List.mem_cons_of_mem _ (List.mem_cons_self _ _))
    refine Stage2Agree.foldl_both l
      ((Stage2Agree.offer_swap h.target h.marks_left y x hy hx).chain
        ((h.offer_both x hx).offer_both y (by rw [offer_length]; exact hy))) (fun d hd => ?_)
    rw [offer_length, offer_length]
    exact hcs d (List.mem_cons_of_mem _ (List.mem_cons_of_mem _ hd))
  | trans hp1 hp2 ih1 ih2 =>
    refine (ih1 h hcs).chain
      (ih2 (Stage2Agree.start (h.len ▸ h.target) h.marks_right) (fun c hc => ?_))
    rw [← h.len]
    exact hcs c (hp1.mem_iff.mpr hc)

theorem scan_offers_mem (tt : Timetable) (route_id : Nat) (route : Route) (prev : List Time) :
    ∀ (stops : List Nat) (i : Nat) (t : trip_id_t),
      ∀ c ∈ scan_offers tt route_id route prev stops i t, c.1 ∈ stops := by
  intro stops
  induction stops with
  | nil =>
    intro i t c hc
    cases hc
  | cons p_i rest ih =>
    intro i t c hc
    cases t with
    | none =>
      exact List.mem_cons_of_mem _ (ih _ _ c hc)
    | some trip =>
      rcases List.mem_cons.mp hc with h | h
      · rw [h]
        exact List.mem_cons_self _ _
      · exact List.mem_cons_of_mem _ (ih _ _ c h)

/-- Every candidate of stage 2 is at a stop of a route, so it is inside the
arrival vectors when the stops of the routes are. -/
theorem route_offers_range (tt : Timetable) (st : State) (hr : RouteStopsInRange tt st)
    (prev : List Time) (queue : route_stop_queue_t) :
    ∀ c ∈ queue.flatMap (route_offers tt prev), c.1 < st.earliest_arrival_time.length := by
  intro c hc
  obtain ⟨route_stop, -, hmem⟩ := List.mem_flatMap.mp hc
  have h := List.mem_of_mem_drop (scan_offers_mem tt _ _ prev _ _ _ c hmem)
  rcases getD_mem_or_default tt.routes route_stop.1 default with hin | hd
  · exact hr _ hin _ h
  · rw [hd] at h
    cases h

/-- Stage 2 run over a queue in two orders leaves agreeing states. -/
theorem traverse_routes_perm (tt : Timetable) (target_id : Nat) (st : State)
    (queue1 queue2 : route_stop_queue_t) (hp : queue1.Perm queue2)
    (ht : target_id < st.earliest_arrival_time.length)
    (hm : st.stop_is_marked.length = st.earliest_arrival_time.length)
    (hr : RouteStopsInRange tt st) :
    Stage2Agree target_id (traverse_routes tt target_id queue1 st)
      (traverse_routes tt target_id queue2 st) := by
  rw [traverse_routes_offers, traverse_routes_offers]
  exact Stage2Agree.foldl_perm
    (hp.flatMap_right (route_offers tt st.prev_earliest_arrival_time)) (Stage2Agree.start ht hm)
    (route_offers_range tt st hr _ queue1)

/-! ## The states of the round loop -/

/-- The list of states of the round loop starts with the state at the top. -/
theorem round_loop_states_head (tt : Timetable)
    (order : route_stop_queue_t → route_stop_queue_t) (use_hl profile : Bool)
    (source_id target_id : Nat) (fuel round0 : Nat) (st : State) :
    ∃ rest, round_loop_states tt order use_hl profile source_id target_id fuel round0 st =
      st :: rest := by
  cases fuel with
  | zero => exact ⟨[], rfl⟩
  | succ fuel =>
    unfold round_loop_states
    dsimp only
    split
    · exact ⟨_, rfl⟩
    · split
      · exact ⟨_, rfl⟩
      · exact ⟨_, rfl⟩

/-- A state put before the states of the round loop does not change the last
of them. -/
theorem getLast_cons_states (tt : Timetable)
    (order : route_stop_queue_t → route_stop_queue_t) (use_hl profile : Bool)
    (source_id target_id : Nat) (fuel round0 : Nat) (st x : State) :
    (x :: round_loop_states tt order use_hl profile source_id target_id fuel round0 st).getLast? =
      (round_loop_states tt order use_hl profile source_id target_id fuel round0 st).getLast? := by
  obtain ⟨rest, hrest⟩ := round_loop_states_head tt order use_hl profile source_id target_id fuel
    round0 st
  rw [hrest]
  simp

/-- A chain over the states of the round loop is extended at the front by a
state related to the state at the top. -/
theorem chain_cons_states {R : State → State → Prop} (tt : Timetable)
    (order : route_stop_queue_t → route_stop_queue_t) (use_hl profile : Bool)
    (source_id target_id : Nat) (fuel round0 : Nat) (st x : State) (hx : R x st)
    (h : List.Chain' R (round_loop_states tt order use_hl profile source_id target_id fuel round0 st)) :
    List.Chain' R
      (x :: round_loop_states tt order use_hl profile source_id target_id fuel round0 st) := by
  obtain ⟨rest, hrest⟩ := round_loop_states_head tt order use_hl profile source_id target_id fuel
    round0 st
  rw [hrest] at h ⊢
  exact List.Chain'.cons hx h

/-- The state the round loop returns is the last of its states. -/
theorem round_loop_states_last (tt : Timetable)
    (order : route_stop_queue_t → route_stop_queue_t) (use_hl profile : Bool)
    (source_id target_id : Nat) :
    ∀ (fuel round0 : Nat) (target_labels : List Time) (st : State) (labels : List Time)
      (st1 : State),
      round_loop tt order use_hl profile source_id target_id fuel round0 target_labels st =
        Outcome.returned labels st1 →
      (round_loop_states tt order use_hl profile source_id target_id fuel round0 st).getLast? =
        some st1 := by
  intro fuel
  induction fuel generalizing tt with
  | zero =>
    intro round0 target_labels st labels st1 h
    cases h
  | succ fuel ih =>
    intro round0 target_labels st labels st1 h
    unfold round_loop at h
    unfold round_loop_states
    dsimp only at h ⊢
    cases hq : make_queue tt (stage1 st tt.stops) with
    | none =>
      rw [hq] at h
      cases h
    | some qs =>
      obtain ⟨queue, st2⟩ := qs
      rw [hq] at h
      dsimp only at h ⊢
      split
      · rename_i himp
        rw [if_pos himp] at h
        injection h with h1 h2
        rw [← h2]
        rfl
      · rename_i himp
        rw [if_neg himp] at h
        rw [List.getLast?_cons_cons, List.getLast?_cons_cons, List.getLast?_cons_cons,
          List.getLast?_cons_cons, List.getLast?_cons_cons, getLast_cons_states]
        exact ih _ _ _ _ _ _ h

/-- A state that differs from a lowered one in marks and flag only is lowered
as well. -/
theorem Lowered.of_step {a b c : State} (h : Lowered a b)
    (he : c.earliest_arrival_time = b.earliest_arrival_time) : Lowered a c :=
  h.andThen (Lowered.of_eq he)

/-- Along the states of the round loop no entry of `earliest_arrival_time`
ever increases: each state is lowered from the one before. -/
theorem round_loop_states_lowered (tt : Timetable)
    (order : route_stop_queue_t → route_stop_queue_t) (use_hl profile : Bool)
    (source_id target_id : Nat) :
    ∀ (fuel round0 : Nat) (st : State),
      List.Chain' Lowered
        (round_loop_states tt order use_hl profile source_id target_id fuel round0 st) := by
  intro fuel
  induction fuel generalizing tt with
  | zero =>
    intro round0 st
    exact List.chain'_singleton _
  | succ fuel ih =>
    intro round0 st
    unfold round_loop_states
    simp only [scan_queue_eq]
    have h1 : Lowered st (stage1 st tt.stops) := Lowered.of_eq (stage1_frame tt.stops st).1
    cases hq : make_queue tt (stage1 st tt.stops) with
    | none =>
      dsimp only
      exact List.Chain'.cons h1 (List.chain'_singleton _)
    | some qs =>
      obtain ⟨queue, st2⟩ := qs
      dsimp only
      have h2 : Lowered (stage1 st tt.stops) st2 := by
        rw [make_queue_state tt _ queue st2 hq]
        exact Lowered.of_eq rfl
      have h3 : Lowered st2 (traverse_routes tt target_id (order queue)
          { st2 with stops_improved := false }) :=
        (Lowered.of_eq (show ({ st2 with stops_improved := false } :
          State).earliest_arrival_time = st2.earliest_arrival_time from rfl)).andThen
          (stage2_summary (traverse_routes_steps tt target_id (order queue) _)).1
      split
      · exact List.Chain'.cons h1 (List.Chain'.cons h2 (List.Chain'.cons h3
          (List.chain'_singleton _)))
      · refine List.Chain'.cons h1 (List.Chain'.cons h2 (List.Chain'.cons h3
          (List.Chain'.cons ?_ (List.Chain'.cons ?_ (chain_cons_states _ order use_hl profile
            source_id target_id fuel _ _ _ ?_ (ih _ _ _))))))
        · split
          · exact Lowered.of_eq rfl
          · exact Lowered.unchanged _
        · exact (scan_footpaths_frame _ use_hl target_id _).1
        · split
          · exact Lowered.of_eq rfl
          · exact Lowered.unchanged _

/-- Marking or unmarking a stop, under a condition, keeps the snapshot
invariant. -/
theorem snapshot_mark (st : State) (c b : Bool) (p : Nat) (h : SnapshotInv st) :
    SnapshotInv (if c = true then { st with stop_is_marked := st.stop_is_marked.set p b }
      else st) := by
  split
  · exact h.of_arrays rfl rfl
  · exact h

/-- Every state of the round loop satisfies the snapshot invariant when the
state at the top does. -/
theorem round_loop_states_snapshot (tt : Timetable)
    (order : route_stop_queue_t → route_stop_queue_t) (use_hl profile : Bool)
    (source_id target_id : Nat) :
    ∀ (fuel round0 : Nat) (st : State), SnapshotInv st →
      ∀ x ∈ round_loop_states tt order use_hl profile source_id target_id fuel round0 st,
        SnapshotInv x := by
  intro fuel
  induction fuel generalizing tt with
  | zero =>
    intro round0 st h x hx
    rw [show round_loop_states tt order use_hl profile source_id target_id 0 round0 st = [st] from rfl,
      List.mem_singleton] at hx
    rw [hx]
    exact h
  | succ fuel ih =>
    intro round0 st h x hx
    unfold round_loop_states at hx
    simp only [scan_queue_eq] at hx
    have h1 : SnapshotInv (stage1 st tt.stops) := snapshot_stage1 tt.stops st h
    cases hq : make_queue tt (stage1 st tt.stops) with
    | none =>
      rw [hq] at hx
      dsimp only at hx
      simp only [List.mem_cons, List.mem_singleton, List.not_mem_nil, or_false] at hx
      rcases hx with hx | hx
      · rw [hx]
        exact h
      · rw [hx]
        exact h1
    | some qs =>
      obtain ⟨queue, st2⟩ := qs
      rw [hq] at hx
      dsimp only at hx
      have h2 : SnapshotInv st2 := snapshot_make_queue tt _ queue st2 hq h1
      have h3 : SnapshotInv (traverse_routes tt target_id (order queue)
          { st2 with stops_improved := false }) :=
        snapshot_traverse_routes tt target_id (order queue) _ (h2.of_arrays rfl rfl)
      split at hx
      · simp only [List.mem_cons, List.mem_singleton, List.not_mem_nil, or_false] at hx
        rcases hx with hx | hx | hx | hx
        · rw [hx]
          exact h
        · rw [hx]
          exact h1
        · rw [hx]
          exact h2
        · rw [hx]
          exact h3
      · have h4 := snapshot_mark (traverse_routes tt target_id (order queue)
          { st2 with stops_improved := false }) ((round0 + 1) % 65536 = 1 && !profile) true
          source_id h3
        have h5 := snapshot_scan_footpaths (insert_positions tt (order queue)) use_hl target_id _ h4
        rw [List.mem_cons, List.mem_cons, List.mem_cons, List.mem_cons, List.mem_cons,
          List.mem_cons] at hx
        rcases hx with hx | hx | hx | hx | hx | hx | hx
        · rw [hx]
          exact h
        · rw [hx]
          exact h1
        · rw [hx]
          exact h2
        · rw [hx]
          exact h3
        · rw [hx]
          exact h4
        · rw [hx]
          exact h5
        · exact ih _ _ _ (snapshot_mark _ _ false source_id h5) x hx

/-! ## Runs that do not depend on the order of the queue -/

theorem mem_inserts (x : Nat × Nat) (a b : route_stop_queue_t) :
    a ++ x :: b ∈ inserts x (a ++ b) := by
  induction a with
  | nil =>
    cases b with
    | nil => exact List.mem_singleton.mpr rfl
    | cons y ys => exact List.mem_cons_self _ _
  | cons y a ih =>
    exact List.mem_cons_of_mem _ (List.mem_map.mpr ⟨_, ih, rfl⟩)

theorem mem_orders (queue : route_stop_queue_t) :
    ∀ queue1 : route_stop_queue_t, queue1.Perm queue → queue1 ∈ orders queue := by
  induction queue with
  | nil =>
    intro queue1 h
    rw [List.perm_nil.mp h]
    exact List.mem_singleton.mpr rfl
  | cons x xs ih =>
    intro queue1 h
    obtain ⟨a, b, hab⟩ := List.append_of_mem (h.mem_iff.mpr (List.mem_cons_self x xs))
    subst hab
    have h1 : (a ++ b).Perm xs := by
      have h2 : (x :: (a ++ b)).Perm (x :: xs) := List.perm_middle.symm.trans h
      exact h2.cons_inv
    exact List.mem_flatMap.mpr ⟨a ++ b, ih _ h1, mem_inserts x a b⟩

/-- When stage 2 does not depend on the order in any round of the run, the loop
visiting the queue in the order `order` does what the loop visiting it in the
order of the insertions does. -/
theorem round_loop_order_free (tt : Timetable)
    (order : route_stop_queue_t → route_stop_queue_t)
    (hperm : ∀ queue, (order queue).Perm queue) (hpos : PositionsDefined tt)
    (use_hl profile : Bool) (source_id target_id : Nat) :
    ∀ (fuel round0 : Nat) (target_labels : List Time) (st : State),
      order_free tt use_hl profile source_id target_id fuel round0 st = true →
      round_loop tt order use_hl profile source_id target_id fuel round0 target_labels st =
        round_loop tt (fun queue => queue) use_hl profile source_id target_id fuel round0
          target_labels st := by
  intro fuel
  induction fuel with
  | zero =>
    intro round0 target_labels st _
    rfl
  | succ fuel ih =>
    intro round0 target_labels st h
    rw [round_loop_succ_defined tt order hperm hpos,
      round_loop_succ_defined tt (fun queue => queue) (fun queue => List.Perm.refl queue) hpos]
    unfold order_free at h
    cases hq : make_queue tt (stage1 st tt.stops) with
    | none => rfl
    | some qs =>
      obtain ⟨queue, st2⟩ := qs
      rw [hq] at h
      simp only [Bool.and_eq_true, List.all_eq_true, decide_eq_true_eq, Bool.or_eq_true,
        Bool.not_eq_true'] at h
      dsimp only
      rw [h.1 (order queue) (mem_orders queue _ (hperm queue))]
      rcases h.2 with h2 | h2
      · rw [h2]
        rfl
      · cases h3 : (traverse_routes tt target_id queue
            (stage2_start (stage1 st tt.stops))).stops_improved
        · rfl
        · exact ih _ _ _ h2

/-- The same for `query`. -/
theorem query_order_free (tt : Timetable)
    (order : route_stop_queue_t → route_stop_queue_t)
    (hperm : ∀ queue, (order queue).Perm queue) (hpos : PositionsDefined tt)
    (use_hl profile : Bool) (fuel : Nat) (st : State) (source_id target_id : Nat)
    (departure_time : Time)
    (h : order_free tt use_hl profile source_id target_id fuel 0
      (query_init tt use_hl profile source_id target_id departure_time st).2 = true) :
    query tt order use_hl profile fuel st source_id target_id departure_time =
      query tt (fun queue => queue) use_hl profile fuel st source_id target_id
        departure_time := by
  unfold query
  exact round_loop_order_free tt order hperm hpos use_hl profile source_id target_id fuel 0 _ _ h

/-! ## The claims -/

/-- C1. With the ids in range (every stop of a route indexes the arrival array,
every route listed by a stop knows the stop's position), and in whatever order
the loop over the queue visits its pairs (`order` sends every queue to a
permutation of it), `query` returns a vector, from any starting contents of the
scratch arrays, and the vector it returns is non-increasing:
`result[k] >= result[k+1]` whenever `k + 1 < length`. -/
theorem query_non_increasing (tt : Timetable)
    (order : route_stop_queue_t → route_stop_queue_t)
    (hperm : ∀ queue, (order queue).Perm queue) (use_hl profile : Bool) (st : State)
    (source_id target_id : Nat) (departure_time : Time)
    (hpos : PositionsDefined tt) (hrange : RouteStopsInRange tt st) :
    (∃ fuel labels st1,
      query tt order use_hl profile fuel st source_id target_id departure_time =
        Outcome.returned labels st1) ∧
    ∀ fuel labels st1,
      query tt order use_hl profile fuel st source_id target_id departure_time =
        Outcome.returned labels st1 → NonIncreasing labels := by
  refine ⟨query_returns tt order hperm use_hl profile st source_id target_id departure_time
    hpos hrange, ?_⟩
  intro fuel labels st1 h
  obtain ⟨suffix, h1, h2, h3, h4⟩ := query_labels tt order use_hl profile fuel st source_id
    target_id departure_time labels st1 h
  apply nonIncreasing_of_chain
  rw [h1]
  cases suffix with
  | nil => exact absurd rfl h2
  | cons y ys => exact List.Chain'.cons (h4 y (List.mem_cons_self _ _)) h3

theorem query_non_increasing_witness :
    PositionsDefined two_routes ∧
    RouteStopsInRange two_routes (init two_routes false (constructed false)) ∧
    (∃ fuel labels st1,
      query two_routes List.reverse false false fuel
        (init two_routes false (constructed false)) 0 1 (Time.fin 540) =
          Outcome.returned labels st1) ∧
    ∀ fuel labels st1,
      query two_routes List.reverse false false fuel
        (init two_routes false (constructed false)) 0 1 (Time.fin 540) =
          Outcome.returned labels st1 → NonIncreasing labels :=
  ⟨by unfold PositionsDefined; decide, by unfold RouteStopsInRange; decide,
    query_non_increasing two_routes List.reverse (fun queue => List.reverse_perm queue)
      false false (init two_routes false (constructed false)) 0 1 (Time.fin 540)
      (by unfold PositionsDefined; decide) (by unfold RouteStopsInRange; decide)⟩

/-- C2. On a stop whose events are sorted by departure and are as many as the
trips of the route, `earliest_trip` returns `route.trips[i]` for the smallest
index `i` whose departure is at least `t` (every earlier index departs strictly
before `t`), and returns `NULL_TRIP` exactly when no event departs at or after
`t`. -/
theorem earliest_trip_spec (tt : Timetable) (route_id stop_idx : Nat) (t : Time)
    (hs : ((tt.routes.getD route_id default).stop_times_by_stops.getD stop_idx []).Pairwise
      (fun a b => a.dep ≤ b.dep))
    (hlen : ((tt.routes.getD route_id default).stop_times_by_stops.getD stop_idx []).length =
      (tt.routes.getD route_id default).trips.length) :
    (earliest_trip tt route_id stop_idx t = NULL_TRIP ↔
      ∀ i, i < ((tt.routes.getD route_id default).stop_times_by_stops.getD stop_idx []).length →
        (((tt.routes.getD route_id default).stop_times_by_stops.getD stop_idx []).getD i
          default).dep < t) ∧
    (earliest_trip tt route_id stop_idx t ≠ NULL_TRIP →
      ∃ i, ∃ hi : i < (tt.routes.getD route_id default).trips.length,
        earliest_trip tt route_id stop_idx t =
          some ((tt.routes.getD route_id default).trips.get ⟨i, hi⟩) ∧
        t ≤ (((tt.routes.getD route_id default).stop_times_by_stops.getD stop_idx []).getD i
          default).dep ∧
        ∀ j, j < i →
          (((tt.routes.getD route_id default).stop_times_by_stops.getD stop_idx []).getD j
            default).dep < t) := by
  obtain ⟨hle, hlo, hhi⟩ := lower_bound_spec _ t hs
  unfold earliest_trip
  simp only []
  generalize (tt.routes.getD route_id default).stop_times_by_stops.getD stop_idx [] = evs
    at hs hlen hle hlo hhi ⊢
  generalize (tt.routes.getD route_id default).trips = trips at hlen ⊢
  by_cases heq : lower_bound evs t = evs.length
  · rw [if_pos heq]
    refine ⟨⟨fun _ i hi => hlo i (by omega), fun _ => rfl⟩, fun h => absurd rfl h⟩
  · rw [if_neg heq]
    have hlt : lower_bound evs t < evs.length := by omega
    refine ⟨⟨fun h => (by cases h), fun h => ?_⟩, fun _ => ?_⟩
    · exact absurd (h _ hlt) (not_lt.mpr (hhi _ (le_refl _) hlt))
    · refine ⟨lower_bound evs t, by omega, ?_, hhi _ (le_refl _) hlt, hlo⟩
      congr 1
      rw [List.getD_eq_getElem?_getD, List.getElem?_eq_getElem (by omega)]
      rfl

theorem earliest_trip_spec_witness :
    (earliest_trip scenario4 1 0 (Time.fin 610) = NULL_TRIP ↔
      ∀ i, i < ((scenario4.routes.getD 1 default).stop_times_by_stops.getD 0 []).length →
        (((scenario4.routes.getD 1 default).stop_times_by_stops.getD 0 []).getD i
          default).dep < Time.fin 610) ∧
    (earliest_trip scenario4 1 0 (Time.fin 610) ≠ NULL_TRIP →
      ∃ i, ∃ hi : i < (scenario4.routes.getD 1 default).trips.length,
        earliest_trip scenario4 1 0 (Time.fin 610) =
          some ((scenario4.routes.getD 1 default).trips.get ⟨i, hi⟩) ∧
        Time.fin 610 ≤ (((scenario4.routes.getD 1 default).stop_times_by_stops.getD 0 []).getD i
          default).dep ∧
        ∀ j, j < i →
          (((scenario4.routes.getD 1 default).stop_times_by_stops.getD 0 []).getD j
            default).dep < Time.fin 610) :=
  earliest_trip_spec scenario4 1 0 (Time.fin 610) (by decide) (by decide)

/-- C3. When every route listed by a stop has that stop in its
`stop_positions`, `make_queue` returns a map that contains route `r` exactly
when some marked stop lists `r`, and `queue[r]` is then a marked stop listing
`r` whose position on `r` is the least among the marked stops that list `r`;
all marks are cleared. (Injectivity of `stop_positions` is not needed.) -/
theorem make_queue_spec (tt : Timetable) (st : State)
    (hpos : ∀ stop ∈ tt.stops, ∀ r ∈ stop.routes,
      ((tt.routes.getD r default).stop_positions stop.id).isSome) :
    ∃ queue, make_queue tt st = some (queue,
        { st with stop_is_marked := List.replicate st.stop_is_marked.length false }) ∧
      (∀ r, (∃ p, queue.lookup r = some p) ↔
        ∃ stop ∈ tt.stops, st.stop_is_marked.getD stop.id false = true ∧ r ∈ stop.routes) ∧
      (∀ r p, queue.lookup r = some p →
        (∃ stop ∈ tt.stops, stop.id = p ∧ st.stop_is_marked.getD stop.id false = true ∧
          r ∈ stop.routes) ∧
        ∀ stop ∈ tt.stops, st.stop_is_marked.getD stop.id false = true → r ∈ stop.routes →
          ∃ ip is, (tt.routes.getD r default).stop_positions p = some ip ∧
            (tt.routes.getD r default).stop_positions stop.id = some is ∧ ip ≤ is) := by
  obtain ⟨queue, hq, hinv⟩ := make_queue_total tt st hpos
  refine ⟨queue, hq, ?_, ?_⟩
  · intro r
    constructor
    · rintro ⟨p, hp⟩
      obtain ⟨stop, hs, hm, -, hr⟩ := (hinv.1 r p hp).1
      exact ⟨stop, hs, hm, hr⟩
    · rintro ⟨stop, hs, hm, hr⟩
      exact hinv.2 stop.id r ⟨stop, hs, hm, rfl, hr⟩
  · intro r p hp
    obtain ⟨h1, h2⟩ := hinv.1 r p hp
    constructor
    · obtain ⟨stop, hs, hm, hid, hr⟩ := h1
      exact ⟨stop, hs, hid, hm, hr⟩
    · intro stop hs hm hr
      exact h2 stop.id ⟨stop, hs, hm, rfl, hr⟩

theorem make_queue_spec_witness :
    ∃ queue, make_queue scenario4 ⟨[], [], [true, true, false], [], false⟩ = some (queue,
        { (⟨[], [], [true, true, false], [], false⟩ : State) with
          stop_is_marked := List.replicate 3 false }) ∧
      (∀ r, (∃ p, queue.lookup r = some p) ↔
        ∃ stop ∈ scenario4.stops,
          [true, true, false].getD stop.id false = true ∧ r ∈ stop.routes) ∧
      (∀ r p, queue.lookup r = some p →
        (∃ stop ∈ scenario4.stops, stop.id = p ∧
          [true, true, false].getD stop.id false = true ∧ r ∈ stop.routes) ∧
        ∀ stop ∈ scenario4.stops, [true, true, false].getD stop.id false = true →
          r ∈ stop.routes →
          ∃ ip is, (scenario4.routes.getD r default).stop_positions p = some ip ∧
            (scenario4.routes.getD r default).stop_positions stop.id = some is ∧ ip ≤ is) :=
  make_queue_spec scenario4 ⟨[], [], [true, true, false], [], false⟩ (by decide)

/-- C4. `Label::dominates` agrees with the specified dominance relation: `L1`
dominates `L2` exactly when `a1 <= a2`, `w1 <= w2` and at least one of the two
is strict. -/
theorem dominates_iff (L1 L2 : Label) :
    L1.dominates L2 = true ↔
      L1._arrival_time ≤ L2._arrival_time ∧ L1._walking_time ≤ L2._walking_time ∧
        (L1._arrival_time < L2._arrival_time ∨ L1._walking_time < L2._walking_time) := by
  simp only [Label.dominates, Bool.or_eq_true, Bool.and_eq_true, decide_eq_true_eq]
  constructor
  · rintro (⟨h1, h2⟩ | ⟨h1, h2⟩)
    · exact ⟨h1, le_of_lt h2, Or.inr h2⟩
    · exact ⟨le_of_lt h1, h2, Or.inl h1⟩
  · rintro ⟨h1, h2, h3 | h3⟩
    · exact Or.inr ⟨h3, h2⟩
    · exact Or.inl ⟨h1, h3⟩

/-- C5 fails as stated: in scenario 1 the first `query(A, B, 09:00)` on the
initialised engine returns `[INF, 10:20, 10:20]` and the same call repeated on
the state it leaves returns `[10:20, 10:20]`, in whatever order the loop over
the queue visits its pairs. -/
theorem query_twice_differs :
    (query scenario1 (fun queue => queue) false false 3
        (init scenario1 false (constructed false)) 0 1 (Time.fin 540) =
      Outcome.returned [Time.inf, Time.fin 620, Time.fin 620]
        ⟨[Time.fin 540, Time.fin 620], [Time.fin 540, Time.fin 620], [false, false], [],
          false⟩ ∧
    query scenario1 (fun queue => queue) false false 3
        ⟨[Time.fin 540, Time.fin 620], [Time.fin 540, Time.fin 620], [false, false], [], false⟩
        0 1 (Time.fin 540) =
      Outcome.returned [Time.fin 620, Time.fin 620]
        ⟨[Time.fin 540, Time.fin 620], [Time.fin 540, Time.fin 620], [false, false], [],
          false⟩) ∧
    ∀ order : route_stop_queue_t → route_stop_queue_t, (∀ queue, (order queue).Perm queue) →
      query scenario1 order false false 3 (init scenario1 false (constructed false)) 0 1
          (Time.fin 540) =
        Outcome.returned [Time.inf, Time.fin 620, Time.fin 620]
          ⟨[Time.fin 540, Time.fin 620], [Time.fin 540, Time.fin 620], [false, false], [],
            false⟩ ∧
      query scenario1 order false false 3
          ⟨[Time.fin 540, Time.fin 620], [Time.fin 540, Time.fin 620], [false, false], [],
            false⟩ 0 1 (Time.fin 540) =
        Outcome.returned [Time.fin 620, Time.fin 620]
          ⟨[Time.fin 540, Time.fin 620], [Time.fin 540, Time.fin 620], [false, false], [],
            false⟩ := by
  refine ⟨⟨by decide, by decide⟩, fun order hperm => ⟨?_, ?_⟩⟩
  · rw [query_order_free scenario1 order hperm (by unfold PositionsDefined; decide) false false
      3 (init scenario1 false (constructed false)) 0 1 (Time.fin 540) (by decide)]
    decide
  · rw [query_order_free scenario1 order hperm (by unfold PositionsDefined; decide) false false
      3 ⟨[Time.fin 540, Time.fin 620], [Time.fin 540, Time.fin 620], [false, false], [], false⟩
      0 1 (Time.fin 540) (by decide)]
    decide

/-- C5, amended. When `clear()` and `init()` are run between the two calls, the
second `query` with the same arguments returns the same vector as the first
(and leaves the same state), the loop over the queue visiting its pairs by the
same rule `order` in both calls. -/
theorem query_twice_after_reinit (tt : Timetable)
    (order : route_stop_queue_t → route_stop_queue_t) (use_hl profile b : Bool) (fuel : Nat)
    (source_id target_id : Nat) (departure_time : Time) (labels : List Time) (st1 : State)
    (h : query tt order use_hl profile fuel (init tt use_hl (constructed b)) source_id target_id
      departure_time = Outcome.returned labels st1) :
    query tt order use_hl profile fuel (init tt use_hl (clear use_hl st1)) source_id target_id
      departure_time = Outcome.returned labels st1 := by
  have htmp : use_hl = false → st1.tmp_hub_labels = [] := by
    intro hu
    subst hu
    rw [query_tmp tt order profile fuel _ source_id target_id departure_time labels st1 h]
    rfl
  rw [init_clear tt use_hl b st1 htmp, query_improved]
  exact h

theorem query_twice_after_reinit_witness :
    query scenario1 (fun queue => queue) false false 3
        (init scenario1 false (constructed false)) 0 1 (Time.fin 540) =
      Outcome.returned [Time.inf, Time.fin 620, Time.fin 620]
        ⟨[Time.fin 540, Time.fin 620], [Time.fin 540, Time.fin 620], [false, false], [],
          false⟩ ∧
    query scenario1 (fun queue => queue) false false 3
        (init scenario1 false (clear false
          ⟨[Time.fin 540, Time.fin 620], [Time.fin 540, Time.fin 620], [false, false], [],
            false⟩)) 0 1 (Time.fin 540) =
      Outcome.returned [Time.inf, Time.fin 620, Time.fin 620]
        ⟨[Time.fin 540, Time.fin 620], [Time.fin 540, Time.fin 620], [false, false], [],
          false⟩ :=
  ⟨by decide, query_twice_after_reinit scenario1 (fun queue => queue) false false false 3 0 1
    (Time.fin 540) _ _ (by decide)⟩

/-- C6. On a freshly initialised engine and a valid timetable, `query(s, s, d)`
for a stop `s` in range returns the vector `[d, d]`: every element equals
`d`, in whatever order the loop over the queue visits its pairs. -/
theorem query_source_identity (tt : Timetable)
    (order : route_stop_queue_t → route_stop_queue_t) (use_hl profile : Bool) (st : State)
    (s : Nat) (d : Time) (fuel : Nat)
    (hv : ValidTimetable tt) (hfresh : Fresh tt use_hl st) (hs : s ≤ tt.max_stop_id) :
    ∃ labels st1,
      query tt order use_hl profile (fuel + 1) st s s d = Outcome.returned labels st1 ∧
      labels = [d, d] ∧ ∀ x ∈ labels, x = d := by
  obtain ⟨h1, h2, h3⟩ := query_init_self tt use_hl profile st s d (hv.walking_self s) hfresh hs
  obtain ⟨hlab, -⟩ := query_init_frame tt use_hl profile s s d st
  obtain ⟨f1, -, f3, -, -⟩ := stage2_start_frame tt (query_init tt use_hl profile s s d st).2
  obtain ⟨g1, -⟩ := stage1_frame tt.stops (query_init tt use_hl profile s s d st).2
  have hprev := stage1_prev_ge d tt.stops _ h2 h3
  obtain ⟨queue, hq, -⟩ := make_queue_total tt
    (stage1 (query_init tt use_hl profile s s d st).2 tt.stops) hv.positions
  have hnoop := traverse_routes_noop tt hv s d (order queue)
    (stage2_start (stage1 (query_init tt use_hl profile s s d st).2 tt.stops))
    (by rw [f1]; exact h1) hprev
  refine ⟨[d, d], stage2_start (stage1 (query_init tt use_hl profile s s d st).2 tt.stops),
    ?_, rfl, by simp⟩
  unfold query
  dsimp only
  rw [round_loop_succ, hq]
  dsimp only
  rw [hnoop, f3, f1, h1, hlab, h1]
  rfl

theorem query_source_identity_witness :
    ValidTimetable scenario4 ∧ Fresh scenario4 true (init scenario4 true (constructed false)) ∧
    1 ≤ scenario4.max_stop_id ∧
    ∃ labels st1, query scenario4 (fun queue => queue) true false (0 + 1)
        (init scenario4 true (constructed false)) 1 1 (Time.fin 560) =
          Outcome.returned labels st1 ∧
      labels = [Time.fin 560, Time.fin 560] ∧ ∀ x ∈ labels, x = Time.fin 560 :=
  ⟨scenario4_valid, fresh_init scenario4 true false, by decide,
    query_source_identity scenario4 (fun queue => queue) true false
      (init scenario4 true (constructed false)) 1 (Time.fin 560) 0 scenario4_valid
      (fresh_init scenario4 true false) (by decide)⟩

/-- C7. On a freshly initialised engine, with `source != target` and the ids
in range, in whatever order the loop over the queue visits its pairs, `query`
returns a vector whose element 0 is `departure + walking_time(source, target)`
when `use_hl` is true and `profile` is false, and `INF` in every other mode. -/
theorem query_round0_label (tt : Timetable)
    (order : route_stop_queue_t → route_stop_queue_t)
    (hperm : ∀ queue, (order queue).Perm queue) (use_hl profile : Bool) (st : State)
    (source_id target_id : Nat) (departure_time : Time)
    (hfresh : Fresh tt use_hl st) (hne : source_id ≠ target_id)
    (htarget : target_id ≤ tt.max_stop_id)
    (hpos : PositionsDefined tt) (hrange : RouteStopsInRange tt st) :
    (∃ fuel labels st1,
      query tt order use_hl profile fuel st source_id target_id departure_time =
        Outcome.returned labels st1) ∧
    ∀ fuel labels st1,
      query tt order use_hl profile fuel st source_id target_id departure_time =
        Outcome.returned labels st1 →
      labels.head? = some (if use_hl && !profile then
        departure_time + tt.walking_time source_id target_id else Time.inf) := by
  refine ⟨query_returns tt order hperm use_hl profile st source_id target_id departure_time
    hpos hrange, ?_⟩
  intro fuel labels st1 h
  obtain ⟨suffix, h1, -⟩ := query_labels tt order use_hl profile fuel st source_id target_id
    departure_time labels st1 h
  rw [h1, query_init_label tt use_hl profile st source_id target_id departure_time hfresh hne
    htarget]
  rfl

theorem query_round0_label_witness :
    Fresh walk_five true (init walk_five true (constructed false)) ∧ (0 : Nat) ≠ 2 ∧
    2 ≤ walk_five.max_stop_id ∧ PositionsDefined walk_five ∧
    RouteStopsInRange walk_five (init walk_five true (constructed false)) ∧
    walk_five.walking_time 0 2 = Time.fin 5 ∧
    query walk_five (fun queue => queue) true false 1
        (init walk_five true (constructed false)) 0 2 (Time.fin 540) =
      Outcome.returned [Time.fin 545, Time.fin 545]
        ⟨[Time.fin 540, Time.inf, Time.fin 545], [Time.fin 540, Time.inf, Time.inf],
          [false, false, false], [Time.inf, Time.inf, Time.inf], false⟩ ∧
    (∃ fuel labels st1,
      query walk_five (fun queue => queue) true false fuel
        (init walk_five true (constructed false)) 0 2 (Time.fin 540) =
          Outcome.returned labels st1) ∧
    ∀ fuel labels st1,
      query walk_five (fun queue => queue) true false fuel
        (init walk_five true (constructed false)) 0 2 (Time.fin 540) =
          Outcome.returned labels st1 →
      labels.head? = some (if true && !false then
        Time.fin 540 + walk_five.walking_time 0 2 else Time.inf) :=
  ⟨fresh_init walk_five true false, by decide, by decide, by unfold PositionsDefined; decide,
    by unfold RouteStopsInRange; decide, rfl, by decide,
    query_round0_label walk_five (fun queue => queue) (fun queue => List.Perm.refl queue)
      true false (init walk_five true (constructed false)) 0 2
      (Time.fin 540) (fresh_init walk_five true false) (by decide) (by decide)
      (by unfold PositionsDefined; decide) (by unfold RouteStopsInRange; decide)⟩

/-- C8 fails as stated: in scenario 1, `query(A, B, 09:00)` on the initialised
engine returns the three-element vector `[INF, 10:20, 10:20]`, not
`[INF, 10:20]`, in whatever order the loop over the queue visits its pairs. -/
theorem single_trip_three_labels :
    query scenario1 (fun queue => queue) false false 2
        (init scenario1 false (constructed false)) 0 1 (Time.fin 540) =
      Outcome.returned [Time.inf, Time.fin 620, Time.fin 620]
        ⟨[Time.fin 540, Time.fin 620], [Time.fin 540, Time.fin 620], [false, false], [],
          false⟩ ∧
    ∀ order : route_stop_queue_t → route_stop_queue_t, (∀ queue, (order queue).Perm queue) →
      query scenario1 order false false 2 (init scenario1 false (constructed false)) 0 1
          (Time.fin 540) =
        Outcome.returned [Time.inf, Time.fin 620, Time.fin 620]
          ⟨[Time.fin 540, Time.fin 620], [Time.fin 540, Time.fin 620], [false, false], [],
            false⟩ := by
  refine ⟨by decide, fun order hperm => ?_⟩
  rw [query_order_free scenario1 order hperm (by unfold PositionsDefined; decide) false false
    2 (init scenario1 false (constructed false)) 0 1 (Time.fin 540) (by decide)]
  decide

/-- C8, amended. In the single-trip scenario (departure `x` at A, arrival `y`
at B, whatever the other two times of the trip), in direct-transfer non-profile
mode on a freshly initialised engine, `query(A, B, d)` with `d <= x` runs two
rounds (one round of fuel is not enough, two are) and returns the three-element
vector `[INF, y, y]`: the length is 1 + the number of rounds executed. This
holds in whatever order the loop over the queue visits its pairs. -/
theorem query_single_trip (order : route_stop_queue_t → route_stop_queue_t)
    (hperm : ∀ queue, (order queue).Perm queue) (aA dB d : Time) (x y : Int) (b : Bool)
    (fuel : Nat) (hd : d ≤ Time.fin x) :
    (∃ st1, query (single_trip aA (Time.fin x) (Time.fin y) dB) order false false (fuel + 2)
        (init (single_trip aA (Time.fin x) (Time.fin y) dB) false (constructed b)) 0 1 d =
      Outcome.returned [Time.inf, Time.fin y, Time.fin y] st1) ∧
    query (single_trip aA (Time.fin x) (Time.fin y) dB) order false false 1
        (init (single_trip aA (Time.fin x) (Time.fin y) dB) false (constructed b)) 0 1 d =
      Outcome.timeout := by
  cases d with
  | inf => exact absurd hd (by simp)
  | fin dv =>
    have hdv : dv ≤ x := by simpa using hd
    refine ⟨⟨⟨[Time.fin dv, Time.fin y], [Time.fin dv, Time.fin y], [false, false], [], false⟩,
      ?_⟩, single_trip_query_one order hperm aA dB x y dv b hdv⟩
    exact round_loop_fuel_mono _ _ _ _ _ _ _ _ _ _ _ _
      (single_trip_query order hperm aA dB x y dv b hdv) (fuel + 2) (by omega)

theorem query_single_trip_witness :
    Time.fin 540 ≤ Time.fin 600 ∧
    (∃ st1, query (single_trip (Time.fin 600) (Time.fin 600) (Time.fin 620) (Time.fin 620))
        (fun queue => queue) false false (0 + 2)
        (init (single_trip (Time.fin 600) (Time.fin 600) (Time.fin 620) (Time.fin 620)) false
          (constructed false)) 0 1 (Time.fin 540) =
      Outcome.returned [Time.inf, Time.fin 620, Time.fin 620] st1) ∧
    query (single_trip (Time.fin 600) (Time.fin 600) (Time.fin 620) (Time.fin 620))
        (fun queue => queue) false false 1
        (init (single_trip (Time.fin 600) (Time.fin 600) (Time.fin 620) (Time.fin 620)) false
          (constructed false)) 0 1 (Time.fin 540) =
      Outcome.timeout :=
  ⟨by decide, query_single_trip (fun queue => queue) (fun queue => List.Perm.refl queue)
    (Time.fin 600) (Time.fin 620) (Time.fin 540) 600 620 false 0 (by decide)⟩

/-- C10: the code at the failing input. In scenario 4 with target B, at stage 3
of round 1 of `query(A, B, 09:20)`, the stop A (arrival 09:20) has a transfer of
60 minutes to C while `earliest_arrival_time[B]` is 10:10: `scan_footpaths`
writes the candidate 10:20 to `earliest_arrival_time[C]` and marks C, although
the candidate is greater than `earliest_arrival_time[target]`. -/
theorem scan_footpaths_writes_above_target :
    scan_footpaths scenario4 false 1
        ⟨[Time.fin 560, Time.fin 610, Time.inf], [Time.fin 560, Time.inf, Time.inf],
          [true, true, false], [], true⟩ =
      ⟨[Time.fin 560, Time.fin 610, Time.fin 620], [Time.fin 560, Time.inf, Time.inf],
        [true, true, true], [], true⟩ ∧
    Time.fin 610 < Time.fin 620 := by
  decide

/-- C11. In hub-labeling mode `scan_footpaths` does no propagation to stops:
for every timetable and every state it leaves `earliest_arrival_time` and
`stop_is_marked` exactly as they were on entry (only `tmp_hub_labels` can
change), because the loop over `inverse_in_hubs[hub]` is entered only when that
list is empty, so that the whole propagation loop changes nothing. -/
theorem scan_footpaths_hub_no_propagation (tt : Timetable) (target_id : Nat) (st : State) :
    (scan_footpaths tt true target_id st).earliest_arrival_time = st.earliest_arrival_time ∧
    (scan_footpaths tt true target_id st).stop_is_marked = st.stop_is_marked ∧
    ∀ (hubs : List Nat) (st1 : State), propagate_hubs tt target_id hubs st1 = st1 := by
  obtain ⟨h1, -, h3, -⟩ := scan_footpaths_hl_frame tt target_id st
  exact ⟨h1, h3, propagate_hubs_eq tt target_id⟩

/-- C12. Trip monotonicity during a route scan. With FIFO at every stop index,
`stop_times_by_stops` the transpose of `stop_times_by_trips` and
`trip_positions` sending `route.trips[k]` to position `k`, the scan of a queued
pair (route, stop) goes through the turns listed by its trace, and from one
turn to the next the current trip, once it is not `NULL_TRIP`, stays a trip of
the route whose position in `route.trips` is at most the previous one. -/
theorem trip_monotone (tt : Timetable) (route_id target_id stop_id : Nat) (st : State)
    (h : RouteTables tt (tt.routes.getD route_id default)) :
    traverse_route tt target_id (route_id, stop_id) st =
      ((scan_route_trace tt route_id target_id (tt.routes.getD route_id default)
        ((tt.routes.getD route_id default).stops.drop
          (((tt.routes.getD route_id default).stop_positions stop_id).getD 0))
        (((tt.routes.getD route_id default).stop_positions stop_id).getD 0) NULL_TRIP
        st).map Prod.snd).getLastD st ∧
    List.Chain (NotLater tt (tt.routes.getD route_id default)) NULL_TRIP
      ((scan_route_trace tt route_id target_id (tt.routes.getD route_id default)
        ((tt.routes.getD route_id default).stops.drop
          (((tt.routes.getD route_id default).stop_positions stop_id).getD 0))
        (((tt.routes.getD route_id default).stop_positions stop_id).getD 0) NULL_TRIP
        st).map Prod.fst) := by
  constructor
  · exact scan_route_trace_last tt route_id target_id _ _ _ _ st
  · rcases Nat.lt_or_ge (((tt.routes.getD route_id default).stop_positions stop_id).getD 0)
      (tt.routes.getD route_id default).stops.length with hlt | hge
    · apply scan_route_trace_chain tt route_id target_id h _ _ _ st _ (Or.inl rfl)
      rw [List.length_drop]
      have := h.rows
      omega
    · rw [List.drop_eq_nil_of_le hge]
      exact List.Chain.nil

theorem trip_monotone_witness :
    List.Chain (NotLater scenario4 (scenario4.routes.getD 0 default)) NULL_TRIP
      ((scan_route_trace scenario4 0 1 (scenario4.routes.getD 0 default)
        ((scenario4.routes.getD 0 default).stops.drop
          (((scenario4.routes.getD 0 default).stop_positions 0).getD 0))
        (((scenario4.routes.getD 0 default).stop_positions 0).getD 0) NULL_TRIP
        ⟨[Time.fin 560, Time.inf, Time.inf], [Time.fin 560, Time.inf, Time.inf],
          [false, false, false], [], false⟩).map Prod.fst) :=
  (trip_monotone scenario4 0 1 0
    ⟨[Time.fin 560, Time.inf, Time.inf], [Time.fin 560, Time.inf, Time.inf],
      [false, false, false], [], false⟩
    ⟨by decide, by decide, by decide, by decide, by decide⟩).2

/-- C13. Arrival times never get worse: stage 1, `make_queue`, the route scans
of stage 2 (over any list of pairs, with or without the keys the lookup
`stop_positions[stop_id]` inserts) and `scan_footpaths` (in either mode) leave
every entry of `earliest_arrival_time` at most what it was; hence along the
states the round loop passes through every state is lowered from the one
before, and so is the state the loop returns from the state it started in, in
whatever order the loop over the queue visits its pairs. -/
theorem arrival_times_never_increase (tt : Timetable)
    (order : route_stop_queue_t → route_stop_queue_t) (use_hl profile : Bool)
    (source_id target_id : Nat) :
    (∀ (st : State) (stops : List Stop), Lowered st (stage1 st stops)) ∧
    (∀ (st : State) (queue : route_stop_queue_t) (st1 : State),
      make_queue tt st = some (queue, st1) → Lowered st st1) ∧
    (∀ (st : State) (queue : route_stop_queue_t),
      Lowered st (traverse_routes tt target_id queue st)) ∧
    (∀ (st : State) (queue : route_stop_queue_t),
      Lowered st (scan_queue target_id queue (tt, st)).2) ∧
    (∀ (st : State) (hl : Bool), Lowered st (scan_footpaths tt hl target_id st)) ∧
    (∀ (fuel round0 : Nat) (st : State), List.Chain' Lowered
      (round_loop_states tt order use_hl profile source_id target_id fuel round0 st)) ∧
    (∀ (fuel round0 : Nat) (target_labels : List Time) (st : State) (labels : List Time)
      (st1 : State),
      round_loop tt order use_hl profile source_id target_id fuel round0 target_labels st =
        Outcome.returned labels st1 → Lowered st st1) := by
  refine ⟨fun st stops => Lowered.of_eq (stage1_frame stops st).1, ?_, ?_, ?_, ?_, ?_, ?_⟩
  · intro st queue st1 hq
    rw [make_queue_state tt st queue st1 hq]
    exact Lowered.of_eq rfl
  · intro st queue
    exact (stage2_summary (traverse_routes_steps tt target_id queue st)).1
  · intro st queue
    rw [scan_queue_eq]
    exact (stage2_summary (traverse_routes_steps tt target_id queue st)).1
  · intro st hl
    exact (scan_footpaths_frame tt hl target_id st).1
  · exact round_loop_states_lowered tt order use_hl profile source_id target_id
  · intro fuel round0 target_labels st labels st1 h
    obtain ⟨suffix, -, -, -, -, hl⟩ := round_loop_labels tt order use_hl profile source_id
      target_id fuel round0 target_labels st labels st1 h
    exact hl

theorem arrival_times_never_increase_witness :
    Lowered
      ⟨[Time.fin 560, Time.fin 610, Time.inf], [Time.fin 560, Time.inf, Time.inf],
        [true, true, false], [], true⟩
      (scan_footpaths scenario4 false 1
        ⟨[Time.fin 560, Time.fin 610, Time.inf], [Time.fin 560, Time.inf, Time.inf],
          [true, true, false], [], true⟩) :=
  (arrival_times_never_increase scenario4 (fun queue => queue) false false 0 1).2.2.2.2.1 _
    false

/-- C14 fails as stated: on `walk_five`, where the hub-based walking time from
a stop to itself is 5 minutes, `query(A, A, 09:00)` in hub mode, non-profile,
on the initialised engine sets `prev_earliest_arrival_time[A]` and
`earliest_arrival_time[A]` to 09:00 and then `earliest_arrival_time[target]`,
the same entry, to 09:05: the state at the top of round 1, the first the round
loop passes through whatever the order of the queue, has
`prev_earliest_arrival_time[A] = 09:00 < 09:05 = earliest_arrival_time[A]`. -/
theorem snapshot_fails_self_walk :
    Fresh walk_five true (init walk_five true (constructed false)) ∧
    walk_five.walking_time 0 0 = Time.fin 5 ∧
    (∀ (order : route_stop_queue_t → route_stop_queue_t) (fuel : Nat),
      (round_loop_states walk_five order true false 0 0 fuel 0
        (query_init walk_five true false 0 0 (Time.fin 540)
          (init walk_five true (constructed false))).2).head? =
        some ⟨[Time.fin 545, Time.inf, Time.inf], [Time.fin 540, Time.inf, Time.inf],
          [true, false, false], [Time.inf, Time.inf, Time.inf], false⟩) ∧
    prevAt ⟨[Time.fin 545, Time.inf, Time.inf], [Time.fin 540, Time.inf, Time.inf],
        [true, false, false], [Time.inf, Time.inf, Time.inf], false⟩ 0 <
      eatAt ⟨[Time.fin 545, Time.inf, Time.inf], [Time.fin 540, Time.inf, Time.inf],
        [true, false, false], [Time.inf, Time.inf, Time.inf], false⟩ 0 ∧
    ¬ SnapshotInv ⟨[Time.fin 545, Time.inf, Time.inf], [Time.fin 540, Time.inf, Time.inf],
      [true, false, false], [Time.inf, Time.inf, Time.inf], false⟩ := by
  refine ⟨fresh_init walk_five true false, rfl, fun order fuel => ?_, by decide,
    fun h => absurd (h 0) (by decide)⟩
  obtain ⟨rest, h⟩ := round_loop_states_head walk_five order true false 0 0 fuel 0
    (query_init walk_five true false 0 0 (Time.fin 540)
      (init walk_five true (constructed false))).2
  rw [h, List.head?_cons]
  exact congrArg some (by decide)

/-- C14, amended. Snapshot invariant. During a query started on a freshly
initialised engine, every state the round loop passes through has
`prev_earliest_arrival_time[s] >= earliest_arrival_time[s]` at every stop `s`,
provided that, when the query is in hub mode, non-profile, with
`target = source`, walking from the source to itself takes no time
(`walking_time(source, source) <= 0`); so has the state `query` returns, and
each stage keeps the invariant from whatever state it is entered in. This holds
in whatever order the loop over the queue visits its pairs. -/
theorem snapshot_invariant (tt : Timetable)
    (order : route_stop_queue_t → route_stop_queue_t) (use_hl profile : Bool) (st : State)
    (source_id target_id : Nat) (departure_time : Time)
    (hfresh : Fresh tt use_hl st)
    (hself : use_hl = true → profile = false → target_id = source_id →
      tt.walking_time source_id source_id ≤ Time.fin 0) :
    (∀ fuel, ∀ x ∈ round_loop_states tt order use_hl profile source_id target_id fuel 0
      (query_init tt use_hl profile source_id target_id departure_time st).2,
      SnapshotInv x) ∧
    (∀ fuel labels st1,
      query tt order use_hl profile fuel st source_id target_id departure_time =
        Outcome.returned labels st1 → SnapshotInv st1) ∧
    (∀ st1, SnapshotInv st1 →
      (∀ stops, SnapshotInv (stage1 st1 stops)) ∧
      (∀ queue, SnapshotInv (traverse_routes tt target_id queue st1)) ∧
      (∀ queue, SnapshotInv (scan_queue target_id queue (tt, st1)).2) ∧
      SnapshotInv (scan_footpaths tt use_hl target_id st1)) := by
  have h0 := snapshot_query_init tt use_hl profile st source_id target_id departure_time
    hfresh hself
  refine ⟨fun fuel => round_loop_states_snapshot tt order use_hl profile source_id target_id
    fuel 0 _ h0, ?_, ?_⟩
  · intro fuel labels st1 h
    unfold query at h
    dsimp only at h
    exact snapshot_round_loop tt order use_hl profile source_id target_id fuel 0 _ _ _ _ h0 h
  · intro st1 h1
    refine ⟨fun stops => snapshot_stage1 stops st1 h1,
      fun queue => snapshot_traverse_routes tt target_id queue st1 h1, fun queue => ?_,
      snapshot_scan_footpaths tt use_hl target_id st1 h1⟩
    rw [scan_queue_eq]
    exact snapshot_traverse_routes tt target_id queue st1 h1

theorem snapshot_invariant_witness :
    Fresh scenario4 true (init scenario4 true (constructed false)) ∧
    (true = true → false = false → (1 : Nat) = 1 →
      scenario4.walking_time 1 1 ≤ Time.fin 0) ∧
    query scenario4 (fun queue => queue) true false 1
        (init scenario4 true (constructed false)) 1 1 (Time.fin 560) =
      Outcome.returned [Time.fin 560, Time.fin 560]
        ⟨[Time.inf, Time.fin 560, Time.inf], [Time.inf, Time.fin 560, Time.inf],
          [false, false, false], [Time.inf, Time.inf, Time.inf], false⟩ ∧
    SnapshotInv ⟨[Time.inf, Time.fin 560, Time.inf], [Time.inf, Time.fin 560, Time.inf],
      [false, false, false], [Time.inf, Time.inf, Time.inf], false⟩ :=
  ⟨fresh_init scenario4 true false, by decide, by decide,
    (snapshot_invariant scenario4 (fun queue => queue) true false
      (init scenario4 true (constructed false)) 1 1 (Time.fin 560)
      (fresh_init scenario4 true false) (by decide)).2.1 1
      [Time.fin 560, Time.fin 560]
      ⟨[Time.inf, Time.fin 560, Time.inf], [Time.inf, Time.fin 560, Time.inf],
        [false, false, false], [Time.inf, Time.inf, Time.inf], false⟩ (by decide)⟩

/-- C15 fails as stated: on `two_routes` with target T = 1, at the start of
stage 2 of round 1 of `query(A, T, 09:00)`, the queue holds the pairs (route 0,
A) and (route 1, A). Scanned in this order, route 0 first lowers the target to
10:10 and target pruning then rejects the arrival 10:15 at X; scanned in the
other order the arrival 10:15 is written at X and X is marked. -/
theorem stage2_order_matters :
    make_queue two_routes
        (stage1 (query_init two_routes false false 0 1 (Time.fin 540)
          (init two_routes false (constructed false))).2 two_routes.stops) =
      some ([(0, 0), (1, 0)], two_routes_start) ∧
    List.Perm [((0 : Nat), (0 : Nat)), (1, 0)] [(1, 0), (0, 0)] ∧
    traverse_routes two_routes 1 [(0, 0), (1, 0)] two_routes_start =
      ⟨[Time.fin 540, Time.fin 610, Time.inf], [Time.fin 540, Time.inf, Time.inf],
        [false, true, false], [], true⟩ ∧
    traverse_routes two_routes 1 [(1, 0), (0, 0)] two_routes_start =
      ⟨[Time.fin 540, Time.fin 610, Time.fin 615], [Time.fin 540, Time.inf, Time.inf],
        [false, true, true], [], true⟩ ∧
    (scan_queue 1 [(0, 0), (1, 0)] (two_routes, two_routes_start)).2 =
      ⟨[Time.fin 540, Time.fin 610, Time.inf], [Time.fin 540, Time.inf, Time.inf],
        [false, true, false], [], true⟩ ∧
    (scan_queue 1 [(1, 0), (0, 0)] (two_routes, two_routes_start)).2 =
      ⟨[Time.fin 540, Time.fin 610, Time.fin 615], [Time.fin 540, Time.inf, Time.inf],
        [false, true, true], [], true⟩ :=
  ⟨by decide, List.Perm.swap _ _ _, by decide, by decide, by decide, by decide⟩

/-- C15, amended. For every state in which the target and every stop of every
route are inside the arrival vector and the marks are as long as it, and every
queue, scanning the queued (route, stop) pairs in any two orders (the loop
being `scan_queue`, whose state is that of `traverse_routes`) yields the same
arrival time at every stop once it is clipped at the target's,
`min(earliest_arrival_time[r], earliest_arrival_time[target])`; hence the same
`earliest_arrival_time[target]`, and the same arrival time and the same mark
at every stop whose arrival time is strictly below the target's; the same mark
at the target; the same flag `stops_improved`; the same snapshot
`prev_earliest_arrival_time` and the same `tmp_hub_labels`. Only the entries
and marks of the other stops whose arrival is at or after the target's can
depend on the order. -/
theorem stage2_order_target (tt : Timetable) (target_id : Nat) (st : State)
    (queue1 queue2 : route_stop_queue_t) (hp : queue1.Perm queue2)
    (ht : target_id < st.earliest_arrival_time.length)
    (hm : st.stop_is_marked.length = st.earliest_arrival_time.length)
    (hr : RouteStopsInRange tt st) :
    (∀ queue, (scan_queue target_id queue (tt, st)).2 = traverse_routes tt target_id queue st) ∧
    (∀ r, min (eatAt (traverse_routes tt target_id queue1 st) r)
        (eatAt (traverse_routes tt target_id queue1 st) target_id) =
      min (eatAt (traverse_routes tt target_id queue2 st) r)
        (eatAt (traverse_routes tt target_id queue2 st) target_id)) ∧
    eatAt (traverse_routes tt target_id queue1 st) target_id =
      eatAt (traverse_routes tt target_id queue2 st) target_id ∧
    (∀ r, eatAt (traverse_routes tt target_id queue1 st) r <
        eatAt (traverse_routes tt target_id queue1 st) target_id →
      eatAt (traverse_routes tt target_id queue1 st) r =
        eatAt (traverse_routes tt target_id queue2 st) r ∧
      (markAt (traverse_routes tt target_id queue1 st) r ↔
        markAt (traverse_routes tt target_id queue2 st) r)) ∧
    (markAt (traverse_routes tt target_id queue1 st) target_id ↔
      markAt (traverse_routes tt target_id queue2 st) target_id) ∧
    (traverse_routes tt target_id queue1 st).stops_improved =
      (traverse_routes tt target_id queue2 st).stops_improved ∧
    (traverse_routes tt target_id queue1 st).prev_earliest_arrival_time =
      (traverse_routes tt target_id queue2 st).prev_earliest_arrival_time ∧
    (traverse_routes tt target_id queue1 st).tmp_hub_labels =
      (traverse_routes tt target_id queue2 st).tmp_hub_labels := by
  have h := traverse_routes_perm tt target_id st queue1 queue2 hp ht hm hr
  have htarget : eatAt (traverse_routes tt target_id queue1 st) target_id =
      eatAt (traverse_routes tt target_id queue2 st) target_id := by
    have := h.clip target_id
    unfold clipAt at this
    rwa [min_self, min_self] at this
  have htmp : (traverse_routes tt target_id queue1 st).tmp_hub_labels =
      (traverse_routes tt target_id queue2 st).tmp_hub_labels := by
    rw [(stage2_summary (traverse_routes_steps tt target_id queue1 st)).2.2.1,
      (stage2_summary (traverse_routes_steps tt target_id queue2 st)).2.2.1]
  refine ⟨fun queue => by rw [scan_queue_eq], h.clip, htarget, fun r hlt => ?_, h.target_mark,
    h.improved, h.prev, htmp⟩
  have hc := h.clip r
  unfold clipAt at hc
  rw [min_eq_left (le_of_lt hlt), ← htarget] at hc
  have heq : eatAt (traverse_routes tt target_id queue1 st) r =
      eatAt (traverse_routes tt target_id queue2 st) r := by
    rcases le_total (eatAt (traverse_routes tt target_id queue2 st) r)
      (eatAt (traverse_routes tt target_id queue1 st) target_id) with h1 | h1
    · rwa [min_eq_left h1] at hc
    · rw [min_eq_right h1] at hc
      exact absurd hc (ne_of_lt hlt)
  refine ⟨heq, ?_⟩
  have hb := h.below r
  unfold markedBelow at hb
  rw [← heq, ← htarget] at hb
  constructor
  · intro hmark
    exact (hb.mp ⟨hlt, hmark⟩).2
  · intro hmark
    exact (hb.mpr ⟨hlt, hmark⟩).2

theorem stage2_order_target_witness :
    List.Perm [((0 : Nat), (0 : Nat)), (1, 0)] [(1, 0), (0, 0)] ∧
    (1 : Nat) < two_routes_start.earliest_arrival_time.length ∧
    two_routes_start.stop_is_marked.length = two_routes_start.earliest_arrival_time.length ∧
    RouteStopsInRange two_routes two_routes_start ∧
    (∀ r, min (eatAt (traverse_routes two_routes 1 [(0, 0), (1, 0)] two_routes_start) r)
        (eatAt (traverse_routes two_routes 1 [(0, 0), (1, 0)] two_routes_start) 1) =
      min (eatAt (traverse_routes two_routes 1 [(1, 0), (0, 0)] two_routes_start) r)
        (eatAt (traverse_routes two_routes 1 [(1, 0), (0, 0)] two_routes_start) 1)) ∧
    (∀ r, eatAt (traverse_routes two_routes 1 [(0, 0), (1, 0)] two_routes_start) r <
        eatAt (traverse_routes two_routes 1 [(0, 0), (1, 0)] two_routes_start) 1 →
      eatAt (traverse_routes two_routes 1 [(0, 0), (1, 0)] two_routes_start) r =
        eatAt (traverse_routes two_routes 1 [(1, 0), (0, 0)] two_routes_start) r ∧
      (markAt (traverse_routes two_routes 1 [(0, 0), (1, 0)] two_routes_start) r ↔
        markAt (traverse_routes two_routes 1 [(1, 0), (0, 0)] two_routes_start) r)) ∧
    (markAt (traverse_routes two_routes 1 [(0, 0), (1, 0)] two_routes_start) 1 ↔
      markAt (traverse_routes two_routes 1 [(1, 0), (0, 0)] two_routes_start) 1) ∧
    (traverse_routes two_routes 1 [(0, 0), (1, 0)] two_routes_start).stops_improved =
      (traverse_routes two_routes 1 [(1, 0), (0, 0)] two_routes_start).stops_improved :=
  ⟨List.Perm.swap _ _ _, by decide, by decide, by unfold RouteStopsInRange; decide,
    (stage2_order_target two_routes 1 two_routes_start [(0, 0), (1, 0)] [(1, 0), (0, 0)]
      (List.Perm.swap _ _ _) (by decide) (by decide)
      (by unfold RouteStopsInRange; decide)).2.1,
    (stage2_order_target two_routes 1 two_routes_start [(0, 0), (1, 0)] [(1, 0), (0, 0)]
      (List.Perm.swap _ _ _) (by decide) (by decide)
      (by unfold RouteStopsInRange; decide)).2.2.2.1,
    (stage2_order_target two_routes 1 two_routes_start [(0, 0), (1, 0)] [(1, 0), (0, 0)]
      (List.Perm.swap _ _ _) (by decide) (by decide)
      (by unfold RouteStopsInRange; decide)).2.2.2.2.1,
    (stage2_order_target two_routes 1 two_routes_start [(0, 0), (1, 0)] [(1, 0), (0, 0)]
      (List.Perm.swap _ _ _) (by decide) (by decide)
      (by unfold RouteStopsInRange; decide)).2.2.2.2.2.1⟩

/-- C16: the code at the failing input. On `walk_only` the source A has a
transfer of 5 minutes to the target B, yet `query(A, B, 09:00)` in
direct-transfer mode on the initialised engine returns `[INF, INF]`, in
whatever order the loop over the queue visits its pairs: the route scan of
round 1 improves nothing, so the loop is left before the footpath stage, and
the last element is not at most 09:05. -/
theorem query_misses_source_transfer :
    (⟨1, Time.fin 5⟩ : Transfer) ∈ (walk_only.stops.getD 0 default).transfers ∧
    (∀ order : route_stop_queue_t → route_stop_queue_t, (∀ queue, (order queue).Perm queue) →
      ∀ fuel, query walk_only order false false (fuel + 1)
          (init walk_only false (constructed false)) 0 1 (Time.fin 540) =
        Outcome.returned [Time.inf, Time.inf]
          ⟨[Time.fin 540, Time.inf], [Time.fin 540, Time.inf], [false, false], [], false⟩) ∧
    ¬ (Time.inf ≤ Time.fin 540 + Time.fin 5) := by
  refine ⟨by decide, ?_, by decide⟩
  intro order hperm fuel
  have h1 : query walk_only order false false 1 (init walk_only false (constructed false)) 0 1
      (Time.fin 540) = Outcome.returned [Time.inf, Time.inf]
        ⟨[Time.fin 540, Time.inf], [Time.fin 540, Time.inf], [false, false], [], false⟩ := by
    rw [query_order_free walk_only order hperm (by unfold PositionsDefined; decide) false false
      1 (init walk_only false (constructed false)) 0 1 (Time.fin 540) (by decide)]
    decide
  unfold query at h1 ⊢
  exact round_loop_fuel_mono walk_only order false false 0 1 1 0 _ _ _ _ h1 (fuel + 1)
    (by omega)

/-- C17. Deferred marking in direct-transfer mode. With the marks as long as
the arrival vector and every transfer destination inside it, after
`scan_footpaths` with `use_hl = false` a stop is marked if and only if it was
marked on entry or its `earliest_arrival_time` was strictly decreased by the
call; the sweep over the stops leaves `stop_is_marked` as it was on entry, so
it is the sweep over the stops marked on entry: only their transfer lists are
scanned. -/
theorem scan_footpaths_deferred_marking (tt : Timetable) (target_id : Nat) (st : State)
    (hlen : st.stop_is_marked.length = st.earliest_arrival_time.length)
    (hdest : ∀ stop ∈ tt.stops, ∀ transfer ∈ stop.transfers,
      transfer.dest < st.earliest_arrival_time.length) :
    (∀ s, markAt (scan_footpaths tt false target_id st) s ↔
      markAt st s ∨ eatAt (scan_footpaths tt false target_id st) s < eatAt st s) ∧
    (scan_footpaths_stops tt target_id tt.stops (st, [])).1.stop_is_marked =
      st.stop_is_marked ∧
    scan_footpaths_stops tt target_id tt.stops (st, []) =
      scan_footpaths_stops tt target_id
        (tt.stops.filter fun stop => st.stop_is_marked.getD stop.id false) (st, []) :=
  ⟨scan_footpaths_marks tt target_id st hlen hdest,
    (scan_footpaths_stops_frame tt target_id tt.stops (st, [])).2.1,
    scan_footpaths_stops_filter tt target_id st.stop_is_marked tt.stops (st, []) rfl⟩

theorem scan_footpaths_deferred_marking_witness :
    markAt (scan_footpaths scenario4 false 1
        ⟨[Time.fin 560, Time.fin 610, Time.inf], [Time.fin 560, Time.inf, Time.inf],
          [true, true, false], [], true⟩) 2 ↔
      markAt ⟨[Time.fin 560, Time.fin 610, Time.inf], [Time.fin 560, Time.inf, Time.inf],
          [true, true, false], [], true⟩ 2 ∨
        eatAt (scan_footpaths scenario4 false 1
          ⟨[Time.fin 560, Time.fin 610, Time.inf], [Time.fin 560, Time.inf, Time.inf],
            [true, true, false], [], true⟩) 2 <
          eatAt ⟨[Time.fin 560, Time.fin 610, Time.inf], [Time.fin 560, Time.inf, Time.inf],
            [true, true, false], [], true⟩ 2 :=
  (scan_footpaths_deferred_marking scenario4 1
    ⟨[Time.fin 560, Time.fin 610, Time.inf], [Time.fin 560, Time.inf, Time.inf],
      [true, true, false], [], true⟩ (by decide) (by decide)).1 2

/-- C18. Whatever `query` returns has at least two elements and its last two
elements are equal, in whatever order the loop over the queue visits its pairs
and with the keys that the lookup `stop_positions[stop_id]` inserts; with the
ids in range `query` does return. -/
theorem query_last_two_equal (tt : Timetable)
    (order : route_stop_queue_t → route_stop_queue_t) (use_hl profile : Bool) (st : State)
    (source_id target_id : Nat) (departure_time : Time) :
    (∀ fuel labels st1,
      query tt order use_hl profile fuel st source_id target_id departure_time =
        Outcome.returned labels st1 →
        2 ≤ labels.length ∧ ∃ front x, labels = front ++ [x, x]) ∧
    ((∀ queue, (order queue).Perm queue) → PositionsDefined tt → RouteStopsInRange tt st →
      ∃ fuel labels st1,
        query tt order use_hl profile fuel st source_id target_id departure_time =
          Outcome.returned labels st1) := by
  constructor
  · intro fuel labels st1 h
    obtain ⟨front, x, hx⟩ := query_last_two tt order use_hl profile fuel st source_id target_id
      departure_time labels st1 h
    refine ⟨?_, front, x, hx⟩
    rw [hx, List.length_append]
    show 2 ≤ front.length + 2
    omega
  · intro hperm hpos hrange
    exact query_returns tt order hperm use_hl profile st source_id target_id departure_time
      hpos hrange

theorem query_last_two_equal_witness :
    2 ≤ ([Time.inf, Time.fin 620, Time.fin 620] : List Time).length ∧
      ∃ front x, [Time.inf, Time.fin 620, Time.fin 620] = front ++ [x, x] :=
  (query_last_two_equal scenario1 (fun queue => queue) false false
    (init scenario1 false (constructed false)) 0 1 (Time.fin 540)).1 3 _
    ⟨[Time.fin 540, Time.fin 620], [Time.fin 540, Time.fin 620], [false, false], [], false⟩
    (by decide)

/-- C20. `Label::dominates` is a strict partial order on labels: it is
irreflexive, asymmetric and transitive. -/
theorem dominates_strict_order :
    (∀ L : Label, L.dominates L = false) ∧
    (∀ L1 L2 : Label, L1.dominates L2 = true → L2.dominates L1 = false) ∧
    (∀ L1 L2 L3 : Label, L1.dominates L2 = true → L2.dominates L3 = true →
      L1.dominates L3 = true) := by
  refine ⟨fun L => ?_, fun L1 L2 h => ?_, fun L1 L2 L3 h12 h23 => ?_⟩
  · rw [Bool.eq_false_iff]
    intro h
    rcases (dominates_eq_true L L).mp h with ⟨-, h1⟩ | ⟨h1, -⟩
    · exact lt_irrefl _ h1
    · exact lt_irrefl _ h1
  · rw [Bool.eq_false_iff]
    intro h'
    rcases (dominates_eq_true L1 L2).mp h with ⟨a1, a2⟩ | ⟨a1, a2⟩ <;>
      rcases (dominates_eq_true L2 L1).mp h' with ⟨b1, b2⟩ | ⟨b1, b2⟩
    · exact lt_irrefl _ (lt_trans a2 b2)
    · exact lt_irrefl _ (lt_of_lt_of_le a2 b2)
    · exact lt_irrefl _ (lt_of_lt_of_le a1 b1)
    · exact lt_irrefl _ (lt_trans a1 b1)
  · apply (dominates_eq_true L1 L3).mpr
    rcases (dominates_eq_true L1 L2).mp h12 with ⟨a1, a2⟩ | ⟨a1, a2⟩ <;>
      rcases (dominates_eq_true L2 L3).mp h23 with ⟨b1, b2⟩ | ⟨b1, b2⟩
    · exact Or.inl ⟨le_trans a1 b1, lt_trans a2 b2⟩
    · exact Or.inl ⟨le_trans a1 (le_of_lt b1), lt_of_lt_of_le a2 b2⟩
    · exact Or.inl ⟨le_trans (le_of_lt a1) b1, lt_of_le_of_lt a2 b2⟩
    · exact Or.inr ⟨lt_trans a1 b1, le_trans a2 b2⟩

theorem dominates_strict_order_witness :
    Label.dominates ⟨Time.fin 2, Time.fin 2⟩ ⟨Time.fin 1, Time.fin 1⟩ = false :=
  dominates_strict_order.2.1 ⟨Time.fin 1, Time.fin 1⟩ ⟨Time.fin 2, Time.fin 2⟩ (by decide)

end Raptor
